import Mathlib

/-!
The IR-to-Go back end `irgo.go`.

A shallow embedding of `irgo.go`: the symbol mangler, the string pool, the
bit-field store helper, the top-level entry point `New`, type lowering,
`isBuiltin`, the helper synthesis, and the emitters of values, expressions,
statements and function definitions, followed by the properties proved about
them.

Conventions of the embedding.

* A Go `[]byte` is a `List Byte`, a byte being a `Fin 256`.
* Go's `int` is `Int`; sizes and offsets that are never negative are `Nat`.
* The interning dictionary `xc.Dict` is an external library.  It enters as a
  value `d : Dict ι` with its two operations `S` (id to bytes) and `ID` (bytes
  to id); `ι` is the type of ids (`ir.NameID`, `ir.StringID`).  Its contract,
  `Dict.Interning`, is a hypothesis where a property needs it.
* A Go map is an association list, the newest binding first, read with
  `lookup`.
* A function that can panic returns the value `Except PanicVal _` next to the
  state of the generator after the call, so that what a panicking call leaves
  behind can be stated.
* A method that writes to the buffer `g.out` is an `Emit`: it returns its
  value, the bytes it appended and the generator after it, or the value of its
  panic.  A text of `g.w` is built from `ascii` literals and the formatted
  arguments.
-/

namespace Irgo

/-! ## Bytes, maps, the dictionary -/

/-- One byte of a Go byte slice. -/
abbrev Byte := Fin 256

/-- Reading a Go map `m[k]`: the value bound to `k` and whether there is one. -/
def lookup {κ ν : Type} [DecidableEq κ] : List (κ × ν) → κ → Option ν
  | [], _ => none
  | (k', v) :: m, k => if k' = k then some v else lookup m k

/-- The interning dictionary `xc.Dict`: `S` gives the bytes of an id, `ID` the
id of a byte string. -/
structure Dict (ι : Type) where
  S : ι → List Byte
  ID : List Byte → ι

/-- The contract of the dictionary: an id and its bytes determine each other. -/
def Dict.Interning {ι : Type} (d : Dict ι) : Prop :=
  (∀ b, d.S (d.ID b) = b) ∧ (∀ i, d.ID (d.S i) = i)

/-- The dictionary whose ids are the byte strings themselves. -/
def bytesDict : Dict (List Byte) := ⟨id, id⟩

/-- A value handed to `panic`: either one that implements `error` (what
`TODO` raises with `fmt.Errorf`, what `g.w` re-raises, a run-time error) or any
other value (the string of `panic("internal error")`). -/
inductive PanicVal where
  | err (msg : String)
  | val (msg : String)
  deriving DecidableEq, Repr

/-! ## Formatting verbs of `fmt` -/

/-- The ASCII decimal digit of `n % 10`. -/
def digitByte (n : Nat) : Byte := ⟨48 + n % 10, by omega⟩

/-- Decimal digits of `n`, most significant first; `fuel` bounds the number of
digits. -/
def fmtNatAux : Nat → Nat → List Byte
  | 0, _ => []
  | fuel + 1, n => if n < 10 then [digitByte n] else fmtNatAux fuel (n / 10) ++ [digitByte n]

/-- The verb `%v` on a non-negative integer. -/
def fmtNat (n : Nat) : List Byte := fmtNatAux (n + 1) n

/-- The verb `%v` on an `int`: decimal, with a leading `-` when negative. -/
def fmtInt (i : Int) : List Byte :=
  if i < 0 then 45 :: fmtNat i.natAbs else fmtNat i.natAbs

/-- The number a string of decimal digits stands for. -/
def decVal (l : List Byte) : Nat := l.foldl (fun a b => 10 * a + (b.val - 48)) 0

/-- One lower-case hexadecimal digit. -/
def hexDigit (n : Nat) : Byte :=
  if n % 16 < 10 then ⟨48 + n % 16, by omega⟩ else ⟨87 + n % 16, by omega⟩

/-- The verb `%02x` on a byte: exactly two lower-case hexadecimal digits. -/
def fmtHex2 (v : Byte) : List Byte := [hexDigit (v.val / 16), hexDigit v.val]

/-! ## The generator state -/

/-- The key of the mangling cache (`type cname`). -/
structure cname (ι : Type) where
  NameID : ι
  exported : Bool
  index : Int
  deriving DecidableEq

/-- The fields of `type gen` that the mangler and the string pool use:
`mangled` is the mangling cache, `strTab` the offset table of the string pool
and `strings` the pool's bytes. -/
structure gen (ι : Type) where
  mangled : List (cname ι × ι)
  strTab : List (ι × Nat)
  strings : List Byte

/-- The maps and buffers of `newGen`: all empty. -/
def newGen (ι : Type) : gen ι := ⟨[], [], []⟩

/-! ## `gen.mangle` -/

/-- One turn of the escaping loop of `mangle`: a byte below `' '` or from
`0x7f` up is written as `Ø` (the two bytes `c3 98` of its UTF-8 form) and two
hexadecimal digits, every other byte is copied. -/
def mangleByte (buf : List Byte) (v : Byte) : List Byte :=
  if v.val < 32 ∨ 127 ≤ v.val then buf ++ ([195, 152] ++ fmtHex2 v) else buf ++ [v]

/-- The `switch` at the head of `mangle`: `X` for an exported name, which
must not carry a scope index; otherwise `_`, preceded by `_<index>` when there
is a scope index. -/
def mangleHead (exported : Bool) (index : Int) : Except PanicVal (List Byte) :=
  if exported then
    if index ≥ 0 then .error (.val "internal error") else .ok [88]
  else
    .ok ((if index ≥ 0 then 95 :: fmtInt index else []) ++ [95])

/-- The method `gen.mangle`. -/
def gen.mangle {ι : Type} [DecidableEq ι] (d : Dict ι) (g : gen ι)
    (nm : ι) (exported : Bool) (index : Int) : Except PanicVal ι × gen ι :=
  let k : cname ι := ⟨nm, exported, index⟩
  match lookup g.mangled k with
  | some x => (.ok x, g)
  | none =>
    match mangleHead exported index with
    | .error e => (.error e, g)
    | .ok buf =>
      let buf := (d.S nm).foldl mangleByte buf
      let id := d.ID buf
      (.ok id, { g with mangled := (k, id) :: g.mangled })

/-- The generator after a sequence of `mangle` calls on a fresh generator, one
call per key of `ks`, in order. -/
def mangleRun {ι : Type} [DecidableEq ι] (d : Dict ι) (ks : List (cname ι)) : gen ι :=
  ks.foldl (fun g k => (g.mangle d k.NameID k.exported k.index).2) (newGen ι)

/-- The bytes the escaping loop of `mangle` appends for a whole name. -/
def escapeName : List Byte → List Byte
  | [] => []
  | v :: l => mangleByte [] v ++ escapeName l

/-- The text of the identifier `mangle` builds for a key, the cache apart. -/
def mangleText {ι : Type} (d : Dict ι) (k : cname ι) : Except PanicVal (List Byte) :=
  match mangleHead k.exported k.index with
  | .error e => .error e
  | .ok buf => .ok (buf ++ escapeName (d.S k.NameID))

/-- Every entry of the cache holds the id of the text built for its key. -/
def CacheOk {ι : Type} (d : Dict ι) (g : gen ι) : Prop :=
  ∀ k v, (k, v) ∈ g.mangled → (mangleText d k).map d.ID = .ok v


/-! ## Identifiers of Go

`identifier = letter { letter | unicode_digit }`, where `letter` is a Unicode
letter or `_`.  The recogniser below reads UTF-8 and knows the characters
below U+0100 (one byte, or a two-byte form led by `c2` or `c3`); it rejects a
text with any other character.  `mangle` copies bytes below `0x7f` only and
adds `Ø` (U+00D8), so on what `mangle` emits the recogniser is exact. -/

/-- An ASCII letter or the underscore. -/
def asciiLetter (b : Nat) : Bool :=
  (65 ≤ b && b ≤ 90) || (97 ≤ b && b ≤ 122) || b == 95

/-- An ASCII decimal digit, the only decimal digits below U+0100. -/
def asciiDigit (b : Nat) : Bool := 48 ≤ b && b ≤ 57

/-- The letters of the Latin-1 supplement, by code point. -/
def latin1Letter (c : Nat) : Bool :=
  c == 170 || c == 181 || c == 186 || (192 ≤ c && c ≤ 214) || (216 ≤ c && c ≤ 246) ||
    (248 ≤ c && c ≤ 255)

/-- Every character of the text is a letter, a digit or an underscore. -/
def identChars : List Byte → Bool
  | [] => true
  | [b] => asciiLetter b.val || asciiDigit b.val
  | b :: c :: rest =>
    if b.val < 128 then (asciiLetter b.val || asciiDigit b.val) && identChars (c :: rest)
    else
      (b.val == 194 || b.val == 195) && (128 ≤ c.val && c.val < 192) &&
        latin1Letter ((b.val - 192) * 64 + (c.val - 128)) && identChars rest

/-- The text is an identifier of Go: it starts with a letter or an underscore
and goes on with letters, digits and underscores. -/
def goIdentifier : List Byte → Bool
  | [] => false
  | b :: rest => !(asciiDigit b.val) && identChars (b :: rest)

/-! ## The string pool: `gen.string` -/

/-- The two values of `mathutil.UintPtrBits`. -/
inductive Arch where
  | bits32
  | bits64
  deriving DecidableEq, Repr

/-- The constant `mathutil.UintPtrBits`. -/
def UintPtrBits : Arch → Nat
  | .bits32 => 32
  | .bits64 => 64

/-- The constant `ptrSize`. -/
def ptrSize (a : Arch) : Nat := UintPtrBits a / 8

/-- The constant `mallocAllign`. -/
def mallocAllign (a : Arch) : Nat := 2 * ptrSize a

/-- Modelled from the spec: `roundup` is called by `gen.string` and defined in
a file of the repository that is not among the sources; it returns the least
multiple of `m` that is not below `n`. -/
def roundup (n m : Nat) : Nat := (n + m - 1) / m * m

/-- What `gen.string` relies on from `roundup`: for a positive `m` the result
is the least multiple of `m` that is not below `n`. -/
def IsRoundup (r : Nat → Nat → Nat) : Prop :=
  ∀ n m, 0 < m → m ∣ r n m ∧ n ≤ r n m ∧ ∀ k, m ∣ k → n ≤ k → r n m ≤ k

/-- The padding loop `for g.strings.Len() < x { g.strings.WriteByte(0) }`;
`fuel` bounds the number of turns. -/
def padLoop : Nat → Nat → List Byte → List Byte
  | 0, _, s => s
  | fuel + 1, x, s => if s.length < x then padLoop fuel x (s ++ [0]) else s

/-- The method `gen.string`, with `roundup` as `r`.  The padding loop gets `x`
turns, which is as many as it can take. -/
def gen.string {ι : Type} [DecidableEq ι] (d : Dict ι) (a : Arch) (r : Nat → Nat → Nat)
    (g : gen ι) (n : ι) : Nat × gen ι :=
  match lookup g.strTab n with
  | some x => (x, g)
  | none =>
    let x := r g.strings.length (mallocAllign a)
    let padded := padLoop x x g.strings
    (x, { g with strTab := (n, x) :: g.strTab, strings := (padded ++ d.S n) ++ [0] })

/-- The generator after `gen.string` was called on each id of `ns`, in order,
starting from `g`. -/
def stringRun {ι : Type} [DecidableEq ι] (d : Dict ι) (a : Arch) (r : Nat → Nat → Nat)
    (g : gen ι) (ns : List ι) : gen ι :=
  ns.foldl (fun g n => (g.string d a r n).2) g

/-- The bytes of the pool from offset `x` up to the first zero byte. -/
def cstringAt (pool : List Byte) (x : Nat) : List Byte :=
  (pool.drop x).takeWhile (fun b => b ≠ 0)

/-- Every entry of the offset table points at its string in the pool, a zero
byte behind it. -/
def PoolOk {ι : Type} (d : Dict ι) (g : gen ι) : Prop :=
  ∀ n x, (n, x) ∈ g.strTab →
    ∃ pre post, g.strings = pre ++ (d.S n ++ 0 :: post) ∧ pre.length = x

/-- Every offset of the table is a multiple of `mallocAllign`. -/
def Aligned {ι : Type} (a : Arch) (g : gen ι) : Prop :=
  ∀ n x, (n, x) ∈ g.strTab → mallocAllign a ∣ x

/-! ## Bit-field stores

`case *ir.Store` with `x.Bits != 0` emits the call
`storebits_T(<address>, (<value><<BitOffset), <mask>, BitOffset)`, and `gen.gen`
emits the helper
`func storebits_T(p *T, v, m T, o uint) T { *p = *p&m|(v<<o); return v }`.
`T` is an integer type of `W` bits; its values are taken as bit patterns below
`2 ^ W`.  In Go `&` and `<<` bind tighter than `|`. -/

/-- The mask the `Store` case prints:
`(uint64(1)<<uint(x.Bits)-1)<<uint(x.BitOffset)`, in `uint64`. -/
def storeMask (Bits BitOffset : Nat) : Nat :=
  ((((1 <<< Bits) % 2 ^ 64 + 2 ^ 64 - 1) % 2 ^ 64) <<< BitOffset) % 2 ^ 64

/-- The word the helper `storebits_T` leaves in `*p`: `*p&m|(v<<o)`. -/
def storebits (W p v m o : Nat) : Nat :=
  (p &&& m) ||| ((v <<< o) % 2 ^ W)

/-- The word in memory after the emitted bit-field store of `value`, the word
having been `old`: the helper applied to the arguments of the call site. -/
def storeBitField (W old value Bits BitOffset : Nat) : Nat :=
  storebits W old ((value <<< BitOffset) % 2 ^ W) (storeMask Bits BitOffset) BitOffset

/-! ## The entry point `New` -/

/-- A non-nil value of Go's `error`, by its message. -/
abbrev GoError := String

/-- How `g = newGen(obj, qualifier); return g.gen()` ends: `gen` returns its
error result, `g.out` holding the bytes `out`, or a panic unwinds to the function
that `New` deferred, with the value `v`. -/
inductive GenOutcome where
  | returned (err : Option GoError) (out : List Byte)
  | panicked (v : PanicVal)

/-- What the caller of `New` observes: the panic `New` ends with, if any, the
error it returns otherwise, and the byte slices handed to `out.Write`, in
order. -/
structure NewResult where
  panic : Option GoError
  err : Option GoError
  writes : List (List Byte)
  deriving DecidableEq, Repr

/-- The function `bytes.IndexByte`: the index of the first `c` in `b`, or `-1`. -/
def IndexByte : List Byte → Byte → Int
  | [], _ => -1
  | x :: b, c => if x = c then 0 else
      let i := IndexByte b c
      if i < 0 then -1 else i + 1

/-- The function `New`.  `Testing` is the package variable, `run` says how the
body `g = newGen(obj, qualifier); return g.gen()` ended, `outWrite` is the
error result of `out.Write` on a byte slice and `closeErr` the result of
`g.out.Close()`.  The deferred function sets the result `err`, whatever the
`return` statement had put there. -/
def New (Testing : Bool) (run : GenOutcome) (outWrite : List Byte → Option GoError)
    (closeErr : Option GoError) : NewResult :=
  match run with
  | .returned _ out =>
    -- case nil
    let b := out
    let i := IndexByte b 10
    let p := b.drop (i + 1).toNat
    let err := outWrite p
    let err := if closeErr ≠ none ∧ err = none then closeErr else err
    { panic := none, err := err, writes := [p] }
  | .panicked v =>
    let err : GoError :=
      match v with
      | .err e => e
      | .val x => "irgo.New: PANIC: " ++ x
    if Testing then { panic := some err, err := none, writes := [] }
    else { panic := none, err := some err, writes := [] }

/-! ## The IR consumed by the emitter

The packages `ir` and `go/token` are external.  Their types enter with the
fields that `irgo.go` reads.  A floating-point value is carried by its bits;
how `fmt` prints it is a parameter of the environment. -/

/-- The type `ir.TypeID`, an integer. -/
abbrev TypeID := Int

/-- The result of `Type.Kind()`. -/
inductive Kind where
  | Int8 | Uint8 | Int16 | Uint16 | Int32 | Uint32 | Int64 | Uint64
  | Float32 | Float64 | Complex64 | Complex128
  | Array | Struct | Union | Pointer | Function | Other
  deriving DecidableEq, Repr

/-- The interface `ir.Type` with its implementations `ArrayType`,
`StructOrUnionType`, `PointerType` and `FunctionType`; `Other` stands for a
type of any further kind. -/
inductive Ty where
  | Int8 | Uint8 | Int16 | Uint16 | Int32 | Uint32 | Int64 | Uint64
  | Float32 | Float64 | Complex64 | Complex128
  | Array (Items : Int) (Item : Ty)
  | Struct (Fields : List Ty)
  | Union (Fields : List Ty)
  | Pointer (Element : Ty)
  | Function (Arguments : List Ty) (Results : List Ty) (Variadic : Bool)
  | Other

/-- The method `Type.Kind()`. -/
def Ty.Kind : Ty → Kind
  | .Int8 => .Int8 | .Uint8 => .Uint8 | .Int16 => .Int16 | .Uint16 => .Uint16
  | .Int32 => .Int32 | .Uint32 => .Uint32 | .Int64 => .Int64 | .Uint64 => .Uint64
  | .Float32 => .Float32 | .Float64 => .Float64
  | .Complex64 => .Complex64 | .Complex128 => .Complex128
  | .Array _ _ => .Array | .Struct _ => .Struct | .Union _ => .Union
  | .Pointer _ => .Pointer | .Function _ _ _ => .Function | .Other => .Other

/-- The type `ir.Linkage`. -/
inductive Linkage where
  | ExternalLinkage
  | InternalLinkage
  deriving DecidableEq, Repr

/-- The type `token.Position`. -/
structure Position where
  Filename : List Byte
  Offset : Int
  Line : Int
  Column : Int
  deriving DecidableEq

/-- The interface `ir.Value`; `Nil` is the nil interface value and `Other` a
value of any further type.  A floating-point value is its bit pattern. -/
inductive Value (ι : Type) where
  | Nil
  | AddressValue (Label : ι) (NameID : ι) (Linkage : Linkage) (Offset : Int)
  | CompositeValue (Values : List (Value ι))
  | Complex64Value (re im : Int)
  | Float32Value (bits : Int)
  | Float64Value (bits : Int)
  | Int32Value (Value : Int)
  | Int64Value (Value : Int)
  | StringValue (StringID : ι) (Offset : Int)
  | Other

/-- The target of a jump: a name, or a number when the name is the zero id
(the struct `ir.Label` held by `ir.Switch`). -/
structure Target (ι : Type) where
  NameID : ι
  Number : Int

/-- The interface `ir.Operation`, with the fields of each operation that the
emitter reads; `Other` is an operation of any further type. -/
inductive Op (ι : Type) where
  | Argument (Address : Bool) (Index : Int)
  | Bool (TypeID : TypeID)
  | Call (Index : Int)
  | CallFP
  | Const32 (TypeID : TypeID) (Value : Int)
  | Const64 (TypeID : TypeID) (Value : Int)
  | Convert (Result : TypeID)
  | Copy (TypeID : TypeID)
  | Cpl
  | Drop
  | Dup
  | Element (Address Neg : Bool)
  | Field (Address : Bool) (Index : Int)
  | Global (Address : Bool) (Index : Int) (NameID : ι) (Linkage : Linkage) (TypeID : TypeID)
  | Jnz (NameID : ι) (Number : Int)
  | Jz (NameID : ι) (Number : Int)
  | Label (Cond LAnd LOr : Bool) (NameID : ι) (Number : Int)
  | Load
  | Lsh | Rsh
  | Eq | Geq | Gt | Leq | Lt | Neq
  | Add | And | Div | Mul | Or | Rem | Sub | Xor
  | Nil
  | Neg
  | Not
  | PostIncrement (TypeID : TypeID) (Bits : Int) (Delta : Int)
  | PreIncrement (TypeID : TypeID) (Bits : Int) (Delta : Int)
  | PtrDiff (PtrType : TypeID) (TypeID : TypeID)
  | Result (Address : Bool) (Index : Int)
  | Store (TypeID : TypeID) (Bits : Int) (BitOffset : Int)
  | StringConst (Value : ι)
  | Switch (Values : List (Value ι)) (Labels : List (Target ι)) (Default : Target ι)
  | Variable (Address : Bool) (Index : Int)
  | Return
  | VariableDeclaration (Index : Int) (NameID : ι) (TypeID : TypeID) (Value : Value ι)
      (Position : Position)
  | Jmp (NameID : ι) (Number : Int)
  | AllocResult
  | Arguments
  | BeginScope
  | EndScope
  | Panic
  | Other

/-- The type `exprNode`, which is declared in a file of the repository that is
not among the sources: the operation, the operand nodes, the node of the
preceding comma operand, the type of the result and the parent.  Of the parent
only the operation is ever looked at; `Parent` holds it, as the node has it
before `expression` runs. -/
inductive exprNode (ι : Type) where
  | mk (Op : Op ι) (Childs : List (exprNode ι)) (Comma : Option (exprNode ι))
      (TypeID : TypeID) (Parent : Option (Irgo.Op ι))

/-- The field `Op` of a node. -/
def exprNode.Op {ι : Type} : exprNode ι → Irgo.Op ι
  | .mk op _ _ _ _ => op

/-- The field `Childs` of a node. -/
def exprNode.Childs {ι : Type} : exprNode ι → List (exprNode ι)
  | .mk _ c _ _ _ => c

/-- The field `Comma` of a node. -/
def exprNode.Comma {ι : Type} : exprNode ι → Option (exprNode ι)
  | .mk _ _ c _ _ => c

/-- The field `TypeID` of a node. -/
def exprNode.TypeID {ι : Type} : exprNode ι → Irgo.TypeID
  | .mk _ _ _ t _ => t

/-- The field `Parent` of a node, as far as it is read. -/
def exprNode.Parent {ι : Type} : exprNode ι → Option (Irgo.Op ι)
  | .mk _ _ _ _ p => p

/-- An operation of a block: an expression tree (`*expr`) or an operation of
the IR. -/
inductive nodeOp (ι : Type) where
  | expr (Expr : exprNode ι)
  | op (x : Op ι)

/-- The type `node`, a block of the reconstructed control flow, as far as
`emit` reads it. -/
structure node (ι : Type) where
  Ops : List (nodeOp ι)

/-- The type `ir.FunctionDefinition`. -/
structure FunctionDefinition (ι : Type) where
  NameID : ι
  Linkage : Linkage
  TypeID : TypeID
  Position : Position
  Arguments : List ι
  Body : List (Op ι)

/-- The type `ir.DataDefinition`. -/
structure DataDefinition (ι : Type) where
  NameID : ι
  Linkage : Linkage
  TypeID : TypeID
  Position : Position
  Value : Value ι

/-- The interface `ir.Object`; `Other` is an object of any further type. -/
inductive Object (ι : Type) where
  | FunctionDefinition (x : Irgo.FunctionDefinition ι)
  | DataDefinition (x : Irgo.DataDefinition ι)
  | Other

/-- The method `Object.Base()`, as far as it is read: the type id. -/
def Object.BaseTypeID {ι : Type} : Object ι → Option TypeID
  | .FunctionDefinition x => some x.TypeID
  | .DataDefinition x => some x.TypeID
  | .Other => none

/-- The declaration of a local variable, as `varNfo.def` points at it. -/
structure VarDef (ι : Type) where
  Index : Int
  NameID : ι
  TypeID : TypeID
  Value : Value ι
  Position : Position

/-- The type `varNfo`; `decl` is its field `def`. -/
structure varNfo (ι : Type) where
  decl : VarDef ι
  scope : Int

/-- The type `fn`: the function being emitted, the arguments, results and
variadic flag of its type, and its variable table. -/
structure fn (ι : Type) where
  f : FunctionDefinition ι
  Arguments : List Ty
  Results : List Ty
  Variadic : Bool
  varNfo : List (varNfo ι)

/-! ## The environment and the emitter state -/

/-- One element of the slice `helpers` returns (`type typeNfo`): a type id and
its `String()`. -/
structure typeNfo where
  TypeID : TypeID
  string : List Byte
  deriving DecidableEq

/-- What the generator is given and what it calls outside `irgo.go`: the
arguments of `New` (`obj`, `qualifier`), the external packages (`xc.Dict`, the
type cache and memory model of `ir`, `fmt`, `sort`, `path/filepath`,
`go/token`), the order in which Go ranges over a map, and the declarations of
the repository that are not among the sources (`roundup`, `varInfo`,
`newGraph`, `isZeroValue`, the order of `switchPairs`, the `id...` constants,
and the optimizer pass `newOpt(g).opt()`: from the buffer `g.out` it gives its
error result and the buffer it leaves, or it panics).  The callback
`qualifier` gets the number of calls made before, since nothing says that it
answers the same way twice; `zeroID` is the id 0. -/
structure Env (ι : Type) where
  dict : Dict ι
  arch : Arch
  roundup : Nat → Nat → Nat
  obj : List (Object ι)
  qualifier : Nat → FunctionDefinition ι → List Byte
  MustType : TypeID → Option Ty
  ID : Ty → TypeID
  TypeIDString : TypeID → List Byte
  Sizeof : Ty → Int
  idVoidPtr : TypeID
  idInt32 : TypeID
  idInt64 : TypeID
  idUint64 : TypeID
  idFloat64 : TypeID
  idComplex64 : TypeID
  idMain : ι
  zeroID : ι
  Base : List Byte → List Byte
  PositionString : Position → List Byte
  Float32String : Int → List Byte
  Float64String : Int → List Byte
  isZeroValue : Value ι → Bool
  unionValue : Ty → List (Value ι) → Except PanicVal (List Byte)
  varInfo : List (Op ι) → List (varNfo ι)
  newGraph : List (Op ι) → List (node ι)
  sortPairs : List (Value ι × Target ι) → List (Value ι × Target ι)
  rangeKeys : List TypeID → List TypeID
  sortSlice : List typeNfo → List typeNfo
  opt : List Byte → Except PanicVal (Option GoError × List Byte)

/-- The fields of `type gen` beyond those of the mangler and the string pool:
the cache of `isBuiltin` and the five helper-need sets, a Go map used as a set
being the list of its keys.  `asked` is no field of `gen`: it lists the object
indexes the qualifier callback was invoked for, oldest first.  The buffer
`out` is not here: what a function writes to it is part of its result. -/
structure generator (ι : Type) extends gen ι where
  builtins : List (Int × List Byte)
  copies : List TypeID
  postIncs : List TypeID
  preIncs : List TypeID
  storebits : List TypeID
  stores : List TypeID
  asked : List Int

/-- The generator `newGen` returns. -/
def newGenerator (ι : Type) : generator ι :=
  { togen := newGen ι, builtins := [], copies := [], postIncs := [], preIncs := [],
    storebits := [], stores := [], asked := [] }

/-- A method of `gen` that writes to `g.out`: from the generator it either
panics or returns a value, the bytes it appended to `g.out` and the generator
after it. -/
def Emit (ι α : Type) : Type := generator ι → Except PanicVal (α × List Byte × generator ι)

/-- Returning a value without writing. -/
def Emit.pure {ι α : Type} (a : α) : Emit ι α := fun g => .ok (a, [], g)

/-- Running `m`, then `f` on its value: the texts follow each other, a panic
ends the run. -/
def Emit.bind {ι α β : Type} (m : Emit ι α) (f : α → Emit ι β) : Emit ι β := fun g =>
  match m g with
  | .error e => .error e
  | .ok (a, t, g1) =>
    match f a g1 with
    | .error e => .error e
    | .ok (b, u, g2) => .ok (b, t ++ u, g2)

/-- A call of `panic`. -/
def raise {ι α : Type} (v : PanicVal) : Emit ι α := fun _ => .error v

/-- The function `TODO`: it panics with an error made by `fmt.Errorf`. -/
def TODO {ι α : Type} : Emit ι α := raise (.err "TODO")

/-- A run-time panic of Go: an index out of range, a failed type assertion. -/
def runtimePanic {ι α : Type} : Emit ι α := raise (.err "runtime error")

/-- The bytes of an ASCII string literal. -/
def ascii (s : String) : List Byte := s.data.map (fun c => Fin.ofNat c.toNat)

/-- The method `gen.w` on an already formatted text; writing to the buffer does
not fail. -/
def w {ι : Type} (t : List Byte) : Emit ι Unit := fun g => .ok ((), t, g)

/-- The method `gen.w` on a text without verbs. -/
def ws {ι : Type} (s : String) : Emit ι Unit := w (ascii s)

/-- A result that may be a panic, inside a method of `gen`. -/
def liftExcept {ι α : Type} : Except PanicVal α → Emit ι α
  | .ok a => Emit.pure a
  | .error e => raise e

/-- The element `l[i]` of a slice; a panic when `i` is out of range. -/
def index {ι α : Type} (l : List α) (i : Int) : Emit ι α :=
  if i < 0 then runtimePanic
  else match l.get? i.toNat with
    | some a => Emit.pure a
    | none => runtimePanic

/-- The call `g.tc.MustType(id)`; it panics on an id it cannot resolve. -/
def MustType {ι : Type} (env : Env ι) (id : TypeID) : Emit ι Ty :=
  match env.MustType id with
  | some t => Emit.pure t
  | none => raise (.err "MustType")

/-- The method `gen.mangle` as a method that may write; the identifier it
returns is printed with `%v` or `%s`, that is as `dict.S` of it. -/
def mangle {ι : Type} [DecidableEq ι] (env : Env ι) (nm : ι) (exported : Bool) (index : Int) :
    Emit ι ι := fun g =>
  match g.togen.mangle env.dict nm exported index with
  | (.ok id, c) => .ok (id, [], { g with togen := c })
  | (.error e, _) => .error e

/-- The method `gen.string` as a method that may write. -/
def string {ι : Type} [DecidableEq ι] (env : Env ι) (n : ι) : Emit ι Nat := fun g =>
  match g.togen.string env.dict env.arch env.roundup n with
  | (x, c) => .ok (x, [], { g with togen := c })

/-- The assignment `m[k] = struct{}{}` on a map used as a set. -/
def setAdd (m : List TypeID) (k : TypeID) : List TypeID := if k ∈ m then m else k :: m

/-- The five families of helpers. -/
inductive Family where
  | copy
  | postInc
  | preInc
  | storebits
  | store
  deriving DecidableEq, Repr

/-- The helper-need set of a family. -/
def generator.need {ι : Type} (g : generator ι) : Family → List TypeID
  | .copy => g.copies
  | .postInc => g.postIncs
  | .preInc => g.preIncs
  | .storebits => g.storebits
  | .store => g.stores

/-- Recording that a helper is needed: `g.copies[x.TypeID] = struct{}{}` and
its likes. -/
def generator.request {ι : Type} (g : generator ι) (f : Family) (t : TypeID) : generator ι :=
  match f with
  | .copy => { g with copies := setAdd g.copies t }
  | .postInc => { g with postIncs := setAdd g.postIncs t }
  | .preInc => { g with preIncs := setAdd g.preIncs t }
  | .storebits => { g with storebits := setAdd g.storebits t }
  | .store => { g with stores := setAdd g.stores t }

/-- Recording a need, as a step of a method of `gen`. -/
def request {ι : Type} (f : Family) (t : TypeID) : Emit ι Unit := fun g =>
  .ok ((), [], g.request f t)

/-- The conversion of an integer to an unsigned type of `bits` bits. -/
def toUnsigned (bits : Nat) (v : Int) : Nat := (v % 2 ^ bits).toNat

/-- The conversion of an integer to a signed type of `bits` bits. -/
def toSigned (bits : Nat) (v : Int) : Int :=
  (v + 2 ^ (bits - 1)) % 2 ^ bits - 2 ^ (bits - 1)

/-- The conversion `uintptr(v)`. -/
def uintptr (a : Arch) (v : Int) : Nat := toUnsigned (UintPtrBits a) v

/-- Reading the fields of the generator. -/
def getGen {ι : Type} : Emit ι (generator ι) := fun g => .ok (g, [], g)

/-- A `for ... range` loop over a slice, the body a method of `gen`. -/
def forEach {ι α : Type} (body : α → Emit ι Unit) : List α → Emit ι Unit
  | [] => Emit.pure ()
  | a :: l => Emit.bind (body a) (fun _ => forEach body l)

/-- A `for i, v := range` loop over a slice, `i` counting from `start`. -/
def forEachIdx {ι α : Type} (body : Nat → α → Emit ι Unit) : Nat → List α → Emit ι Unit
  | _, [] => Emit.pure ()
  | i, a :: l => Emit.bind (body i a) (fun _ => forEachIdx body (i + 1) l)

/-! ## Type lowering: `typ0`, `typ`, `typ2` -/

mutual
/-- The method `gen.typ0`: the text of a type, appended to `buf`. -/
def typ0 {ι : Type} (env : Env ι) (buf : List Byte) : Ty → Except PanicVal (List Byte)
  | .Int8 => .ok (buf ++ ascii "int8 ")
  | .Uint8 => .ok (buf ++ ascii "uint8 ")
  | .Int16 => .ok (buf ++ ascii "int16 ")
  | .Uint16 => .ok (buf ++ ascii "uint16 ")
  | .Int32 => .ok (buf ++ ascii "int32 ")
  | .Uint32 => .ok (buf ++ ascii "uint32 ")
  | .Int64 => .ok (buf ++ ascii "int64 ")
  | .Uint64 => .ok (buf ++ ascii "uint64 ")
  | .Float32 => .ok (buf ++ ascii "float32 ")
  | .Float64 => .ok (buf ++ ascii "float64 ")
  | .Complex64 => .ok (buf ++ ascii "complex64 ")
  | .Complex128 => .ok (buf ++ ascii "complex128 ")
  | .Array Items Item => typ0 env (buf ++ (ascii "[" ++ fmtInt Items ++ ascii "]")) Item
  | .Struct Fields =>
    match typ0Fields env (buf ++ ascii "struct\x7b") 0 Fields with
    | .error e => .error e
    | .ok buf => .ok (buf ++ ascii "\x7d")
  | .Union Fields =>
    match typ0Fields env (buf ++ ascii "struct\x7b_ [0]struct\x7b") 0 Fields with
    | .error e => .error e
    | .ok buf =>
      .ok (buf ++ (ascii "\x7d; U [" ++ fmtInt (env.Sizeof (.Union Fields)) ++ ascii "]byte") ++
        ascii "\x7d")
  | .Pointer e =>
    if env.ID (.Pointer e) = env.idVoidPtr then .ok (buf ++ ascii "uintptr ")
    else typ0 env (if e.Kind ≠ .Function then buf ++ ascii "*" else buf) e
  | .Function Arguments Results _ =>
    match typ0Arguments env (buf ++ ascii "func(") Arguments with
    | .error e => .error e
    | .ok buf =>
      match Results with
      | [] => .ok (buf ++ ascii ")")
      | [r] => typ0 env (buf ++ ascii ")") r
      | _ :: _ :: _ => .error (.err "TODO")
  | .Other => .error (.err "TODO")
/-- The loop of `typ0` over the fields of a struct or union, from field `i`. -/
def typ0Fields {ι : Type} (env : Env ι) (buf : List Byte) (i : Nat) :
    List Ty → Except PanicVal (List Byte)
  | [] => .ok buf
  | v :: rest =>
    match typ0 env (buf ++ (ascii "X" ++ fmtNat i ++ ascii " ")) v with
    | .error e => .error e
    | .ok buf => typ0Fields env (buf ++ ascii ";") (i + 1) rest
/-- The loop of `typ0` over the arguments of a function type. -/
def typ0Arguments {ι : Type} (env : Env ι) (buf : List Byte) :
    List Ty → Except PanicVal (List Byte)
  | [] => .ok buf
  | v :: rest =>
    match typ0 env buf v with
    | .error e => .error e
    | .ok buf => typ0Arguments env (buf ++ ascii ",") rest
end

/-- The method `gen.typ`: the id of the text of a type. -/
def typ {ι : Type} (env : Env ι) (t : Ty) : Emit ι ι :=
  liftExcept ((typ0 env [] t).map env.dict.ID)

/-- The method `gen.typ2`. -/
def typ2 {ι : Type} (env : Env ι) (t : TypeID) : Emit ι ι :=
  Emit.bind (MustType env t) (fun ty => typ env ty)

/-! ## `gen.isBuiltin` -/

/-- The method `gen.isBuiltin`. -/
def isBuiltin {ι : Type} (env : Env ι) (i : Int) : Emit ι (List Byte × Bool) := fun g =>
  match lookup g.builtins i with
  | some s => .ok ((s, true), [], g)
  | none =>
    if i < 0 then .error (.err "runtime error")
    else
      match env.obj.get? i.toNat with
      | none => .error (.err "runtime error")
      | some (.FunctionDefinition x) =>
        match x.Body with
        | [.Panic] =>
          let s := env.qualifier g.asked.length x
          .ok ((s, true), [], { g with builtins := (i, s) :: g.builtins, asked := g.asked ++ [i] })
        | _ => .ok (([], false), [], g)
      | some _ => .ok (([], false), [], g)

/-! ## Helper synthesis: `gen.helpers` and the helper part of `gen.gen` -/

/-- The method `gen.helpers`: the keys of the set, in the order Go ranges over
them, each with its `String()`, sorted by `sort.Slice`. -/
def helpers {ι : Type} (env : Env ι) (m : List TypeID) : List typeNfo :=
  env.sortSlice ((env.rangeKeys m).map (fun k => ⟨k, env.TypeIDString k⟩))

/-- The definition `gen.gen` writes for one helper of a family. -/
def helperDefinition {ι : Type} (env : Env ι) (f : Family) (v : typeNfo) : Emit ι Unit :=
  let n := fmtInt v.TypeID
  match f with
  | .copy =>
    Emit.bind (typ2 env v.TypeID) fun t =>
    let T := env.dict.S t
    w (ascii "func copy_" ++ n ++ ascii "(d, s *" ++ T ++ ascii ") *" ++ T ++
      ascii " \x7b *d = *s; return d \x7d\n")
  | .postInc =>
    Emit.bind (MustType env v.TypeID) fun ty =>
    Emit.bind (typ2 env v.TypeID) fun t =>
    let T := env.dict.S t
    if ty.Kind = .Pointer then
      w (ascii "func postInc_" ++ n ++ ascii "(p *" ++ T ++ ascii ", d int) " ++ T ++
        ascii " \x7b q := (*uintptr)(unsafe.Pointer(p)); v := *q; *q += uintptr(d); return (" ++
        T ++ ascii ")(unsafe.Pointer(v)) \x7d\n")
    else
      w (ascii "func postInc_" ++ n ++ ascii "(p *" ++ T ++ ascii ", d " ++ T ++ ascii ") " ++
        T ++ ascii " \x7b v := *p; *p += d; return v \x7d\n")
  | .preInc =>
    Emit.bind (MustType env v.TypeID) fun ty =>
    Emit.bind (typ2 env v.TypeID) fun t =>
    let T := env.dict.S t
    if ty.Kind = .Pointer then
      w (ascii "func preInc_" ++ n ++ ascii "(p *" ++ T ++ ascii ", d int) " ++ T ++
        ascii " \x7b q := (*uintptr)(unsafe.Pointer(p)); v := *q + uintptr(d); *q = v; return (" ++
        T ++ ascii ")(unsafe.Pointer(v)) \x7d\n")
    else
      w (ascii "func preInc_" ++ n ++ ascii "(p *" ++ T ++ ascii ", d " ++ T ++ ascii ") " ++
        T ++ ascii " \x7b v := *p + d; *p = v; return v \x7d\n")
  | .storebits =>
    Emit.bind (typ2 env v.TypeID) fun t =>
    let T := env.dict.S t
    w (ascii "func storebits_" ++ n ++ ascii "(p *" ++ T ++ ascii ", v, m " ++ T ++
      ascii ", o uint) " ++ T ++ ascii " \x7b *p = *p&m|(v<<o); return v \x7d\n")
  | .store =>
    Emit.bind (typ2 env v.TypeID) fun t =>
    let T := env.dict.S t
    w (ascii "func store_" ++ n ++ ascii "(p *" ++ T ++ ascii ", v " ++ T ++ ascii ") " ++ T ++
      ascii " \x7b *p = v; return v \x7d\n")

/-- The lines of `gen.gen` from `bool2int` to the `store` helpers: the two
fixed helpers and, family by family, one definition for each element of
`helpers`. -/
def genHelpers {ι : Type} (env : Env ι) : Emit ι Unit :=
  Emit.bind (ws "func bool2int(b bool) int32 \x7b if b \x7b return 1\x7d; return 0 \x7d\n") fun _ =>
  Emit.bind getGen fun g =>
  Emit.bind (forEach (helperDefinition env .copy) (helpers env g.copies)) fun _ =>
  Emit.bind (ws "func drop(interface\x7b\x7d) \x7b\x7d\n") fun _ =>
  Emit.bind getGen fun g =>
  Emit.bind (forEach (helperDefinition env .postInc) (helpers env g.postIncs)) fun _ =>
  Emit.bind getGen fun g =>
  Emit.bind (forEach (helperDefinition env .preInc) (helpers env g.preIncs)) fun _ =>
  Emit.bind getGen fun g =>
  Emit.bind (forEach (helperDefinition env .storebits) (helpers env g.storebits)) fun _ =>
  Emit.bind getGen fun g =>
  forEach (helperDefinition env .store) (helpers env g.stores)

/-! ## Initializer values: `gen.value` -/

/-- The verb `%#02x` on a byte from 10 up: `0x` and the hexadecimal digits. -/
def fmtHexSharp (v : Byte) : List Byte :=
  ascii "0x" ++ (if v.val < 16 then [hexDigit v.val] else fmtHex2 v)

/-- The loop of `gen.value` over the bytes of a union value. -/
def unionByte {ι : Type} (v : Byte) : Emit ι Unit :=
  if v.val < 10 then w (fmtNat v.val ++ ascii ",") else w (fmtHexSharp v ++ ascii ", ")

mutual
/-- The method `gen.value`; the position, which only the message of `TODO`
shows, is left out. -/
def value {ι : Type} [DecidableEq ι] (env : Env ι) (id : TypeID) : Value ι → Emit ι Unit
  | .AddressValue Label NameID Linkage Offset =>
    Emit.bind (MustType env id) fun t =>
    if Label ≠ env.zeroID then TODO
    else
      Emit.bind (mangle env NameID (Linkage = .ExternalLinkage) (-1)) fun nm =>
      if Offset = 0 then
        if id = env.idVoidPtr then
          w (ascii "(uintptr(unsafe.Pointer(&" ++ env.dict.S nm ++ ascii ")))")
        else
          Emit.bind
            (match t with
              | .Pointer e => if e.Kind ≠ .Function then ws "&" else Emit.pure ()
              | _ => ws "&") fun _ =>
          w (env.dict.S nm)
      else
        Emit.bind (mangle env NameID (Linkage = .ExternalLinkage) (-1)) fun nm2 =>
        w (ascii "(uintptr(unsafe.Pointer(&" ++ env.dict.S nm2 ++ ascii "))+" ++ fmtInt Offset ++
          ascii ")")
  | .CompositeValue Values =>
    Emit.bind (MustType env id) fun _ =>
    Emit.bind (MustType env id) fun t =>
    match t with
    | .Array Items Item =>
      Emit.bind (typ env (.Array Items Item)) fun T =>
      Emit.bind (w (env.dict.S T ++ ascii "\x7b")) fun _ =>
      Emit.bind
        (if env.isZeroValue (.CompositeValue Values) then Emit.pure ()
         else valueArray env (env.ID Item) Values) fun _ =>
      ws "\x7d"
    | .Struct Fields =>
      Emit.bind (typ env (.Struct Fields)) fun T =>
      Emit.bind (w (env.dict.S T ++ ascii "\x7b")) fun _ =>
      Emit.bind
        (if env.isZeroValue (.CompositeValue Values) then Emit.pure ()
         else valueStruct env Fields 0 Values) fun _ =>
      ws "\x7d"
    | .Union Fields =>
      Emit.bind (index Fields 0) fun ft =>
      Emit.bind (typ env (.Union Fields)) fun T =>
      Emit.bind (w (env.dict.S T ++ ascii "\x7b")) fun _ =>
      Emit.bind
        (if env.isZeroValue (.CompositeValue Values) then Emit.pure ()
         else
          Emit.bind (w (ascii "U: [" ++ fmtInt (env.Sizeof (.Union Fields)) ++ ascii "]byte\x7b"))
            fun _ =>
          Emit.bind (liftExcept (env.unionValue ft Values)) fun bs =>
          Emit.bind (forEach unionByte bs) fun _ =>
          ws "\x7d") fun _ =>
      ws "\x7d"
    | _ => TODO
  | .Complex64Value re im =>
    Emit.bind (MustType env id) fun _ =>
    w (ascii "complex(float32(" ++ env.Float32String re ++ ascii "), float32(" ++
      env.Float32String im ++ ascii "))")
  | .Float32Value bits =>
    Emit.bind (MustType env id) fun _ =>
    w (ascii "float32(" ++ env.Float32String bits ++ ascii ")")
  | .Float64Value bits =>
    Emit.bind (MustType env id) fun _ => w (env.Float64String bits)
  | .Int32Value Value =>
    Emit.bind (MustType env id) fun t =>
    if t.Kind = .Pointer then
      if Value = 0 then ws "nil"
      else
        Emit.bind (typ env t) fun T =>
        w (ascii "(" ++ env.dict.S T ++ ascii ")(unsafe.Pointer(uintptr(" ++
          fmtNat (uintptr env.arch Value) ++ ascii ")))")
    else w (fmtInt Value)
  | .Int64Value Value =>
    Emit.bind (MustType env id) fun t =>
    match t.Kind with
    | .Pointer =>
      if Value = 0 then ws "nil"
      else
        Emit.bind (typ env t) fun T =>
        w (ascii "(" ++ env.dict.S T ++ ascii ")(unsafe.Pointer(uintptr(" ++
          fmtNat (uintptr env.arch Value) ++ ascii ")))")
    | .Int32 => w (ascii "int32(" ++ fmtInt (toSigned 32 Value) ++ ascii ")")
    | .Uint32 => w (ascii "uint32(" ++ fmtNat (toUnsigned 32 Value) ++ ascii ")")
    | .Int64 => w (ascii "int64(" ++ fmtInt Value ++ ascii ")")
    | .Uint64 => w (ascii "uint64(" ++ fmtNat (toUnsigned 64 Value) ++ ascii ")")
    | _ => TODO
  | .StringValue StringID Offset =>
    Emit.bind (MustType env id) fun _ =>
    Emit.bind (if Offset ≠ 0 then TODO else Emit.pure ()) fun _ =>
    Emit.bind (string env StringID) fun x =>
    w (ascii "str(" ++ fmtNat x ++ ascii ")")
  | .Nil => Emit.bind (MustType env id) fun _ => TODO
  | .Other => Emit.bind (MustType env id) fun _ => TODO
/-- The loop of `gen.value` over the elements of an array value. -/
def valueArray {ι : Type} [DecidableEq ι] (env : Env ι) (et : TypeID) :
    List (Value ι) → Emit ι Unit
  | [] => Emit.pure ()
  | v :: rest =>
    Emit.bind (value env et v) fun _ =>
    Emit.bind (ws ", ") fun _ =>
    valueArray env et rest
/-- The loop of `gen.value` over the fields of a struct value, from field
`i`; a nil value is passed over. -/
def valueStruct {ι : Type} [DecidableEq ι] (env : Env ι) (f : List Ty) (i : Nat) :
    List (Value ι) → Emit ι Unit
  | [] => Emit.pure ()
  | .Nil :: rest => valueStruct env f (i + 1) rest
  | v :: rest =>
    Emit.bind (w (ascii "X" ++ fmtNat i ++ ascii ": ")) fun _ =>
    Emit.bind (index f i) fun ft =>
    Emit.bind (value env (env.ID ft) v) fun _ =>
    Emit.bind (ws ", ") fun _ =>
    valueStruct env f (i + 1) rest
end

/-! ## Expressions: `gen.expression`

`expression` is one recursion over the tree.  The methods `relop`, `relop2`,
`relop3`, `binop` and `shift`, which `expression` calls on the node itself,
are written out at their cases.  The statements `v.Parent = n` become the
argument `p`, the operation of the parent: the operation of `n` for a child,
the field `Parent` for a node that `expression` is entered with.  The
statement `v.Comma = nil` on the nodes of a comma chain becomes the argument
`cleared`.  The two deferred writes come last, in the reverse order of their
`defer` statements.  The argument `bare` is unset wherever the method is
called; set, it gives the `switch` on `n.Op` alone, so that this part has a
name. -/

/-- The `switch` on `n.Op` at the head of `expression`: every node but a
`Jnz`, a `Jz` or a `Switch` is put in parentheses. -/
def parenthesized {ι : Type} : Op ι → Bool
  | .Jnz _ _ => false
  | .Jz _ _ => false
  | .Switch _ _ _ => false
  | _ => true

/-- The text of the operator of `relop` and `binop`, `<<` or `>>` for
`shift`. -/
def operatorText {ι : Type} : Op ι → Option String
  | .Eq => some "==" | .Geq => some ">=" | .Gt => some ">" | .Leq => some "<="
  | .Lt => some "<" | .Neq => some "!="
  | .Add => some "+" | .And => some "&" | .Div => some "/" | .Mul => some "*"
  | .Or => some "|" | .Rem => some "%" | .Sub => some "-" | .Xor => some "^"
  | .Lsh => some "<<" | .Rsh => some ">>"
  | _ => none

/-- The scope index handed to `mangle` for a local variable: the scope 0 is
replaced by -1. -/
def scopeIndex (scope : Int) : Int := if scope = 0 then -1 else scope

/-- The text `_%v` of a numbered label. -/
def gotoTarget {ι : Type} [DecidableEq ι] (env : Env ι) (NameID : ι) (Number : Int)
    (tail : String) : Emit ι Unit :=
  if NameID ≠ env.zeroID then TODO else w (ascii "_" ++ fmtInt Number ++ ascii tail)

/-- The cases of the `switch` statement that `case *ir.Switch` writes. -/
def switchCase {ι : Type} [DecidableEq ι] (env : Env ι) (v : Value ι × Target ι) :
    Emit ι Unit :=
  Emit.bind (ws "case ") fun _ =>
  Emit.bind (value env env.idInt32 v.1) fun _ =>
  Emit.bind (ws ": goto ") fun _ =>
  gotoTarget env v.2.NameID v.2.Number "\n"

/-- The loop `for i, v := range x.Values` of `case *ir.Switch`, which pairs
each value with `x.Labels[i]`. -/
def switchPairs {ι : Type} (Labels : List (Target ι)) :
    Nat → List (Value ι) → Emit ι (List (Value ι × Target ι))
  | _, [] => Emit.pure []
  | i, v :: rest =>
    Emit.bind (index Labels i) fun l =>
    Emit.bind (switchPairs Labels (i + 1) rest) fun a =>
    Emit.pure ((v, l) :: a)

/-- The type assertion `t.(*ir.PointerType).Element`. -/
def pointerElement {ι : Type} : Ty → Emit ι Ty
  | .Pointer e => Emit.pure e
  | _ => runtimePanic

/-- The kind of `g.tc.MustType(id)`. -/
def kindOf {ι : Type} (env : Env ι) (id : TypeID) : Emit ι Kind :=
  Emit.bind (MustType env id) fun t => Emit.pure t.Kind

/-- Writing a text when a flag is set. -/
def wsIf {ι : Type} (b : Bool) (s : String) : Emit ι Unit := if b then ws s else Emit.pure ()

mutual
/-- The method `gen.expression`, entered with the parent operation `p`.  With
`bare` unset it is the method; with `bare` set it is only its `switch` on
`n.Op`, that is what the node writes between the parentheses and the function
literal of its comma chain. -/
def expression {ι : Type} [DecidableEq ι] (env : Env ι) (f : fn ι) (p : Option (Op ι))
    (cleared bare : Bool) : exprNode ι → Emit ι Unit
  | .mk op childs comma tid _ =>
    let chain : Bool := !cleared && comma.isSome
    let operation : Emit ι Unit :=
      match op with
      | .Argument Address Index =>
        Emit.bind (wsIf Address "&") fun _ =>
        Emit.bind (index f.f.Arguments Index) fun a =>
        Emit.bind (mangle env a false (-1)) fun nm =>
        w (ascii "(" ++ env.dict.S nm ++ ascii ")")
      | .Bool TypeID =>
        Emit.bind (ws "bool2int(") fun _ =>
        match childs with
        | [] => runtimePanic
        | c0 :: _ =>
          Emit.bind (expression env f (some op) false false c0) fun _ =>
          Emit.bind (kindOf env TypeID) fun k =>
          Emit.bind (if k = .Pointer then ws "!= nil" else ws "!= 0") fun _ =>
          ws ")"
      | .Call Index =>
        Emit.bind (index env.obj Index) fun o =>
        match o with
        | .FunctionDefinition fd =>
          Emit.bind (isBuiltin env Index) fun q =>
          Emit.bind (if q.2 then w (q.1 ++ ascii ".") else Emit.pure ()) fun _ =>
          Emit.bind (mangle env fd.NameID (fd.Linkage = .ExternalLinkage) (-1)) fun nm =>
          Emit.bind (w (env.dict.S nm ++ ascii "(")) fun _ =>
          Emit.bind (MustType env fd.TypeID) fun ft =>
          match ft with
          | .Function Arguments _ Variadic =>
            Emit.bind (callArgs env f op Arguments Variadic 0 childs) fun _ =>
            ws ")"
          | _ => runtimePanic
        | _ => runtimePanic
      | .CallFP =>
        match childs with
        | [] => runtimePanic
        | fp :: args =>
          Emit.bind (expression env f (some op) false false fp) fun _ =>
          Emit.bind (MustType env fp.TypeID) fun t =>
          match t with
          | .Pointer (.Function Arguments _ Variadic) =>
            Emit.bind (ws "(") fun _ =>
            Emit.bind (callFPArgs env f op Arguments Variadic 0 args) fun _ =>
            ws ")"
          | _ => runtimePanic
      | .Const32 TypeID Value =>
        match p with
        | some (.Element _ _) =>
          match ptrSize env.arch with
          | 4 => w (fmtNat (toUnsigned 32 Value))
          | 8 => w (fmtNat (toUnsigned 64 Value))
          | _ => Emit.pure ()
        | _ =>
          Emit.bind (kindOf env TypeID) fun k =>
          match k with
          | .Pointer => w (ascii "uintptr(" ++ fmtNat (uintptr env.arch Value) ++ ascii ")")
          | .Int8 => w (ascii "int8(" ++ fmtInt (toSigned 8 Value) ++ ascii ") ")
          | .Uint8 => w (ascii "byte(" ++ fmtNat (toUnsigned 8 Value) ++ ascii ") ")
          | .Int16 => w (ascii "int16(" ++ fmtInt (toSigned 16 Value) ++ ascii ") ")
          | .Uint16 => w (ascii "uint16(" ++ fmtNat (toUnsigned 16 Value) ++ ascii ") ")
          | .Int32 => w (ascii "int32(" ++ fmtInt Value ++ ascii ") ")
          | .Uint32 => w (ascii "uint32(" ++ fmtNat (toUnsigned 32 Value) ++ ascii ") ")
          | .Float32 =>
            w (ascii "float32(" ++ env.Float32String (toUnsigned 32 Value) ++ ascii ") ")
          | _ => TODO
      | .Const64 TypeID Value =>
        if TypeID = env.idComplex64 then
          w (ascii "complex(float32(" ++ env.Float64String (toUnsigned 64 Value) ++ ascii "), 0) ")
        else if TypeID = env.idFloat64 then
          w (ascii "float64(" ++ env.Float64String (toUnsigned 64 Value) ++ ascii ") ")
        else if TypeID = env.idInt64 then w (ascii "int64(" ++ fmtInt Value ++ ascii ") ")
        else if TypeID = env.idUint64 then
          w (ascii "uint64(" ++ fmtNat (toUnsigned 64 Value) ++ ascii ") ")
        else TODO
      | .Convert Result =>
        match childs with
        | [] => runtimePanic
        | c0 :: _ =>
          if (match c0.Op with
              | .Global _ _ NameID _ _ => decide (NameID = env.idMain)
              | _ => false) then
            expression env f (some op) false false c0
          else
            Emit.bind (typ2 env Result) fun T =>
            Emit.bind (w (ascii "(" ++ env.dict.S T ++ ascii ")(")) fun _ =>
            Emit.bind (kindOf env Result) fun k =>
            Emit.bind
              (if k = .Pointer then
                Emit.bind (ws "unsafe.Pointer(") fun _ =>
                Emit.bind (kindOf env c0.TypeID) fun k0 =>
                Emit.bind (wsIf (decide (k0 ≠ .Pointer)) "uintptr") fun _ =>
                Emit.bind (expression env f (some op) false false c0) fun _ =>
                ws ")"
               else expression env f (some op) false false c0) fun _ =>
            ws ")"
      | .Copy TypeID =>
        Emit.bind (request .copy TypeID) fun _ =>
        Emit.bind (w (ascii "copy_" ++ fmtInt TypeID ++ ascii "(")) fun _ =>
        match childs with
        | c0 :: c1 :: _ =>
          Emit.bind (expression env f (some op) false false c0) fun _ =>
          Emit.bind (ws ",") fun _ =>
          Emit.bind (expression env f (some op) false false c1) fun _ =>
          ws ")"
        | [c0] => Emit.bind (expression env f (some op) false false c0) fun _ => runtimePanic
        | [] => runtimePanic
      | .Cpl =>
        Emit.bind (ws "^") fun _ =>
        match childs with
        | [] => runtimePanic
        | c0 :: _ => expression env f (some op) false false c0
      | .Drop =>
        Emit.bind (ws "drop(") fun _ =>
        match childs with
        | [] => runtimePanic
        | c0 :: _ => Emit.bind (expression env f (some op) false false c0) fun _ => ws ")"
      | .Element Address Neg =>
        match childs with
        | [] => runtimePanic
        | c0 :: rest =>
          Emit.bind (MustType env c0.TypeID) fun t0 =>
          Emit.bind (pointerElement t0) fun t =>
          let et : Ty := match t with
            | .Array _ Item => Item
            | _ => t
          Emit.bind (wsIf (!Address) "*") fun _ =>
          Emit.bind (typ env et) fun T =>
          Emit.bind (w (ascii "(*" ++ env.dict.S T ++
            ascii ")(unsafe.Pointer(uintptr(unsafe.Pointer")) fun _ =>
          Emit.bind (expression env f (some op) false false c0) fun _ =>
          Emit.bind (w (ascii ")" ++ ascii (if Neg then "-" else "+") ++ fmtInt (env.Sizeof et) ++
            ascii "*uintptr")) fun _ =>
          match rest with
          | [] => runtimePanic
          | c1 :: _ => Emit.bind (expression env f (some op) false false c1) fun _ => ws "))"
      | .Field Address Index =>
        match childs with
        | [] => runtimePanic
        | c0 :: _ =>
          Emit.bind (MustType env c0.TypeID) fun t0 =>
          Emit.bind (pointerElement t0) fun t =>
          match t with
          | .Union Fields =>
            Emit.bind (wsIf (!Address) "*") fun _ =>
            Emit.bind (index Fields Index) fun ft =>
            Emit.bind (typ env ft) fun T =>
            Emit.bind (w (ascii "(*" ++ env.dict.S T ++ ascii ")(unsafe.Pointer")) fun _ =>
            Emit.bind (expression env f (some op) false false c0) fun _ =>
            ws ")"
          | _ =>
            Emit.bind (wsIf Address "&") fun _ =>
            Emit.bind (ws "(") fun _ =>
            Emit.bind (expression env f (some op) false false c0) fun _ =>
            w (ascii ".X" ++ fmtInt Index ++ ascii ")")
      | .Global Address Index NameID Linkage TypeID =>
        Emit.bind (index env.obj Index) fun o =>
        match o.BaseTypeID with
        | none => runtimePanic
        | some bt =>
          Emit.bind (MustType env bt) fun t =>
          Emit.bind (mangle env NameID (Linkage = .ExternalLinkage) (-1)) fun nm =>
          if (match p with
              | some .CallFP => true
              | some (.Call _) => true
              | some .Eq => true
              | some (.Store _ _ _) => true
              | _ => false) && t.Kind = .Array then
            w (ascii "&(" ++ env.dict.S nm ++ ascii "[0])")
          else if Address then
            Emit.bind (MustType env TypeID) fun t =>
            match t with
            | .Pointer e =>
              if e.Kind = .Function then w (env.dict.S nm)
              else w (ascii "&" ++ env.dict.S nm)
            | _ => TODO
          else w (env.dict.S nm)
      | .Jnz NameID Number =>
        Emit.bind (ws "if") fun _ =>
        match childs with
        | [] => runtimePanic
        | c0 :: _ =>
          Emit.bind (expression env f (some op) false false c0) fun _ =>
          Emit.bind (ws "!= 0 \x7b goto ") fun _ =>
          Emit.bind (gotoTarget env NameID Number "") fun _ =>
          ws "\x7d\n"
      | .Jz NameID Number =>
        Emit.bind (ws "if") fun _ =>
        match childs with
        | [] => runtimePanic
        | c0 :: _ =>
          Emit.bind (expression env f (some op) false false c0) fun _ =>
          Emit.bind (ws "== 0 \x7b goto ") fun _ =>
          Emit.bind (gotoTarget env NameID Number "") fun _ =>
          ws "\x7d\n"
      | .Label Cond LAnd LOr _ _ =>
        if Cond then
          Emit.bind (typ2 env tid) fun T =>
          Emit.bind (w (ascii "func() " ++ env.dict.S T ++ ascii " \x7b if ")) fun _ =>
          match childs with
          | c0 :: c1 :: c2 :: _ =>
            Emit.bind (expression env f (some op) false false c0) fun _ =>
            Emit.bind (ws "!= 0 \x7b return") fun _ =>
            Emit.bind (expression env f (some op) false false c1) fun _ =>
            Emit.bind (ws "\x7d; return") fun _ =>
            Emit.bind (expression env f (some op) false false c2) fun _ =>
            ws "\x7d()"
          | [c0, c1] =>
            Emit.bind (expression env f (some op) false false c0) fun _ =>
            Emit.bind (expression env f (some op) false false c1) fun _ => runtimePanic
          | [c0] => Emit.bind (expression env f (some op) false false c0) fun _ => runtimePanic
          | [] => runtimePanic
        else
          Emit.bind (ws "bool2int(") fun _ =>
          match childs with
          | c0 :: rest =>
            Emit.bind (expression env f (some op) false false c0) fun _ =>
            Emit.bind (ws "!= 0") fun _ =>
            Emit.bind
              (if LAnd then ws "&&" else if LOr then ws "||"
               else raise (.val "internal error")) fun _ =>
            match rest with
            | c1 :: _ => Emit.bind (expression env f (some op) false false c1) fun _ => ws "!= 0)"
            | [] => runtimePanic
          | [] => runtimePanic
      | .Load =>
        Emit.bind (ws "*") fun _ =>
        match childs with
        | [] => runtimePanic
        | c0 :: _ =>
          match c0.Op with
          | .Dup => ws "p"
          | _ => expression env f (some op) false false c0
      | .Lsh | .Rsh =>
        match childs with
        | [] => runtimePanic
        | c0 :: rest =>
          Emit.bind (expression env f (some op) false false c0) fun _ =>
          Emit.bind (ws ((operatorText op).getD "")) fun _ =>
          Emit.bind (ws "uint") fun _ =>
          match rest with
          | [] => runtimePanic
          | c1 :: _ => expression env f (some op) false false c1
      | .Eq | .Geq | .Gt | .Leq | .Lt | .Neq =>
        Emit.bind (ws "bool2int(") fun _ =>
        match childs with
        | [] => runtimePanic
        | c0 :: rest =>
          Emit.bind (kindOf env c0.TypeID) fun k0 =>
          Emit.bind
            (if k0 = .Pointer then Emit.pure true
             else
              match rest with
              | [] => runtimePanic
              | c1 :: _ => Emit.bind (kindOf env c1.TypeID) fun k1 =>
                  Emit.pure (decide (k1 = .Pointer))) fun ptr =>
          Emit.bind (wsIf ptr "uintptr(unsafe.Pointer(") fun _ =>
          Emit.bind (expression env f (some op) false false c0) fun _ =>
          Emit.bind (wsIf ptr "))") fun _ =>
          Emit.bind (ws ((operatorText op).getD "")) fun _ =>
          match rest with
          | [] => runtimePanic
          | c1 :: _ =>
            Emit.bind (wsIf ptr "uintptr(unsafe.Pointer(") fun _ =>
            Emit.bind (expression env f (some op) false false c1) fun _ =>
            Emit.bind (wsIf ptr "))") fun _ =>
            ws ")"
      | .Add | .And | .Div | .Mul | .Or | .Rem | .Sub | .Xor =>
        match childs with
        | [] => runtimePanic
        | c0 :: rest =>
          Emit.bind (expression env f (some op) false false c0) fun _ =>
          Emit.bind (ws ((operatorText op).getD "")) fun _ =>
          match rest with
          | [] => runtimePanic
          | c1 :: _ => expression env f (some op) false false c1
      | .Nil => ws "nil"
      | .Neg =>
        Emit.bind (ws "-") fun _ =>
        match childs with
        | [] => runtimePanic
        | c0 :: _ => expression env f (some op) false false c0
      | .Not =>
        Emit.bind (ws "bool2int(") fun _ =>
        match childs with
        | [] => runtimePanic
        | c0 :: _ => Emit.bind (expression env f (some op) false false c0) fun _ => ws "== 0)"
      | .PostIncrement TypeID Bits Delta =>
        Emit.bind (request .postInc TypeID) fun _ =>
        if Bits ≠ 0 then TODO
        else
          Emit.bind (w (ascii "postInc_" ++ fmtInt TypeID ++ ascii "(")) fun _ =>
          match childs with
          | [] => runtimePanic
          | c0 :: _ =>
            Emit.bind (expression env f (some op) false false c0) fun _ =>
            Emit.bind (kindOf env TypeID) fun k =>
            if k = .Pointer then w (ascii ", " ++ fmtInt Delta ++ ascii ")")
            else
              Emit.bind (typ2 env TypeID) fun T =>
              w (ascii ", " ++ env.dict.S T ++ ascii "(" ++ fmtInt Delta ++ ascii "))")
      | .PreIncrement TypeID Bits Delta =>
        Emit.bind (request .preInc TypeID) fun _ =>
        if Bits ≠ 0 then TODO
        else
          Emit.bind (w (ascii "preInc_" ++ fmtInt TypeID ++ ascii "(")) fun _ =>
          match childs with
          | [] => runtimePanic
          | c0 :: _ =>
            Emit.bind (expression env f (some op) false false c0) fun _ =>
            Emit.bind (kindOf env TypeID) fun k =>
            if k = .Pointer then w (ascii ", " ++ fmtInt Delta ++ ascii ")")
            else
              Emit.bind (typ2 env TypeID) fun T =>
              w (ascii ", " ++ env.dict.S T ++ ascii "(" ++ fmtInt Delta ++ ascii "))")
      | .PtrDiff PtrType TypeID =>
        Emit.bind (MustType env PtrType) fun pt =>
        Emit.bind (pointerElement pt) fun e =>
        Emit.bind (w (env.TypeIDString TypeID ++ ascii "(((")) fun _ =>
        Emit.bind (ws "uintptr(unsafe.Pointer") fun _ =>
        match childs with
        | [] => runtimePanic
        | c0 :: rest =>
          Emit.bind (expression env f (some op) false false c0) fun _ =>
          Emit.bind (ws ")-uintptr(unsafe.Pointer") fun _ =>
          match rest with
          | [] => runtimePanic
          | c1 :: _ =>
            Emit.bind (expression env f (some op) false false c1) fun _ =>
            Emit.bind (w (ascii "))/" ++ fmtInt (env.Sizeof e) ++ ascii ")")) fun _ =>
            ws ")"
      | .Result Address Index =>
        Emit.bind (wsIf Address "&") fun _ =>
        w (ascii "(r" ++ fmtInt Index ++ ascii ")")
      | .Store TypeID Bits BitOffset =>
        match childs with
        | [] => runtimePanic
        | (.mk cop dchilds dcomma dtid dpar) :: rest =>
          let asop : Bool := match cop with
            | .Dup => true
            | _ => false
          if Bits ≠ 0 then
            Emit.bind (request .storebits TypeID) fun _ =>
            Emit.bind (w (ascii "storebits_" ++ fmtInt TypeID ++ ascii "(")) fun _ =>
            if asop then TODO
            else
              Emit.bind (expression env f (some op) false false (.mk cop dchilds dcomma dtid dpar))
                fun _ =>
              Emit.bind (ws ", (") fun _ =>
              match rest with
              | [] => runtimePanic
              | c1 :: _ =>
                Emit.bind (expression env f (some op) false false c1) fun _ =>
                w (ascii "<<" ++ fmtInt BitOffset ++ ascii "), " ++
                  fmtNat (storeMask (toUnsigned (UintPtrBits env.arch) Bits)
                    (toUnsigned (UintPtrBits env.arch) BitOffset)) ++
                  ascii ", " ++ fmtInt BitOffset ++ ascii ")")
          else
            Emit.bind (request .store TypeID) fun _ =>
            Emit.bind (w (ascii "store_" ++ fmtInt TypeID ++ ascii "(")) fun _ =>
            if asop then
              Emit.bind (typ2 env TypeID) fun T =>
              Emit.bind (w (ascii "func()(*" ++ env.dict.S T ++ ascii ", " ++ env.dict.S T ++
                ascii ")\x7b p := ")) fun _ =>
              match dchilds with
              | [] => runtimePanic
              | a :: _ =>
                Emit.bind (expression env f a.Parent false false a) fun _ =>
                Emit.bind (ws "; return p,") fun _ =>
                match rest with
                | [] => runtimePanic
                | c1 :: _ =>
                  Emit.bind (expression env f (some op) false false c1) fun _ =>
                  Emit.bind (ws "\x7d()") fun _ =>
                  ws ")"
            else
              Emit.bind (expression env f (some op) false false (.mk cop dchilds dcomma dtid dpar))
                fun _ =>
              Emit.bind (ws ", ") fun _ =>
              match rest with
              | [] => runtimePanic
              | c1 :: _ => Emit.bind (expression env f (some op) false false c1) fun _ => ws ")"
      | .StringConst Value =>
        Emit.bind (string env Value) fun x => w (ascii "str(" ++ fmtNat x ++ ascii ")")
      | .Switch Values Labels Default =>
        Emit.bind (switchPairs Labels 0 Values) fun a =>
        Emit.bind (ws "switch") fun _ =>
        match childs with
        | [] => runtimePanic
        | c0 :: _ =>
          Emit.bind (expression env f (some op) false false c0) fun _ =>
          Emit.bind (ws "\x7b\n") fun _ =>
          Emit.bind (forEach (switchCase env) (env.sortPairs a)) fun _ =>
          Emit.bind (ws "default: goto ") fun _ =>
          Emit.bind (gotoTarget env Default.NameID Default.Number "\n") fun _ =>
          ws "\x7d"
      | .Variable Address Index =>
        Emit.bind (index f.varNfo Index) fun nfo =>
        let sc := scopeIndex nfo.scope
        Emit.bind
          (match p with
            | some .CallFP => kindOf env nfo.decl.TypeID
            | some (.Call _) => kindOf env nfo.decl.TypeID
            | _ => Emit.pure Kind.Other) fun k =>
        if (match p with
            | some .CallFP => true
            | some (.Call _) => true
            | _ => false) && k = .Array then
          Emit.bind (mangle env nfo.decl.NameID false sc) fun nm =>
          w (ascii "&(" ++ env.dict.S nm ++ ascii "[0])")
        else
          Emit.bind (wsIf Address "&") fun _ =>
          Emit.bind (mangle env nfo.decl.NameID false sc) fun nm =>
          w (env.dict.S nm)
      | _ => TODO
    if bare then operation
    else
      Emit.bind (wsIf (parenthesized op) "(") fun _ =>
      Emit.bind
        (if chain then
          if tid = 0 then TODO
          else
            Emit.bind (typ2 env tid) fun T =>
            Emit.bind (w (ascii "func() " ++ env.dict.S T ++ ascii " \x7b")) fun _ =>
            Emit.bind (commas env f comma) fun _ =>
            ws "return ("
         else Emit.pure ()) fun _ =>
      Emit.bind operation fun _ =>
      Emit.bind (wsIf chain ")\x7d()") fun _ =>
      wsIf (parenthesized op) ")"
/-- The loop `for i := len(a) - 1; i >= 0; i--` over the comma chain `a` of a
node, `a` being the nodes reached from `n.Comma` by following `Comma`: the
node reached last is emitted first, each with its own `Comma` cleared and
followed by `;`. -/
def commas {ι : Type} [DecidableEq ι] (env : Env ι) (f : fn ι) :
    Option (exprNode ι) → Emit ι Unit
  | none => Emit.pure ()
  | some (.mk op childs comma tid par) =>
    Emit.bind (commas env f comma) fun _ =>
    Emit.bind (expression env f par true false (.mk op childs comma tid par)) fun _ =>
    ws ";"
/-- The loop over the arguments of `case *ir.Call`, from argument `i`. -/
def callArgs {ι : Type} [DecidableEq ι] (env : Env ι) (f : fn ι) (op : Op ι)
    (Arguments : List Ty) (Variadic : Bool) (i : Nat) : List (exprNode ι) → Emit ι Unit
  | [] => Emit.pure ()
  | v :: rest =>
    let pt : Option Ty := if i < Arguments.length then Arguments.get? i else none
    Emit.bind (MustType env v.TypeID) fun at_ =>
    Emit.bind
      (if Variadic && decide (i ≥ Arguments.length) && at_.Kind = .Pointer then
        Emit.bind (ws "unsafe.Pointer(") fun _ =>
        Emit.bind (expression env f (some op) false false v) fun _ =>
        ws ")"
       else
        match pt with
        | some t =>
          if t.Kind = .Pointer && decide (env.ID t ≠ env.idVoidPtr) &&
              decide (env.ID at_ = env.idVoidPtr) then
            Emit.bind (typ env t) fun T =>
            Emit.bind (w (ascii "(" ++ env.dict.S T ++ ascii ")(unsafe.Pointer(")) fun _ =>
            Emit.bind (expression env f (some op) false false v) fun _ =>
            ws "))"
          else expression env f (some op) false false v
        | none => expression env f (some op) false false v) fun _ =>
    Emit.bind (ws ", ") fun _ =>
    callArgs env f op Arguments Variadic (i + 1) rest
/-- The loop over the arguments of `case *ir.CallFP`, from argument `i` of
`n.Childs[1:]`. -/
def callFPArgs {ι : Type} [DecidableEq ι] (env : Env ι) (f : fn ι) (op : Op ι)
    (Arguments : List Ty) (Variadic : Bool) (i : Nat) : List (exprNode ι) → Emit ι Unit
  | [] => Emit.pure ()
  | v :: rest =>
    Emit.bind
      (if Variadic && decide (i ≥ Arguments.length) then
        Emit.bind (kindOf env v.TypeID) fun k =>
        if k = .Pointer then
          Emit.bind (ws "unsafe.Pointer(") fun _ =>
          Emit.bind (expression env f (some op) false false v) fun _ =>
          ws ")"
        else expression env f (some op) false false v
       else expression env f (some op) false false v) fun _ =>
    Emit.bind (ws ", ") fun _ =>
    callFPArgs env f op Arguments Variadic (i + 1) rest
end

/-- The opening of the function literal that `expression` writes for a node
with a comma chain: `func() T {`, the chain, `return (`.  It is the part of
`expression` between the opening parenthesis and the `switch` on `n.Op`;
`chain` says whether the node has a chain that is not cleared. -/
def chainOpen {ι : Type} [DecidableEq ι] (env : Env ι) (f : fn ι) (chain : Bool)
    (tid : TypeID) (comma : Option (exprNode ι)) : Emit ι Unit :=
  if chain then
    if tid = 0 then TODO
    else
      Emit.bind (typ2 env tid) fun T =>
      Emit.bind (w (ascii "func() " ++ env.dict.S T ++ ascii " \x7b")) fun _ =>
      Emit.bind (commas env f comma) fun _ =>
      ws "return ("
  else Emit.pure ()

/-- The nodes of the comma chain of a node: `n.Comma`, its `Comma`, and so
on (the slice `a` of `expression`); `fuel` bounds the length. -/
def chainFrom {ι : Type} : Nat → Option (exprNode ι) → List (exprNode ι)
  | 0, _ => []
  | _ + 1, none => []
  | fuel + 1, some c => c :: chainFrom fuel c.Comma

/-- The length of the comma chain that starts at a node. -/
def chainLength {ι : Type} : Option (exprNode ι) → Nat
  | none => 0
  | some (.mk _ _ comma _ _) => chainLength comma + 1

/-! ## Statements: `gen.emit` and `gen.functionDefinition` -/

/-- One turn of the loop of `gen.emit`. -/
def emitOp {ι : Type} [DecidableEq ι] (env : Env ι) (f : fn ι) : nodeOp ι → Emit ι Unit
  | .expr e => Emit.bind (expression env f e.Parent false false e) fun _ => ws "\n"
  | .op .Return => ws "return\n"
  | .op (.VariableDeclaration Index NameID TypeID Value _) =>
    match Value with
    | .Nil => Emit.pure ()
    | _ =>
      Emit.bind (index f.varNfo Index) fun nfo =>
      Emit.bind (mangle env NameID false (scopeIndex nfo.scope)) fun nm =>
      Emit.bind (w (env.dict.S nm ++ ascii " = ")) fun _ =>
      Emit.bind (value env TypeID Value) fun _ =>
      ws "\n"
  | .op (.Jmp NameID Number) =>
    Emit.bind (ws "goto ") fun _ =>
    if NameID ≠ env.zeroID then w (ascii "_" ++ env.dict.S NameID ++ ascii "\n")
    else w (ascii "_" ++ fmtInt Number ++ ascii "\n")
  | .op (.Label _ _ _ NameID Number) =>
    if NameID ≠ env.zeroID then w (ascii "_" ++ env.dict.S NameID ++ ascii ":\n")
    else
      Emit.bind (w (ascii "goto _" ++ fmtInt Number ++ ascii "\n")) fun _ =>
      w (ascii "_" ++ fmtInt Number ++ ascii ":\n")
  | .op .AllocResult => Emit.pure ()
  | .op .Arguments => Emit.pure ()
  | .op .BeginScope => Emit.pure ()
  | .op .EndScope => Emit.pure ()
  | .op _ => TODO

/-- The method `gen.emit`. -/
def emit {ι : Type} [DecidableEq ι] (env : Env ι) (f : fn ι) (n : node ι) : Emit ι Unit :=
  forEach (emitOp env f) n.Ops

/-- The function `newFn`. -/
def newFn {ι : Type} (env : Env ι) (fd : FunctionDefinition ι) : Emit ι (fn ι) :=
  Emit.bind (MustType env fd.TypeID) fun t =>
  match t with
  | .Function Arguments Results Variadic =>
    Emit.pure ⟨fd, Arguments, Results, Variadic, env.varInfo fd.Body⟩
  | _ => runtimePanic

/-- The method `gen.pos`. -/
def pos {ι : Type} (env : Env ι) (p : Position) : Position :=
  if p.Filename ≠ [] then { p with Filename := env.Base p.Filename } else p

/-- The loop of `functionDefinition` over the arguments of the function type. -/
def signatureArgument {ι : Type} [DecidableEq ι] (env : Env ι) (fd : FunctionDefinition ι)
    (i : Nat) (v : Ty) : Emit ι Unit :=
  Emit.bind
    (if i < fd.Arguments.length then
      Emit.bind (index fd.Arguments i) fun a =>
      Emit.bind (mangle env a false (-1)) fun nm =>
      w (env.dict.S nm ++ ascii " ")
     else Emit.pure ()) fun _ =>
  Emit.bind (typ env v) fun T =>
  w (env.dict.S T ++ ascii ",")

/-- The loop of `functionDefinition` over the variable table. -/
def localDeclaration {ι : Type} [DecidableEq ι] (env : Env ι) (v : varNfo ι) : Emit ι Unit :=
  Emit.bind (mangle env v.decl.NameID false (scopeIndex v.scope)) fun nm =>
  Emit.bind (typ2 env v.decl.TypeID) fun T =>
  Emit.bind (w (ascii "var " ++ env.dict.S nm ++ ascii " " ++ env.dict.S T ++ ascii " // " ++
    env.PositionString v.decl.Position ++ ascii "\n")) fun _ =>
  w (ascii "_ = " ++ env.dict.S nm ++ ascii "\n")

/-- The method `gen.functionDefinition`. -/
def functionDefinition {ι : Type} [DecidableEq ι] (env : Env ι) (oi : Int)
    (fd : FunctionDefinition ι) : Emit ι Unit :=
  Emit.bind (isBuiltin env oi) fun q =>
  if q.2 then Emit.pure ()
  else
    Emit.bind (newFn env fd) fun f =>
    Emit.bind (mangle env fd.NameID (fd.Linkage = .ExternalLinkage) (-1)) fun nm =>
    Emit.bind (w (ascii "func " ++ env.dict.S nm ++ ascii "(")) fun _ =>
    Emit.bind
      (if fd.NameID = env.idMain ∧ f.Arguments.length ≠ 2 then ws "int32, **int8) (r0 int32)"
       else
        Emit.bind (forEachIdx (signatureArgument env fd) 0 f.Arguments) fun _ =>
        Emit.bind (wsIf f.Variadic "args ...interface\x7b\x7d") fun _ =>
        Emit.bind (ws ")") fun _ =>
        match f.Results with
        | [] => Emit.pure ()
        | r :: _ =>
          Emit.bind (typ env r) fun T =>
          w (ascii "(r0 " ++ env.dict.S T ++ ascii ")")) fun _ =>
    Emit.bind (w (ascii "\x7b // " ++ env.PositionString (pos env fd.Position) ++ ascii "\n"))
      fun _ =>
    Emit.bind (forEach (localDeclaration env) f.varNfo) fun _ =>
    Emit.bind (forEach (emit env f) (env.newGraph fd.Body)) fun _ =>
    ws "\x7d\n\n"

/-! ## Data definitions and the whole unit: `gen.dataDefinition`, `gen.gen` -/

/-- The method `gen.dataDefinition`. -/
def dataDefinition {ι : Type} [DecidableEq ι] (env : Env ι) (d : DataDefinition ι) :
    Emit ι Unit :=
  Emit.bind (mangle env d.NameID (d.Linkage = .ExternalLinkage) (-1)) fun nm =>
  Emit.bind (typ2 env d.TypeID) fun T =>
  Emit.bind (w (ascii "var " ++ env.dict.S nm ++ ascii " " ++ env.dict.S T ++ ascii " // " ++
    env.PositionString (pos env d.Position) ++ ascii "\n\n")) fun _ =>
  if env.isZeroValue d.Value then Emit.pure ()
  else
    Emit.bind (ws "func init() \x7b\n") fun _ =>
    Emit.bind (MustType env d.TypeID) fun t =>
    Emit.bind
      (match t with
        | .Array Items .Int8 =>
          Emit.bind (w (ascii "crt.Xstrncpy(&" ++ env.dict.S nm ++ ascii "[0],")) fun _ =>
          Emit.bind (value env d.TypeID d.Value) fun _ =>
          w (ascii ", " ++ fmtInt Items ++ ascii ")")
        | _ =>
          Emit.bind (w (env.dict.S nm ++ ascii " = ")) fun _ =>
          value env d.TypeID d.Value) fun _ =>
    ws "\n\x7d\n\n"

/-- One turn of the loop of `gen.gen` over the bytes of the string pool: a
backslash and a double quote get a backslash in front, a byte below `' '` or
from `0x7f` up is written as a backslash, `x` and two hexadecimal digits. -/
def strTabByte (v : Byte) : List Byte :=
  if v.val = 92 then [92, 92]
  else if v.val = 34 then [92, 34]
  else if v.val < 32 ∨ 127 ≤ v.val then [92, 120] ++ fmtHex2 v
  else [v]

/-- One turn of the loop of `gen.gen` over the objects. -/
def genObject {ι : Type} [DecidableEq ι] (env : Env ι) (i : Nat) (v : Object ι) : Emit ι Unit :=
  match v with
  | .FunctionDefinition x => functionDefinition env i x
  | .DataDefinition x => dataDefinition env x
  | .Other => raise (.val "internal error")

/-- The statements of `gen.gen` before its `return`: the package clause, the
objects, the helpers and the string table. -/
def genText {ι : Type} [DecidableEq ι] (env : Env ι) : Emit ι Unit :=
  Emit.bind (ws "package foo\n") fun _ =>
  Emit.bind (forEachIdx (genObject env) 0 env.obj) fun _ =>
  Emit.bind (genHelpers env) fun _ =>
  Emit.bind getGen fun g =>
  if g.strings.length ≠ 0 then
    Emit.bind (ws "func str(n int) *int8 \x7b return (*int8)(unsafe.Pointer(&strTab[n]))\x7d\n")
      fun _ =>
    Emit.bind (w (ascii "var strTab = []byte(" ++ [34])) fun _ =>
    Emit.bind (forEach (fun v => w (strTabByte v)) g.strings) fun _ =>
    w ([34] ++ ascii ")\n")
  else Emit.pure ()

set_option linter.dupNamespace false in
/-- The body of `New`, `g = newGen(obj, qualifier); return g.gen()`, as the
deferred function of `New` sees it: `gen.gen` writes its text to `g.out` and
returns what the optimizer pass returns, the buffer being what that pass
leaves; a panic of either unwinds. -/
def gen.gen {ι : Type} [DecidableEq ι] (env : Env ι) : GenOutcome :=
  match genText env (newGenerator ι) with
  | .error v => .panicked v
  | .ok (_, t, _) =>
    match env.opt t with
    | .error v => .panicked v
    | .ok (err, out) => .returned err out

/-! ## Orders and contracts of the external services -/

/-- The comparison `<` of Go on strings: byte by byte. -/
def bytesLess : List Byte → List Byte → Bool
  | [], [] => false
  | [], _ :: _ => true
  | _ :: _, [] => false
  | a :: l, b :: m => if a.val < b.val then true else if b.val < a.val then false else bytesLess l m

/-- The function `less` that `helpers` hands to `sort.Slice`. -/
def helperLess (a b : typeNfo) : Bool := bytesLess a.string b.string

/-- What `helpers` relies on from `sort.Slice`: the result holds the same
elements and no element is less than one before it. -/
def IsSortSlice (s : List typeNfo → List typeNfo) : Prop :=
  ∀ r, (s r).Perm r ∧ (s r).Pairwise (fun a b => helperLess b a = false)

/-- What is known of the order in which Go ranges over a map: every key
comes once. -/
def IsRange (e : List TypeID → List TypeID) : Prop := ∀ m, (e m).Perm m

/-- The generator after the needs `rs` were recorded, in order, on a fresh
generator. -/
def requestRun (ι : Type) (rs : List (Family × TypeID)) : generator ι :=
  rs.foldl (fun g r => g.request r.1 r.2) (newGenerator ι)

/-- The generator after `isBuiltin` was called on each index of `is`, in order,
starting from `g`; a call that panics leaves the generator as it is. -/
def builtinRunFrom {ι : Type} (env : Env ι) (g : generator ι) (is : List Int) : generator ι :=
  is.foldl (fun g i => match isBuiltin env i g with
    | .ok (_, _, g1) => g1
    | .error _ => g) g

/-! ## A small environment for concrete runs -/

/-- The types of the small environment, by id: 1 `int32`, 2 `*int32`, 3 the
void pointer, 4 `func(*int32)`, 5 the pointer to it, 6 `func() (int32, int32)`,
7 `uint8`. -/
def demoMustType : TypeID → Option Ty
  | 1 => some .Int32
  | 2 => some (.Pointer .Int32)
  | 3 => some (.Pointer (.Struct []))
  | 4 => some (.Function [.Pointer .Int32] [] false)
  | 5 => some (.Pointer (.Function [.Pointer .Int32] [] false))
  | 6 => some (.Function [] [.Int32, .Int32] false)
  | 7 => some .Uint8
  | _ => none

/-- The ids of the types of the small environment. -/
def demoID : Ty → TypeID
  | .Int32 => 1
  | .Pointer .Int32 => 2
  | .Pointer (.Struct []) => 3
  | .Function [.Pointer .Int32] [] false => 4
  | .Pointer (.Function [.Pointer .Int32] [] false) => 5
  | .Function [] [.Int32, .Int32] false => 6
  | .Uint8 => 7
  | _ => 0

/-- A small environment: the dictionary whose ids are the byte strings, 64
bits, the objects `obj`; a qualifier that answers `crt`; a body turned into
one block that holds its operations; maps ranged over in the order of their
list; `sort.Slice` as an insertion sort; an optimizer pass that leaves the
buffer as it is. -/
def demoEnv (obj : List (Object (List Byte))) : Env (List Byte) where
  dict := bytesDict
  arch := .bits64
  roundup := roundup
  obj := obj
  qualifier := fun _ _ => ascii "crt"
  MustType := demoMustType
  ID := demoID
  TypeIDString := fun t => ascii "T" ++ fmtInt t
  Sizeof := fun _ => 4
  idVoidPtr := 3
  idInt32 := 1
  idInt64 := 101
  idUint64 := 102
  idFloat64 := 103
  idComplex64 := 104
  idMain := ascii "main"
  zeroID := []
  Base := fun s => s
  PositionString := fun _ => ascii "-"
  Float32String := fun _ => ascii "0"
  Float64String := fun _ => ascii "0"
  isZeroValue := fun _ => false
  unionValue := fun _ _ => .ok []
  varInfo := fun _ => []
  newGraph := fun body => [⟨body.map nodeOp.op⟩]
  sortPairs := fun a => a
  rangeKeys := fun m => m
  sortSlice := fun r => r.insertionSort (fun a b => helperLess b a = false)
  opt := fun b => .ok (none, b)

/-- A function descriptor without arguments and variables. -/
def demoFn : fn (List Byte) :=
  { f := ⟨ascii "f", .InternalLinkage, 4, ⟨[], 0, 0, 0⟩, [ascii "p"], []⟩,
    Arguments := [.Pointer .Int32], Results := [], Variadic := false, varNfo := [] }

/-- The text a method writes from a fresh generator, if it does not panic. -/
def textOf {ι α : Type} (m : Emit ι α) : Option (List Byte) :=
  match m (newGenerator ι) with
  | .ok (_, t, _) => some t
  | .error _ => none

/-- A unit of one function, `f`, and one variable, `s`, whose value is the
string `hi"` followed by a newline. -/
def demoUnit : List (Object (List Byte)) :=
  [.FunctionDefinition ⟨ascii "f", .InternalLinkage, 4, ⟨[], 0, 0, 0⟩, [ascii "p"], [.Return]⟩,
   .DataDefinition ⟨ascii "s", .ExternalLinkage, 2, ⟨[], 0, 0, 0⟩, .StringValue [104, 105, 34, 10] 0⟩]

/-- The text generated from `demoUnit`, behind the package clause. -/
def demoUnitText : List Byte :=
  ascii ("func _f(_p *int32 ,)\x7b // -\nreturn\n\x7d\n\nvar Xs *int32  // -\n\n" ++
    "func init() \x7b\nXs = str(0)\n\x7d\n\n" ++
    "func bool2int(b bool) int32 \x7b if b \x7b return 1\x7d; return 0 \x7d\n" ++
    "func drop(interface\x7b\x7d) \x7b\x7d\n" ++
    "func str(n int) *int8 \x7b return (*int8)(unsafe.Pointer(&strTab[n]))\x7d\n" ++
    "var strTab = []byte(\"hi\\\"\\x0a\\x00\")\n")

/-- A function with two local variables: `x` of type `int32` in the scope 0
and `y` of type `int32` in the scope 2. -/
def demoVarFn : fn (List Byte) :=
  { f := ⟨ascii "f", .InternalLinkage, 4, ⟨[], 0, 0, 0⟩, [ascii "p"], []⟩,
    Arguments := [.Pointer .Int32], Results := [], Variadic := false,
    varNfo := [⟨⟨0, ascii "x", 1, .Nil, ⟨[], 0, 0, 0⟩⟩, 0⟩,
      ⟨⟨1, ascii "y", 1, .Int32Value 5, ⟨[], 0, 0, 0⟩⟩, 2⟩] }

/-! ## Notions used in the statements and proofs -/

/-- The object `i` is a function definition whose body is one `Panic`. -/
def IsStub {ι : Type} (env : Env ι) (i : Int) : Prop :=
  0 ≤ i ∧ ∃ x, env.obj.get? i.toNat = some (.FunctionDefinition x) ∧ x.Body = [.Panic]

/-- The cache of `isBuiltin` and the trace of the callback agree: no index
was asked for twice, an index is cached exactly when it was asked for, and
only stubs were asked for. -/
def BuiltinsOk {ι : Type} (env : Env ι) (g : generator ι) : Prop :=
  g.asked.Nodup ∧ (∀ i, i ∈ g.asked ↔ (lookup g.builtins i).isSome) ∧
    ∀ i ∈ g.asked, IsStub env i

/-- One call of `isBuiltin` in a run: the generator after it. -/
def builtinStep {ι : Type} (env : Env ι) (g : generator ι) (i : Int) : generator ι :=
  match isBuiltin env i g with
  | .ok (_, _, g1) => g1
  | .error _ => g

/-- The text `_N` of the label with the number `N`. -/
def labelName (N : Int) : List Byte := ascii "_" ++ fmtInt N

/-- The parent of a node is an `Element`. -/
def underElement {ι : Type} : Option (Op ι) → Bool
  | some (.Element _ _) => true
  | _ => false

/-- The key under which a local variable is mangled: the name of its
declaration, not exported, its scope, the scope 0 standing for no scope. -/
def localKey {ι : Type} (v : varNfo ι) : cname ι := ⟨v.decl.NameID, false, scopeIndex v.scope⟩

/-- The generator after a call of `mangle` on the key `k`. -/
def afterMangle {ι : Type} [DecidableEq ι] (env : Env ι) (g : generator ι) (k : cname ι) :
    generator ι :=
  { g with togen := (g.togen.mangle env.dict k.NameID k.exported k.index).2 }

/-! ## Interpreted string literals of Go

The text between the double quotes of an interpreted string literal, read by
the rules of the Go language specification: a backslash starts an escape
(`\a \b \f \n \r \t \v \\ \"`, three octal digits, `\x` and two hexadecimal
digits, `\u` and four, `\U` and eight); a newline and a double quote cannot
stand unescaped; every other byte stands for itself. -/

/-- The value of a hexadecimal digit. -/
def hexVal (b : Byte) : Option Nat :=
  if 48 ≤ b.val ∧ b.val ≤ 57 then some (b.val - 48)
  else if 97 ≤ b.val ∧ b.val ≤ 102 then some (b.val - 87)
  else if 65 ≤ b.val ∧ b.val ≤ 70 then some (b.val - 55)
  else none

/-- The value of an octal digit. -/
def octVal (b : Byte) : Option Nat :=
  if 48 ≤ b.val ∧ b.val ≤ 55 then some (b.val - 48) else none

/-- The value of a run of hexadecimal digits. -/
def hexRun : List Byte → Option Nat
  | l => l.foldl (fun a b =>
      match a, hexVal b with
      | some n, some h => some (16 * n + h)
      | _, _ => none) (some 0)

/-- The value of a run of octal digits. -/
def octRun : List Byte → Option Nat
  | l => l.foldl (fun a b =>
      match a, octVal b with
      | some n, some h => some (8 * n + h)
      | _, _ => none) (some 0)

/-- The UTF-8 form of a code point; there is none for a surrogate half and
above `0x10ffff`. -/
def utf8 (c : Nat) : Option (List Byte) :=
  if c < 128 then some [Fin.ofNat c]
  else if c < 2048 then some [Fin.ofNat (192 + c / 64), Fin.ofNat (128 + c % 64)]
  else if 55296 ≤ c ∧ c ≤ 57343 then none
  else if c < 65536 then
    some [Fin.ofNat (224 + c / 4096), Fin.ofNat (128 + c / 64 % 64), Fin.ofNat (128 + c % 64)]
  else if c ≤ 1114111 then
    some [Fin.ofNat (240 + c / 262144), Fin.ofNat (128 + c / 4096 % 64),
      Fin.ofNat (128 + c / 64 % 64), Fin.ofNat (128 + c % 64)]
  else none

/-- The byte of a one-letter escape: `\a \b \f \n \r \t \v \\ \"`. -/
def simpleEscape (e : Byte) : Option Byte :=
  if e.val = 97 then some 7
  else if e.val = 98 then some 8
  else if e.val = 102 then some 12
  else if e.val = 110 then some 10
  else if e.val = 114 then some 13
  else if e.val = 116 then some 9
  else if e.val = 118 then some 11
  else if e.val = 92 then some 92
  else if e.val = 34 then some 34
  else none

/-- The element at the head of the body of an interpreted string literal: the
bytes it stands for and the rest of the body; `none` when no element starts
there.  That the bytes from `0x80` up form UTF-8 is not checked. -/
def unquoteHead : List Byte → Option (List Byte × List Byte)
  | [] => none
  | c :: r =>
    if c.val = 34 ∨ c.val = 10 then none
    else if c.val ≠ 92 then some ([c], r)
    else
      match r with
      | [] => none
      | e :: r1 =>
        if e.val = 120 then
          match r1 with
          | h1 :: h2 :: r2 => (hexRun [h1, h2]).map (fun v => ([Fin.ofNat v], r2))
          | _ => none
        else if e.val = 117 then
          match r1 with
          | h1 :: h2 :: h3 :: h4 :: r2 =>
            ((hexRun [h1, h2, h3, h4]).bind utf8).map (fun u => (u, r2))
          | _ => none
        else if e.val = 85 then
          match r1 with
          | h1 :: h2 :: h3 :: h4 :: h5 :: h6 :: h7 :: h8 :: r2 =>
            ((hexRun [h1, h2, h3, h4, h5, h6, h7, h8]).bind utf8).map (fun u => (u, r2))
          | _ => none
        else if (octVal e).isSome then
          match r1 with
          | o2 :: o3 :: r2 =>
            (octRun [e, o2, o3]).bind (fun v => if v < 256 then some ([Fin.ofNat v], r2) else none)
          | _ => none
        else (simpleEscape e).map (fun b => ([b], r1))

/-- Reading a body element by element, at most `fuel` elements. -/
def goUnquoteFrom : Nat → List Byte → Option (List Byte)
  | _, [] => some []
  | 0, _ :: _ => none
  | fuel + 1, c :: r =>
    match unquoteHead (c :: r) with
    | some (u, rest) => (goUnquoteFrom fuel rest).map (fun t => u ++ t)
    | none => none

/-- The bytes an interpreted string literal of Go with the body `b` stands
for; `none` when `b` is not the body of such a literal.  An element takes at
least one byte, so that there are at most `b.length` of them. -/
def goUnquote (b : List Byte) : Option (List Byte) := goUnquoteFrom b.length b

/-- The text `gen.gen` writes between the double quotes of `strTab` for the
pool `s`: what its loop over `g.strings.Bytes()` writes. -/
def strTabBody : List Byte → List Byte
  | [] => []
  | v :: s => strTabByte v ++ strTabBody s

/-- One piece of the body of `strTab`: `\\`, `\"`, `\x` and two lower-case
hexadecimal digits, or one byte from `0x20` to `0x7e` other than the double
quote and the backslash. -/
def IsPiece (t : List Byte) : Prop :=
  t = [92, 92] ∨ t = [92, 34] ∨
  (∃ h1 h2 : Byte, t = [92, 120, h1, h2] ∧ (hexVal h1).isSome ∧ (hexVal h2).isSome) ∨
  (∃ v : Byte, t = [v] ∧ 32 ≤ v.val ∧ v.val < 127 ∧ v.val ≠ 34 ∧ v.val ≠ 92)

/-- The bytes of a body that stand outside an escape: a backslash and the byte
behind it are passed over; a backslash that ends the body is kept. -/
def unescaped : List Byte → List Byte
  | [] => []
  | c :: t =>
    if c.val = 92 then
      match t with
      | [] => [c]
      | _ :: r => unescaped r
    else c :: unescaped t

/-! ## Keys that share an identifier -/

/-- The unscoped key `a` is shadowed by the scoped key `b`: neither is
exported, `a` has no scope, `b` has the scope `n`, and the name of `a` is the
decimal form of `n`, `_` and the name of `b`. -/
def Shadows {ι : Type} (d : Dict ι) (a b : cname ι) : Prop :=
  a.exported = false ∧ a.index = -1 ∧ b.exported = false ∧ 0 ≤ b.index ∧
  d.S a.NameID = fmtNat b.index.natAbs ++ 95 :: d.S b.NameID

instance {ι : Type} (d : Dict ι) (a b : cname ι) : Decidable (Shadows d a b) := by
  unfold Shadows
  infer_instance

/-! ## The functions a text defines -/

/-- The text holds no newline. -/
def NoNewline (l : List Byte) : Prop := ∀ b ∈ l, b.val ≠ 10

/-- The lines of a text, `cur` being what was read of the line at hand; the
last one is what follows the last newline. -/
def textLines (cur : List Byte) : List Byte → List (List Byte)
  | [] => [cur]
  | b :: r => if b.val = 10 then cur :: textLines [] r else textLines (cur ++ [b]) r

/-- The name a line defines: for a line that begins with `func `, what stands
between that and the first `(`. -/
def definedName (line : List Byte) : Option (List Byte) :=
  if line.take 5 = ascii "func " then some ((line.drop 5).takeWhile (fun b => b.val ≠ 40))
  else none

/-- The names of the functions a text defines at the beginning of its lines,
in the order of the text, each as often as it is defined. -/
def definedNames (text : List Byte) : List (List Byte) :=
  (textLines [] text).filterMap definedName

/-- The word by which `gen.gen` and `gen.expression` name a family. -/
def familyName : Family → List Byte
  | .copy => ascii "copy"
  | .postInc => ascii "postInc"
  | .preInc => ascii "preInc"
  | .storebits => ascii "storebits"
  | .store => ascii "store"

/-- The name of the helper of a family for a type id: `copy_<id>` and its
likes. -/
def helperName (f : Family) (t : TypeID) : List Byte := familyName f ++ ascii "_" ++ fmtInt t

/-! ## A unit that needs a helper -/

/-- The call `copy_1(p, p)`, as a statement of the function `f`. -/
def demoCopyCall : exprNode (List Byte) :=
  .mk (.Copy 1) [.mk (.Argument false 0) [] none 2 (some (.Copy 1)),
    .mk (.Argument false 0) [] none 2 (some (.Copy 1))] none 2 none

/-- A unit of one function, `f`, with the argument `p`. -/
def demoCopyUnit : List (Object (List Byte)) :=
  [.FunctionDefinition ⟨ascii "f", .InternalLinkage, 4, ⟨[], 0, 0, 0⟩, [ascii "p"], [.Return]⟩]

/-- The small environment on `demoCopyUnit`, the body of `f` turned into one
block of two statements `copy_1(p, p)` and a `return`. -/
def demoCopyEnv : Env (List Byte) :=
  { demoEnv demoCopyUnit with
    newGraph := fun _ => [⟨[.expr demoCopyCall, .expr demoCopyCall, .op .Return]⟩] }

/-- The package clause and the function generated from `demoCopyUnit`. -/
def demoCopyObjects : List Byte :=
  ascii ("package foo\nfunc _f(_p *int32 ,)\x7b // -\n(copy_1(((_p)),((_p))))\n" ++
    "(copy_1(((_p)),((_p))))\nreturn\n\x7d\n\n")

/-- The helper lines generated from `demoCopyUnit`. -/
def demoCopyHelpers : List Byte :=
  ascii ("func bool2int(b bool) int32 \x7b if b \x7b return 1\x7d; return 0 \x7d\n" ++
    "func copy_1(d, s *int32 ) *int32  \x7b *d = *s; return d \x7d\n" ++
    "func drop(interface\x7b\x7d) \x7b\x7d\n")

/-- The generator after the function of `demoCopyUnit` was written: the cache
holds the names of `p` and `f`, and `copy_1` is needed. -/
def demoCopyState : generator (List Byte) :=
  { togen := ⟨[(⟨ascii "p", false, -1⟩, ascii "_p"), (⟨ascii "f", false, -1⟩, ascii "_f")], [], []⟩,
    builtins := [], copies := [1], postIncs := [], preIncs := [], storebits := [], stores := [],
    asked := [] }

/-! # Properties -/

/-! ## The mangling cache -/

theorem lookup_mem {κ ν : Type} [DecidableEq κ] (m : List (κ × ν)) (k : κ) (v : ν)
    (h : lookup m k = some v) : (k, v) ∈ m := by
  induction m with
  | nil => simp [lookup] at h
  | cons p m ih =>
    obtain ⟨k', v'⟩ := p
    by_cases hk : k' = k
    · simp [lookup, hk] at h
      simp [hk, h]
    · simp only [lookup, hk, if_false] at h
      exact List.mem_cons_of_mem _ (ih h)

theorem mangleByte_append (buf : List Byte) (v : Byte) :
    mangleByte buf v = buf ++ mangleByte [] v := by
  unfold mangleByte
  split <;> simp

theorem foldl_mangleByte (l : List Byte) (buf : List Byte) :
    l.foldl mangleByte buf = buf ++ escapeName l := by
  induction l generalizing buf with
  | nil => simp [escapeName]
  | cons v l ih =>
    rw [List.foldl_cons, ih, mangleByte_append, escapeName, List.append_assoc]

theorem mangle_of_miss {ι : Type} [DecidableEq ι] (d : Dict ι) (g : gen ι)
    (nm : ι) (exported : Bool) (index : Int)
    (h : lookup g.mangled ⟨nm, exported, index⟩ = none) :
    g.mangle d nm exported index =
      match mangleText d ⟨nm, exported, index⟩ with
      | .error e => (.error e, g)
      | .ok b => (.ok (d.ID b),
          { g with mangled := (⟨nm, exported, index⟩, d.ID b) :: g.mangled }) := by
  unfold gen.mangle mangleText
  simp only [h]
  cases mangleHead exported index with
  | error e => rfl
  | ok buf => simp only [foldl_mangleByte]

theorem mangle_fst {ι : Type} [DecidableEq ι] (d : Dict ι) (g : gen ι) (hg : CacheOk d g)
    (nm : ι) (exported : Bool) (index : Int) :
    (g.mangle d nm exported index).1 = (mangleText d ⟨nm, exported, index⟩).map d.ID := by
  cases h : lookup g.mangled ⟨nm, exported, index⟩ with
  | some x =>
    have := hg _ _ (lookup_mem _ _ _ h)
    unfold gen.mangle
    simp only [h, this]
  | none =>
    rw [mangle_of_miss d g nm exported index h]
    cases mangleText d ⟨nm, exported, index⟩ <;> rfl

theorem mangle_cacheOk {ι : Type} [DecidableEq ι] (d : Dict ι) (g : gen ι) (hg : CacheOk d g)
    (nm : ι) (exported : Bool) (index : Int) :
    CacheOk d (g.mangle d nm exported index).2 := by
  cases h : lookup g.mangled ⟨nm, exported, index⟩ with
  | some x =>
    unfold gen.mangle
    simpa only [h] using hg
  | none =>
    rw [mangle_of_miss d g nm exported index h]
    cases ht : mangleText d ⟨nm, exported, index⟩ with
    | error e => exact hg
    | ok b =>
      intro k v hkv
      simp only [List.mem_cons, Prod.mk.injEq] at hkv
      rcases hkv with ⟨rfl, rfl⟩ | hkv
      · rw [ht]; rfl
      · exact hg k v hkv

theorem foldl_mangle_cacheOk {ι : Type} [DecidableEq ι] (d : Dict ι) (ks : List (cname ι))
    (g : gen ι) (hg : CacheOk d g) :
    CacheOk d (ks.foldl (fun g k => (g.mangle d k.NameID k.exported k.index).2) g) := by
  induction ks generalizing g with
  | nil => exact hg
  | cons k ks ih => exact ih _ (mangle_cacheOk d g hg _ _ _)

theorem mangleRun_cacheOk {ι : Type} [DecidableEq ι] (d : Dict ι) (ks : List (cname ι)) :
    CacheOk d (mangleRun d ks) :=
  foldl_mangle_cacheOk d ks (newGen ι) (by intro k v h; simp [newGen] at h)

theorem newGen_cacheOk {ι : Type} (d : Dict ι) : CacheOk d (newGen ι) := by
  intro k v h; simp [newGen] at h

theorem mangleText_error_iff {ι : Type} (d : Dict ι) (k : cname ι) :
    (∃ e, mangleText d k = .error e) ↔ (k.exported = true ∧ 0 ≤ k.index) := by
  unfold mangleText mangleHead
  by_cases he : k.exported = true <;> by_cases hi : 0 ≤ k.index <;> simp [he, hi]

theorem mangleText_error_val {ι : Type} (d : Dict ι) (k : cname ι) (e : PanicVal)
    (h : mangleText d k = .error e) : e = .val "internal error" := by
  unfold mangleText mangleHead at h
  by_cases he : k.exported = true <;> by_cases hi : 0 ≤ k.index <;> simp [he, hi] at h
  exact h.symm

theorem mangle_error_state {ι : Type} [DecidableEq ι] (d : Dict ι) (g : gen ι)
    (nm : ι) (exported : Bool) (index : Int) (e : PanicVal)
    (h : (g.mangle d nm exported index).1 = .error e) :
    (g.mangle d nm exported index).2 = g := by
  cases hl : lookup g.mangled ⟨nm, exported, index⟩ with
  | some x => unfold gen.mangle; simp only [hl]
  | none =>
    rw [mangle_of_miss d g nm exported index hl] at h ⊢
    cases ht : mangleText d ⟨nm, exported, index⟩ with
    | error e => rfl
    | ok b => rw [ht] at h; simp at h

/-- C8: the mangling cache is a function of its key.  After any sequence of
`mangle` calls on a fresh generator, every entry `(k, v)` of the cache holds
the identifier `v` that `mangle` returns for `k` on a fresh generator, a call
for `k` returns what the call on a fresh generator returns, and so two calls
with the same key, made at any two points of a run, return the same
identifier. -/
theorem mangle_cache_pure {ι : Type} [DecidableEq ι] (d : Dict ι)
    (ks ks' : List (cname ι)) (k : cname ι) :
    (∀ v, (k, v) ∈ (mangleRun d ks).mangled →
        ((newGen ι).mangle d k.NameID k.exported k.index).1 = .ok v) ∧
      ((mangleRun d ks).mangle d k.NameID k.exported k.index).1 =
        ((newGen ι).mangle d k.NameID k.exported k.index).1 ∧
      ((mangleRun d ks).mangle d k.NameID k.exported k.index).1 =
        ((mangleRun d ks').mangle d k.NameID k.exported k.index).1 := by
  have h0 := mangle_fst d (newGen ι) (newGen_cacheOk d) k.NameID k.exported k.index
  have h1 := mangle_fst d _ (mangleRun_cacheOk d ks) k.NameID k.exported k.index
  have h2 := mangle_fst d _ (mangleRun_cacheOk d ks') k.NameID k.exported k.index
  refine ⟨fun v hv => ?_, by rw [h0, h1], by rw [h1, h2]⟩
  rw [h0]
  exact mangleRun_cacheOk d ks k v hv

/-- C9: at any point of a run, `mangle` panics (with "internal error") exactly
when `exported` is set and the scope index is not negative; for every other
key it returns an identifier; and a call that panics leaves the generator,
the cache with it, as it was. -/
theorem mangle_fails_iff {ι : Type} [DecidableEq ι] (d : Dict ι) (ks : List (cname ι))
    (nm : ι) (exported : Bool) (index : Int) :
    ((∃ e, ((mangleRun d ks).mangle d nm exported index).1 = .error e) ↔
        (exported = true ∧ 0 ≤ index)) ∧
      ((∃ id, ((mangleRun d ks).mangle d nm exported index).1 = .ok id) ↔
        ¬ (exported = true ∧ 0 ≤ index)) ∧
      (∀ e, ((mangleRun d ks).mangle d nm exported index).1 = .error e →
        e = .val "internal error" ∧
          ((mangleRun d ks).mangle d nm exported index).2 = mangleRun d ks) := by
  have h1 := mangle_fst d _ (mangleRun_cacheOk d ks) nm exported index
  have ht := mangleText_error_iff d ⟨nm, exported, index⟩
  simp only at ht
  refine ⟨?_, ?_, ?_⟩
  · rw [h1, ← ht]
    cases hm : mangleText d ⟨nm, exported, index⟩ <;> simp [Except.map]
  · rw [h1, ← ht]
    cases hm : mangleText d ⟨nm, exported, index⟩ <;> simp [Except.map]
  · intro e he
    refine ⟨?_, mangle_error_state d _ nm exported index e he⟩
    rw [h1] at he
    cases hm : mangleText d ⟨nm, exported, index⟩ with
    | error e' =>
      rw [hm] at he
      simp only [Except.map, Except.error.injEq] at he
      subst he
      exact mangleText_error_val d _ _ hm
    | ok b => rw [hm] at he; simp [Except.map] at he

/-! ## The text of a mangled name -/

theorem hexDigit_inj (a b : Nat) (h : hexDigit a = hexDigit b) : a % 16 = b % 16 := by
  unfold hexDigit at h
  split at h <;> split at h <;> simp only [Fin.mk.injEq] at h <;> omega

theorem fmtHex2_inj (v w : Byte) (h : fmtHex2 v = fmtHex2 w) : v = w := by
  unfold fmtHex2 at h
  simp only [List.cons.injEq, and_true] at h
  have h1 := hexDigit_inj _ _ h.1
  have h2 := hexDigit_inj _ _ h.2
  have hv := v.isLt
  have hw := w.isLt
  apply Fin.ext
  omega

theorem escapeName_inj (a b : List Byte) (h : escapeName a = escapeName b) : a = b := by
  induction a generalizing b with
  | nil =>
    cases b with
    | nil => rfl
    | cons w l' =>
      simp only [escapeName, mangleByte] at h
      split at h <;> simp at h
  | cons v l ih =>
    cases b with
    | nil =>
      simp only [escapeName, mangleByte] at h
      split at h <;> simp at h
    | cons w l' =>
      simp only [escapeName, mangleByte] at h
      split at h <;> split at h
      · simp only [List.nil_append, List.cons_append, List.cons.injEq, true_and, fmtHex2] at h
        have hvw := fmtHex2_inj v w (by simp only [fmtHex2, List.cons.injEq, and_true]; exact ⟨h.1, h.2.1⟩)
        rw [hvw, ih l' h.2.2]
      · rename_i hv hw
        simp only [List.nil_append, List.cons_append, List.cons.injEq] at h
        have := congrArg Fin.val h.1
        simp at this
        omega
      · rename_i hv hw
        simp only [List.nil_append, List.cons_append, List.cons.injEq] at h
        have := congrArg Fin.val h.1
        simp at this
        omega
      · simp only [List.nil_append, List.cons_append, List.cons.injEq] at h
        rw [h.1, ih l' h.2]

theorem decVal_append (l : List Byte) (b : Byte) :
    decVal (l ++ [b]) = 10 * decVal l + (b.val - 48) := by
  simp [decVal, List.foldl_append]

theorem decVal_fmtNatAux (fuel n : Nat) (h : n < fuel) : decVal (fmtNatAux fuel n) = n := by
  induction fuel generalizing n with
  | zero => omega
  | succ fuel ih =>
    unfold fmtNatAux
    split
    · simp [decVal, digitByte]; omega
    · rw [decVal_append, ih (n / 10) (by omega)]
      simp [digitByte]; omega

theorem fmtNat_inj (m n : Nat) (h : fmtNat m = fmtNat n) : m = n := by
  have h1 := decVal_fmtNatAux (m + 1) m (by omega)
  have h2 := decVal_fmtNatAux (n + 1) n (by omega)
  unfold fmtNat at h
  rw [h, h2] at h1
  exact h1.symm

theorem fmtNatAux_digits (fuel n : Nat) (b : Byte) (hb : b ∈ fmtNatAux fuel n) :
    48 ≤ b.val ∧ b.val ≤ 57 := by
  induction fuel generalizing n with
  | zero => simp [fmtNatAux] at hb
  | succ fuel ih =>
    unfold fmtNatAux at hb
    split at hb
    · simp only [List.mem_singleton] at hb
      subst hb
      simp [digitByte]; omega
    · simp only [List.mem_append, List.mem_singleton] at hb
      rcases hb with hb | hb
      · exact ih _ hb
      · subst hb
        simp [digitByte]; omega

theorem fmtNat_ne_nil (n : Nat) : fmtNat n ≠ [] := by
  unfold fmtNat fmtNatAux
  split <;> simp

theorem fmtInt_of_nonneg (i : Int) (h : 0 ≤ i) : fmtInt i = fmtNat i.natAbs := by
  unfold fmtInt
  rw [if_neg (by omega)]

theorem append_sep_inj (a b r s : List Byte) (c : Byte) (ha : ∀ x ∈ a, x ≠ c)
    (hb : ∀ x ∈ b, x ≠ c) (h : a ++ c :: r = b ++ c :: s) : a = b ∧ r = s := by
  induction a generalizing b with
  | nil =>
    cases b with
    | nil => simpa using h
    | cons y b =>
      simp only [List.nil_append, List.cons_append, List.cons.injEq] at h
      exact absurd h.1.symm (hb y (List.mem_cons_self _ _))
  | cons x a ih =>
    cases b with
    | nil =>
      simp only [List.nil_append, List.cons_append, List.cons.injEq] at h
      exact absurd h.1 (ha x (List.mem_cons_self _ _))
    | cons y b =>
      simp only [List.cons_append, List.cons.injEq] at h
      obtain ⟨hab, hrs⟩ := ih b (fun z hz => ha z (List.mem_cons_of_mem _ hz))
        (fun z hz => hb z (List.mem_cons_of_mem _ hz)) h.2
      exact ⟨by rw [h.1, hab], hrs⟩

theorem mangleText_ok_cases {ι : Type} (d : Dict ι) (k : cname ι) (b : List Byte)
    (h : mangleText d k = .ok b) :
    (k.exported = true ∧ k.index < 0 ∧ b = 88 :: escapeName (d.S k.NameID)) ∨
    (k.exported = false ∧ k.index < 0 ∧ b = 95 :: escapeName (d.S k.NameID)) ∨
    (k.exported = false ∧ 0 ≤ k.index ∧
      b = 95 :: (fmtNat k.index.natAbs ++ 95 :: escapeName (d.S k.NameID))) := by
  unfold mangleText mangleHead at h
  by_cases he : k.exported = true <;> by_cases hi : 0 ≤ k.index
  · simp [he, hi] at h
  · simp [he, hi] at h
    exact Or.inl ⟨he, by omega, h.symm⟩
  · simp [he, hi, fmtInt_of_nonneg] at h
    exact Or.inr (Or.inr ⟨by simpa using he, hi, h.symm⟩)
  · simp [he, hi] at h
    exact Or.inr (Or.inl ⟨by simpa using he, by omega, h.symm⟩)

theorem fmtNat_no_sep (n : Nat) : ∀ x ∈ fmtNat n, x ≠ (95 : Byte) := by
  intro x hx hc
  have := fmtNatAux_digits (n + 1) n x hx
  rw [hc] at this
  exact absurd this (by decide)

theorem mangle_ok_text {ι : Type} [DecidableEq ι] (d : Dict ι) (ks : List (cname ι))
    (nm : ι) (exported : Bool) (index : Int) (id : ι)
    (h : ((mangleRun d ks).mangle d nm exported index).1 = .ok id) :
    ∃ b, mangleText d ⟨nm, exported, index⟩ = .ok b ∧ id = d.ID b := by
  rw [mangle_fst d _ (mangleRun_cacheOk d ks)] at h
  cases hm : mangleText d ⟨nm, exported, index⟩ with
  | error e => rw [hm] at h; simp [Except.map] at h
  | ok b =>
    rw [hm] at h
    simp only [Except.map, Except.ok.injEq] at h
    exact ⟨b, rfl, h.symm⟩

theorem escapeName_append (a b : List Byte) :
    escapeName (a ++ b) = escapeName a ++ escapeName b := by
  induction a with
  | nil => rfl
  | cons x a ih =>
    rw [List.cons_append]
    show mangleByte [] x ++ escapeName (a ++ b) = (mangleByte [] x ++ escapeName a) ++ escapeName b
    rw [ih, List.append_assoc]

theorem escapeName_plain (l : List Byte) (h : ∀ b ∈ l, 32 ≤ b.val ∧ b.val < 127) :
    escapeName l = l := by
  induction l with
  | nil => rfl
  | cons x l ih =>
    have hx := h x (List.mem_cons_self _ _)
    have hl := ih (fun b hb => h b (List.mem_cons_of_mem _ hb))
    simp only [escapeName, mangleByte, hl]
    rw [if_neg (by omega)]
    rfl

theorem escapeName_scoped (n : Nat) (r : List Byte) :
    escapeName (fmtNat n ++ 95 :: r) = fmtNat n ++ 95 :: escapeName r := by
  rw [escapeName_append, escapeName_plain (fmtNat n) (fun b hb => by
    have := fmtNatAux_digits (n + 1) n b hb
    omega)]
  have : escapeName (95 :: r) = 95 :: escapeName r := by
    simp only [escapeName, mangleByte]
    rw [if_neg (by decide)]
    rfl
  rw [this]

theorem escapeName_eq_scoped (l r : List Byte) (n : Nat)
    (h : escapeName l = fmtNat n ++ 95 :: escapeName r) : l = fmtNat n ++ 95 :: r :=
  escapeName_inj _ _ (by rw [h, escapeName_scoped])

/-- Two keys with the same text are the same key up to the name's id, or one
shadows the other. -/
theorem mangleText_eq_cases {ι : Type} (d : Dict ι) (k1 k2 : cname ι) (b : List Byte)
    (h1 : mangleText d k1 = .ok b) (h2 : mangleText d k2 = .ok b)
    (hi1 : -1 ≤ k1.index) (hi2 : -1 ≤ k2.index) :
    (k1.exported = k2.exported ∧ k1.index = k2.index ∧ d.S k1.NameID = d.S k2.NameID) ∨
    Shadows d k1 k2 ∨ Shadows d k2 k1 := by
  rcases mangleText_ok_cases d k1 b h1 with ⟨e1, i1, b1⟩ | ⟨e1, i1, b1⟩ | ⟨e1, i1, b1⟩ <;>
    rcases mangleText_ok_cases d k2 b h2 with ⟨e2, i2, b2⟩ | ⟨e2, i2, b2⟩ | ⟨e2, i2, b2⟩ <;>
    rw [b1] at b2 <;> simp only [List.cons.injEq, true_and] at b2
  · exact Or.inl ⟨by rw [e1, e2], by omega, escapeName_inj _ _ b2⟩
  · exact absurd b2.1 (by decide)
  · exact absurd b2.1 (by decide)
  · exact absurd b2.1 (by decide)
  · exact Or.inl ⟨by rw [e1, e2], by omega, escapeName_inj _ _ b2⟩
  · exact Or.inr (Or.inl ⟨e1, by omega, e2, i2, escapeName_eq_scoped _ _ _ b2⟩)
  · exact absurd b2.1 (by decide)
  · exact Or.inr (Or.inr ⟨e2, by omega, e1, i1, escapeName_eq_scoped _ _ _ b2.symm⟩)
  · obtain ⟨hf, hr⟩ := append_sep_inj _ _ _ _ 95 (fmtNat_no_sep _) (fmtNat_no_sep _) b2
    have := fmtNat_inj _ _ hf
    exact Or.inl ⟨by rw [e1, e2], by omega, escapeName_inj _ _ hr⟩

/-- A key and the key that shadows it have the same text. -/
theorem mangleText_shadows {ι : Type} (d : Dict ι) (a b : cname ι) (h : Shadows d a b) :
    mangleText d a = mangleText d b := by
  obtain ⟨ea, ia, eb, ib, hs⟩ := h
  unfold mangleText mangleHead
  rw [ea, eb, ia, hs, escapeName_scoped, fmtInt_of_nonneg _ ib]
  simp only [Bool.false_eq_true, if_false, if_pos ib]
  rw [if_neg (by decide)]
  simp

/-- A name without `_` is shadowed by no key. -/
theorem not_shadows_of_no_sep {ι : Type} (d : Dict ι) (a b : cname ι)
    (h : ∀ x ∈ d.S a.NameID, x ≠ (95 : Byte)) : ¬ Shadows d a b := by
  intro hs
  have := hs.2.2.2.2
  exact h 95 (by rw [this]; simp) rfl

/-- The unexported key `1` without scope, whose name begins with a digit, is
in no pair of keys that share an identifier. -/
theorem digit_key_unshadowed (b : cname (List Byte)) :
    ¬ Shadows bytesDict ⟨[49], false, -1⟩ b ∧ ¬ Shadows bytesDict b ⟨[49], false, -1⟩ := by
  constructor
  · apply not_shadows_of_no_sep
    intro x hx
    simp only [bytesDict, id, List.mem_singleton] at hx
    subst hx
    decide
  · intro hs
    exact absurd hs.2.2.2.1 (by decide)

/-- C1, amended: among the keys whose scope index is the no-scope sentinel
`-1` or a concrete scope, two keys get the same identifier, at any two points
of a run at which `mangle` succeeds on them, exactly when they are the same
key or one shadows the other: an unexported key without scope whose name is
the decimal form of `n`, `_` and a rest gets the identifier of the unexported
key of the name rest in the scope `n`.  No other two keys collide. -/
theorem mangle_injective {ι : Type} [DecidableEq ι] (d : Dict ι) (hd : d.Interning)
    (ks1 ks2 : List (cname ι)) (k1 k2 : cname ι) (id1 id2 : ι)
    (hi1 : -1 ≤ k1.index) (hi2 : -1 ≤ k2.index)
    (h1 : ((mangleRun d ks1).mangle d k1.NameID k1.exported k1.index).1 = .ok id1)
    (h2 : ((mangleRun d ks2).mangle d k2.NameID k2.exported k2.index).1 = .ok id2) :
    id1 = id2 ↔ (k1 = k2 ∨ Shadows d k1 k2 ∨ Shadows d k2 k1) := by
  obtain ⟨b1, ht1, rfl⟩ := mangle_ok_text d ks1 _ _ _ _ h1
  obtain ⟨b2, ht2, rfl⟩ := mangle_ok_text d ks2 _ _ _ _ h2
  constructor
  · intro hid
    have hb : b1 = b2 := by rw [← hd.1 b1, ← hd.1 b2, hid]
    subst hb
    rcases mangleText_eq_cases d k1 k2 b1 ht1 ht2 hi1 hi2 with ⟨he, hi, hs⟩ | h | h
    · left
      have hnm : k1.NameID = k2.NameID := by rw [← hd.2 k1.NameID, ← hd.2 k2.NameID, hs]
      cases k1; cases k2
      simp only at he hi hnm
      rw [he, hi, hnm]
    · exact Or.inr (Or.inl h)
    · exact Or.inr (Or.inr h)
  · intro h
    have hb : mangleText d k1 = mangleText d k2 := by
      rcases h with h | h | h
      · rw [h]
      · exact mangleText_shadows d k1 k2 h
      · exact (mangleText_shadows d k2 k1 h).symm
    rw [ht1, ht2] at hb
    rw [Except.ok.injEq] at hb
    rw [hb]

theorem bytesDict_interning : bytesDict.Interning := ⟨fun _ => rfl, fun _ => rfl⟩

/-- C1 fails as stated: with the dictionary whose ids are the byte strings,
the distinct keys (`1_a`, not exported, no scope) and (`a`, not exported,
scope 1) both mangle to `_1_a`, and the distinct keys (`a`, not exported,
index -1) and (`a`, not exported, index -2) both mangle to `_a`. -/
theorem mangle_collision :
    bytesDict.Interning ∧
    (⟨[49, 95, 97], false, -1⟩ : cname (List Byte)) ≠ ⟨[97], false, 1⟩ ∧
    ((newGen (List Byte)).mangle bytesDict [49, 95, 97] false (-1)).1 = .ok [95, 49, 95, 97] ∧
    ((newGen (List Byte)).mangle bytesDict [97] false 1).1 = .ok [95, 49, 95, 97] ∧
    (⟨[97], false, -1⟩ : cname (List Byte)) ≠ ⟨[97], false, -2⟩ ∧
    ((newGen (List Byte)).mangle bytesDict [97] false (-1)).1 = .ok [95, 97] ∧
    ((newGen (List Byte)).mangle bytesDict [97] false (-2)).1 = .ok [95, 97] :=
  ⟨bytesDict_interning, by decide, rfl, rfl, by decide, rfl, rfl⟩

/-- C1, amended, at the keys (`1`, not exported, no scope) and (`a`, not
exported, scope 1), the second call made after the first: the identifiers are
`_1` and `_1_a`. -/
theorem mangle_injective_witness :
    ([95, 49] : List Byte) = [95, 49, 95, 97] ↔
      ((⟨[49], false, -1⟩ : cname (List Byte)) = ⟨[97], false, 1⟩ ∨
        Shadows bytesDict ⟨[49], false, -1⟩ ⟨[97], false, 1⟩ ∨
        Shadows bytesDict ⟨[97], false, 1⟩ ⟨[49], false, -1⟩) :=
  mangle_injective bytesDict bytesDict_interning [] [⟨[49], false, -1⟩]
    ⟨[49], false, -1⟩ ⟨[97], false, 1⟩ [95, 49] [95, 49, 95, 97]
    (by decide) (by decide) (by rfl) (by rfl)

/-! ## Mangled names as identifiers of Go -/

theorem identChars_ascii_cons (x : Byte) (r : List Byte)
    (hx : (asciiLetter x.val || asciiDigit x.val) = true) (hr : identChars r = true) :
    identChars (x :: r) = true := by
  have hlt : x.val < 128 := by
    simp only [asciiLetter, asciiDigit, Bool.or_eq_true, Bool.and_eq_true, decide_eq_true_eq,
      beq_iff_eq] at hx
    omega
  cases r with
  | nil => simpa [identChars] using hx
  | cons c rest =>
    rw [identChars, if_pos hlt, hx, hr]
    rfl

theorem identChars_ascii_append (a r : List Byte)
    (ha : ∀ x ∈ a, (asciiLetter x.val || asciiDigit x.val) = true) (hr : identChars r = true) :
    identChars (a ++ r) = true := by
  induction a with
  | nil => simpa using hr
  | cons x a ih =>
    rw [List.cons_append]
    exact identChars_ascii_cons x _ (ha x (List.mem_cons_self _ _))
      (ih (fun y hy => ha y (List.mem_cons_of_mem _ hy)))

theorem hexDigit_ident (n : Nat) :
    (asciiLetter (hexDigit n).val || asciiDigit (hexDigit n).val) = true := by
  unfold hexDigit
  split
  · simp only [asciiLetter, asciiDigit, Bool.or_eq_true, Bool.and_eq_true, decide_eq_true_eq,
      beq_iff_eq]
    omega
  · simp only [asciiLetter, asciiDigit, Bool.or_eq_true, Bool.and_eq_true, decide_eq_true_eq,
      beq_iff_eq]
    omega

theorem identChars_escapeName (l : List Byte)
    (hl : ∀ b ∈ l, 32 ≤ b.val → b.val < 127 →
      (asciiLetter b.val || asciiDigit b.val) = true) :
    identChars (escapeName l) = true := by
  induction l with
  | nil => rfl
  | cons v l ih =>
    have ih' := ih (fun b hb => hl b (List.mem_cons_of_mem _ hb))
    simp only [escapeName, mangleByte]
    split
    · simp only [List.nil_append, List.cons_append, fmtHex2]
      rw [identChars]
      have h2 : identChars (hexDigit (v.val / 16) :: hexDigit v.val :: escapeName l) = true :=
        identChars_ascii_cons _ _ (hexDigit_ident _)
          (identChars_ascii_cons _ _ (hexDigit_ident _) ih')
      rw [if_neg (by decide), h2]
      decide
    · rename_i hv
      simp only [List.nil_append, List.cons_append]
      exact identChars_ascii_cons v _ (hl v (List.mem_cons_self _ _) (by omega) (by omega)) ih'

theorem fmtNat_ident (n : Nat) :
    ∀ x ∈ fmtNat n, (asciiLetter x.val || asciiDigit x.val) = true := by
  intro x hx
  have := fmtNatAux_digits (n + 1) n x hx
  simp only [asciiLetter, asciiDigit, Bool.or_eq_true, Bool.and_eq_true, decide_eq_true_eq,
    beq_iff_eq]
  omega

/-- C10, amended: for every name whose bytes in the copied range
`0x20..0x7e` are all letters, digits or underscores (its other bytes are
arbitrary), and every key on which `mangle` succeeds, the emitted identifier
is an identifier of Go: it starts with a letter or an underscore and goes on
with letters, digits and underscores. -/
theorem mangle_legal_identifier {ι : Type} [DecidableEq ι] (d : Dict ι) (hd : d.Interning)
    (ks : List (cname ι)) (nm : ι) (exported : Bool) (index : Int) (id : ι)
    (hname : ∀ b ∈ d.S nm, 32 ≤ b.val → b.val < 127 →
      (asciiLetter b.val || asciiDigit b.val) = true)
    (h : ((mangleRun d ks).mangle d nm exported index).1 = .ok id) :
    goIdentifier (d.S id) = true := by
  obtain ⟨b, ht, rfl⟩ := mangle_ok_text d ks _ _ _ _ h
  rw [hd.1 b]
  have hesc := identChars_escapeName (d.S nm) hname
  rcases mangleText_ok_cases d _ b ht with ⟨_, _, hb⟩ | ⟨_, _, hb⟩ | ⟨_, _, hb⟩ <;>
    simp only at hb <;> rw [hb, goIdentifier]
  · rw [identChars_ascii_cons _ _ (by decide) hesc]; decide
  · rw [identChars_ascii_cons _ _ (by decide) hesc]; decide
  · rw [identChars_ascii_cons _ _ (by decide)
      (identChars_ascii_append _ _ (fmtNat_ident _) (identChars_ascii_cons _ _ (by decide) hesc))]
    decide

/-- C10, amended, at the name `a\tb` in scope 1: the identifier is
`_1_aØ09b`. -/
theorem mangle_legal_identifier_witness :
    goIdentifier (bytesDict.S [95, 49, 95, 97, 195, 152, 48, 57, 98]) = true :=
  mangle_legal_identifier bytesDict bytesDict_interning [] [97, 9, 98] false 1
    [95, 49, 95, 97, 195, 152, 48, 57, 98]
    (by
      intro b hb
      simp only [bytesDict, id, List.mem_cons, List.mem_singleton, List.not_mem_nil,
        or_false] at hb
      rcases hb with rfl | rfl | rfl <;> decide)
    (by rfl)

/-- C10 fails as stated: the name `a b` mangles to `_a b`, which holds a
space and is no identifier of Go. -/
theorem mangle_illegal_identifier :
    ((newGen (List Byte)).mangle bytesDict [97, 32, 98] false (-1)).1 = .ok [95, 97, 32, 98] ∧
      goIdentifier (bytesDict.S [95, 97, 32, 98]) = false :=
  ⟨rfl, rfl⟩

/-! ## The string pool -/

theorem roundup_isRoundup : IsRoundup roundup := by
  intro n m hm
  unfold roundup
  refine ⟨Nat.dvd_mul_left _ _, ?_, ?_⟩
  · have h1 := Nat.div_add_mod (n + m - 1) m
    have h2 := Nat.mod_lt (n + m - 1) hm
    have h3 : (n + m - 1) / m * m = m * ((n + m - 1) / m) := Nat.mul_comm _ _
    omega
  · intro k hk hnk
    obtain ⟨q, rfl⟩ := hk
    rw [Nat.mul_comm m q]
    apply Nat.mul_le_mul_right
    have : n + m - 1 < (q + 1) * m := by
      have : (q + 1) * m = m * q + m := by ring
      omega
    exact Nat.le_of_lt_succ ((Nat.div_lt_iff_lt_mul hm).2 this)

theorem mallocAllign_pos (a : Arch) : 0 < mallocAllign a := by
  cases a <;> decide

theorem padLoop_eq (fuel x : Nat) (s : List Byte) (h : x - s.length ≤ fuel) :
    padLoop fuel x s = s ++ List.replicate (x - s.length) 0 := by
  induction fuel generalizing s with
  | zero =>
    have : x - s.length = 0 := by omega
    simp [padLoop, this]
  | succ fuel ih =>
    unfold padLoop
    split
    · rename_i hlt
      rw [ih (s ++ [0]) (by simp; omega)]
      have : x - s.length = (x - (s ++ [0]).length) + 1 := by simp; omega
      rw [this, List.replicate_succ, List.append_assoc]
      rfl
    · have : x - s.length = 0 := by omega
      simp [this]

theorem string_of_hit {ι : Type} [DecidableEq ι] (d : Dict ι) (a : Arch) (r : Nat → Nat → Nat)
    (g : gen ι) (n : ι) (x : Nat) (h : lookup g.strTab n = some x) :
    g.string d a r n = (x, g) := by
  unfold gen.string
  simp only [h]

theorem string_of_miss {ι : Type} [DecidableEq ι] (d : Dict ι) (a : Arch) (r : Nat → Nat → Nat)
    (g : gen ι) (n : ι) (h : lookup g.strTab n = none) :
    g.string d a r n =
      (r g.strings.length (mallocAllign a),
        { g with
          strTab := (n, r g.strings.length (mallocAllign a)) :: g.strTab
          strings := g.strings ++
            (List.replicate (r g.strings.length (mallocAllign a) - g.strings.length) 0 ++
              (d.S n ++ [0])) }) := by
  unfold gen.string
  simp only [h]
  rw [padLoop_eq _ _ _ (by omega)]
  simp only [List.append_assoc]

theorem string_poolOk {ι : Type} [DecidableEq ι] (d : Dict ι) (a : Arch) (r : Nat → Nat → Nat)
    (hr : IsRoundup r) (g : gen ι) (hg : PoolOk d g) (n : ι) :
    PoolOk d (g.string d a r n).2 := by
  cases h : lookup g.strTab n with
  | some x => rw [string_of_hit d a r g n x h]; exact hg
  | none =>
    rw [string_of_miss d a r g n h]
    have hle := (hr g.strings.length (mallocAllign a) (mallocAllign_pos a)).2.1
    intro m y hm
    simp only [List.mem_cons, Prod.mk.injEq] at hm
    rcases hm with ⟨rfl, rfl⟩ | hm
    · refine ⟨g.strings ++
        List.replicate (r g.strings.length (mallocAllign a) - g.strings.length) 0, [], ?_, ?_⟩
      · simp only [List.append_assoc]
      · simp only [List.length_append, List.length_replicate]; omega
    · obtain ⟨pre, post, hs, hl⟩ := hg m y hm
      refine ⟨pre, post ++
        (List.replicate (r g.strings.length (mallocAllign a) - g.strings.length) 0 ++
          (d.S n ++ [0])), ?_, hl⟩
      simp only [hs, List.append_assoc, List.cons_append]

theorem stringRun_poolOk {ι : Type} [DecidableEq ι] (d : Dict ι) (a : Arch)
    (r : Nat → Nat → Nat) (hr : IsRoundup r) (ns : List ι) (g : gen ι) (hg : PoolOk d g) :
    PoolOk d (stringRun d a r g ns) := by
  induction ns generalizing g with
  | nil => exact hg
  | cons n ns ih => exact ih _ (string_poolOk d a r hr g hg n)

theorem newGen_poolOk {ι : Type} (d : Dict ι) : PoolOk d (newGen ι) := by
  intro n x h; simp [newGen] at h

theorem string_lookup_self {ι : Type} [DecidableEq ι] (d : Dict ι) (a : Arch)
    (r : Nat → Nat → Nat) (g : gen ι) (n : ι) :
    lookup (g.string d a r n).2.strTab n = some (g.string d a r n).1 := by
  cases h : lookup g.strTab n with
  | some x => rw [string_of_hit d a r g n x h]; exact h
  | none => rw [string_of_miss d a r g n h]; simp [lookup]

theorem string_lookup_mono {ι : Type} [DecidableEq ι] (d : Dict ι) (a : Arch)
    (r : Nat → Nat → Nat) (g : gen ι) (m n : ι) (x : Nat) (h : lookup g.strTab n = some x) :
    lookup (g.string d a r m).2.strTab n = some x := by
  cases hm : lookup g.strTab m with
  | some y => rw [string_of_hit d a r g m y hm]; exact h
  | none =>
    rw [string_of_miss d a r g m hm]
    have hne : m ≠ n := by
      rintro rfl
      rw [h] at hm
      exact Option.noConfusion hm
    simp [lookup, hne, h]

theorem stringRun_lookup_mono {ι : Type} [DecidableEq ι] (d : Dict ι) (a : Arch)
    (r : Nat → Nat → Nat) (ns : List ι) (g : gen ι) (n : ι) (x : Nat)
    (h : lookup g.strTab n = some x) :
    lookup (stringRun d a r g ns).strTab n = some x := by
  induction ns generalizing g with
  | nil => exact h
  | cons m ns ih => exact ih _ (string_lookup_mono d a r g m n x h)

theorem takeWhile_cstring (s post : List Byte) (hs : ∀ b ∈ s, b ≠ 0) :
    (s ++ 0 :: post).takeWhile (fun b => b ≠ 0) = s := by
  induction s with
  | nil => simp
  | cons b s ih =>
    have hb := hs b (List.mem_cons_self _ _)
    simp only [List.cons_append, List.takeWhile_cons, hb, ne_eq, not_false_eq_true,
      decide_True, if_true, List.cons.injEq, true_and]
    exact ih (fun c hc => hs c (List.mem_cons_of_mem _ hc))

theorem cstringAt_of_poolOk {ι : Type} [DecidableEq ι] (d : Dict ι) (g : gen ι)
    (hg : PoolOk d g) (n : ι) (x : Nat) (h : lookup g.strTab n = some x)
    (hz : ∀ b ∈ d.S n, b ≠ 0) : cstringAt g.strings x = d.S n := by
  obtain ⟨pre, post, hs, hl⟩ := hg n x (lookup_mem _ _ _ h)
  unfold cstringAt
  rw [hs, List.drop_left' hl]
  exact takeWhile_cstring _ _ hz

/-- C5, amended: for every string id whose string holds no zero byte, once
`gen.string` has been called on it (after any earlier insertions, `roundup`
being what `IsRoundup` says), immediately and after any number of later
insertions the bytes of the pool from the returned offset up to the first
zero byte are exactly the bytes of the string. -/
theorem string_pool_roundtrip {ι : Type} [DecidableEq ι] (d : Dict ι) (a : Arch)
    (r : Nat → Nat → Nat) (hr : IsRoundup r) (before later : List ι) (n : ι)
    (hz : ∀ b ∈ d.S n, b ≠ 0) :
    cstringAt
        (stringRun d a r ((stringRun d a r (newGen ι) before).string d a r n).2 later).strings
        ((stringRun d a r (newGen ι) before).string d a r n).1 = d.S n := by
  have h0 := stringRun_poolOk d a r hr before _ (newGen_poolOk d)
  have h1 := string_poolOk d a r hr _ h0 n
  have h2 := stringRun_poolOk d a r hr later _ h1
  exact cstringAt_of_poolOk d _ h2 n _
    (stringRun_lookup_mono d a r later _ n _ (string_lookup_self d a r _ n)) hz

/-- C6: once `gen.string` has been called on a string id, a further call on
that id, made after any number of other insertions, returns the offset of the
first call and leaves the generator, the pool's bytes and the offset table
with it, unchanged. -/
theorem string_idempotent {ι : Type} [DecidableEq ι] (d : Dict ι) (a : Arch)
    (r : Nat → Nat → Nat) (g : gen ι) (n : ι) (later : List ι) :
    (stringRun d a r (g.string d a r n).2 later).string d a r n =
      ((g.string d a r n).1, stringRun d a r (g.string d a r n).2 later) :=
  string_of_hit d a r _ n _
    (stringRun_lookup_mono d a r later _ n _ (string_lookup_self d a r g n))

theorem string_aligned {ι : Type} [DecidableEq ι] (d : Dict ι) (a : Arch)
    (r : Nat → Nat → Nat) (hr : IsRoundup r) (g : gen ι) (hg : Aligned a g) (n : ι) :
    Aligned a (g.string d a r n).2 := by
  cases h : lookup g.strTab n with
  | some x => rw [string_of_hit d a r g n x h]; exact hg
  | none =>
    rw [string_of_miss d a r g n h]
    intro m y hm
    simp only [List.mem_cons, Prod.mk.injEq] at hm
    rcases hm with ⟨rfl, rfl⟩ | hm
    · exact (hr g.strings.length (mallocAllign a) (mallocAllign_pos a)).1
    · exact hg m y hm

theorem stringRun_aligned {ι : Type} [DecidableEq ι] (d : Dict ι) (a : Arch)
    (r : Nat → Nat → Nat) (hr : IsRoundup r) (ns : List ι) (g : gen ι) (hg : Aligned a g) :
    Aligned a (stringRun d a r g ns) := by
  induction ns generalizing g with
  | nil => exact hg
  | cons n ns ih => exact ih _ (string_aligned d a r hr g hg n)

/-- C7: after any sequence of `gen.string` calls on a fresh generator, every
offset in the offset table is a multiple of `mallocAllign`, which is twice
the pointer size, `roundup` being what `IsRoundup` says. -/
theorem string_offsets_aligned {ι : Type} [DecidableEq ι] (d : Dict ι) (a : Arch)
    (r : Nat → Nat → Nat) (hr : IsRoundup r) (ns : List ι) (n : ι) (x : Nat)
    (h : (n, x) ∈ (stringRun d a r (newGen ι) ns).strTab) :
    mallocAllign a ∣ x ∧ mallocAllign a = 2 * (UintPtrBits a / 8) :=
  ⟨stringRun_aligned d a r hr ns _ (by intro m y hm; simp [newGen] at hm) n x h, rfl⟩

/-- C5, amended, at the string `d` inserted after `ab` and before `c`. -/
theorem string_pool_roundtrip_witness :
    cstringAt
        (stringRun bytesDict .bits64 roundup
          ((stringRun bytesDict .bits64 roundup (newGen (List Byte)) [[97, 98]]).string
            bytesDict .bits64 roundup [100]).2 [[99]]).strings
        ((stringRun bytesDict .bits64 roundup (newGen (List Byte)) [[97, 98]]).string
            bytesDict .bits64 roundup [100]).1 = bytesDict.S [100] :=
  string_pool_roundtrip bytesDict .bits64 roundup roundup_isRoundup [[97, 98]] [[99]] [100]
    (by
      intro b hb
      simp only [bytesDict, id, List.mem_singleton] at hb
      rw [hb]; decide)

/-- C5 fails as stated: the string `a\0b` is stored at offset 0 as
`a\0b\0`; read up to the first zero byte it gives `a`. -/
theorem string_pool_zero_byte :
    IsRoundup roundup ∧
    ((newGen (List Byte)).string bytesDict .bits64 roundup [97, 0, 98]).1 = 0 ∧
    ((newGen (List Byte)).string bytesDict .bits64 roundup [97, 0, 98]).2.strings =
      [97, 0, 98, 0] ∧
    cstringAt ((newGen (List Byte)).string bytesDict .bits64 roundup [97, 0, 98]).2.strings 0 =
      [97] ∧
    bytesDict.S [97, 0, 98] ≠ [97] :=
  ⟨roundup_isRoundup, rfl, rfl, rfl, by decide⟩

/-- C7 at the pool holding `ab` and `c`: `c` is at offset 16. -/
theorem string_offsets_aligned_witness :
    mallocAllign .bits64 ∣ 16 ∧ mallocAllign .bits64 = 2 * (UintPtrBits .bits64 / 8) :=
  string_offsets_aligned bytesDict .bits64 roundup roundup_isRoundup [[97, 98], [99]] [99] 16
    (by decide)

/-! ## The bit-field store -/

/-- C2, the code at two failing inputs, in an 8-bit word with a field of
width 1 at offset 1.  Storing 0 into the word `0b00000001` leaves 0: bit 0,
outside the field, was set and is cleared.  Storing 1 into the word 0 leaves
`0b00000100`: bit 1, the field, stays clear although the low bit of the value
is set. -/
theorem storebits_loses_outer_bits :
    storeBitField 8 1 0 1 1 = 0 ∧
    Nat.testBit 1 0 = true ∧ Nat.testBit (storeBitField 8 1 0 1 1) 0 = false ∧
    storeBitField 8 0 1 1 1 = 4 ∧
    Nat.testBit 1 0 = true ∧ Nat.testBit (storeBitField 8 0 1 1 1) 1 = false := by
  decide

/-! ## The entry point -/

/-- C3: with `Testing` off, whatever value a panic raised during generation
carries (an `error` or any other value), `New` does not panic, returns a
non-nil error and makes no call of `out.Write`. -/
theorem New_abort_all_or_nothing (v : PanicVal) (outWrite : List Byte → Option GoError)
    (closeErr : Option GoError) :
    (New false (.panicked v) outWrite closeErr).panic = none ∧
      (∃ e, (New false (.panicked v) outWrite closeErr).err = some e) ∧
      (New false (.panicked v) outWrite closeErr).writes = [] := by
  cases v <;> simp [New]

/-- C4, the code where the optimizer fails: when `gen` returns the error `e`
of the optimizer pass and `out.Write` and `Close` succeed, `New` returns a nil
error and hands the buffer behind its first line to `out.Write`; so for the
buffer `package foo\nx\n` it writes `x\n` and returns nil. -/
theorem New_optimizer_failure_written (e : GoError) (out : List Byte) :
    (New false (.returned (some e) out) (fun _ => none) none).err = none ∧
      (New false (.returned (some e) out) (fun _ => none) none).writes =
        [out.drop (IndexByte out 10 + 1).toNat] ∧
      New false (.returned (some "opt")
          [112, 97, 99, 107, 97, 103, 101, 32, 102, 111, 111, 10, 120, 10])
        (fun _ => none) none = ⟨none, none, [[120, 10]]⟩ := by
  refine ⟨by simp [New], by simp [New], by decide⟩

/-! ## Laws of `Emit` -/

theorem Emit.pure_bind {ι α β : Type} (a : α) (f : α → Emit ι β) :
    Emit.bind (Emit.pure a) f = f a := by
  funext g
  simp only [Emit.bind, Emit.pure]
  rcases h : f a g with e | ⟨b, u, g2⟩ <;> simp

theorem Emit.bind_pure {ι α : Type} (m : Emit ι α) :
    Emit.bind m (fun a => Emit.pure a) = m := by
  funext g
  simp only [Emit.bind, Emit.pure]
  rcases h : m g with e | ⟨a, t, g1⟩ <;> simp

theorem Emit.bind_pure_unit {ι : Type} (m : Emit ι Unit) :
    Emit.bind m (fun _ => Emit.pure ()) = m :=
  Emit.bind_pure m

theorem Emit.bind_assoc {ι α β γ : Type} (m : Emit ι α) (f : α → Emit ι β)
    (k : β → Emit ι γ) :
    Emit.bind (Emit.bind m f) k = Emit.bind m (fun a => Emit.bind (f a) k) := by
  funext g
  simp only [Emit.bind]
  rcases h : m g with e | ⟨a, t, g1⟩
  · simp
  · simp only
    rcases h1 : f a g1 with e | ⟨b, u, g2⟩
    · simp
    · simp only
      rcases h2 : k b g2 with e | ⟨c, v, g3⟩ <;> simp

theorem wsIf_false {ι : Type} (s : String) : (wsIf false s : Emit ι Unit) = Emit.pure () := rfl

theorem wsIf_true {ι : Type} (s : String) : (wsIf true s : Emit ι Unit) = ws s := rfl

/-! ## `isBuiltin` -/

theorem isBuiltin_hit {ι : Type} (env : Env ι) (i : Int) (g : generator ι) (s : List Byte)
    (h : lookup g.builtins i = some s) : isBuiltin env i g = .ok ((s, true), [], g) := by
  unfold isBuiltin
  simp only [h]

theorem isBuiltin_miss {ι : Type} (env : Env ι) (i : Int) (g : generator ι)
    (h : lookup g.builtins i = none) :
    (IsStub env i ∧ ∃ x, env.obj.get? i.toNat = some (.FunctionDefinition x) ∧
      isBuiltin env i g = .ok ((env.qualifier g.asked.length x, true), [],
        { g with builtins := (i, env.qualifier g.asked.length x) :: g.builtins,
                 asked := g.asked ++ [i] })) ∨
    (¬ IsStub env i ∧ (0 ≤ i ∧ (env.obj.get? i.toNat).isSome) ∧
      isBuiltin env i g = .ok (([], false), [], g)) ∨
    (¬ IsStub env i ∧ ¬ (0 ≤ i ∧ (env.obj.get? i.toNat).isSome) ∧
      isBuiltin env i g = .error (.err "runtime error")) := by
  unfold isBuiltin IsStub
  simp only [h]
  by_cases hi : i < 0
  · simp only [hi, if_true]
    exact Or.inr (Or.inr ⟨fun hs => by omega, fun hs => by omega, trivial⟩)
  · simp only [hi, if_false]
    cases ho : env.obj.get? i.toNat with
    | none => exact Or.inr (Or.inr ⟨fun hs => by simp at hs, fun hs => by simp at hs, by simp⟩)
    | some o =>
      cases o with
      | FunctionDefinition x =>
        by_cases hb : x.Body = [.Panic]
        · refine Or.inl ⟨⟨by omega, x, rfl, hb⟩, x, rfl, ?_⟩
          simp only [hb]
        · refine Or.inr (Or.inl ⟨fun hs => ?_, ⟨by omega, by simp⟩, ?_⟩)
          · obtain ⟨_, y, hy, hyb⟩ := hs
            simp only [Option.some.injEq, Object.FunctionDefinition.injEq] at hy
            exact hb (hy ▸ hyb)
          · show (match x.Body with
              | [Irgo.Op.Panic] => _
              | _ => Except.ok (([], false), [], g)) = Except.ok (([], false), [], g)
            split
            · rename_i hx
              exact absurd hx hb
            · rfl
      | DataDefinition x =>
        exact Or.inr (Or.inl ⟨fun hs => by simp at hs, ⟨by omega, by simp⟩, by simp⟩)
      | Other => exact Or.inr (Or.inl ⟨fun hs => by simp at hs, ⟨by omega, by simp⟩, by simp⟩)

theorem builtinStep_cases {ι : Type} (env : Env ι) (g : generator ι) (i : Int) :
    builtinStep env g i = g ∨
    (lookup g.builtins i = none ∧ IsStub env i ∧ ∃ q,
      builtinStep env g i = { g with builtins := (i, q) :: g.builtins, asked := g.asked ++ [i] }) := by
  unfold builtinStep
  cases h : lookup g.builtins i with
  | some s => left; rw [isBuiltin_hit env i g s h]
  | none =>
    rcases isBuiltin_miss env i g h with ⟨hs, x, _, hx⟩ | ⟨_, _, hx⟩ | ⟨_, _, hx⟩
    · right; exact ⟨rfl, hs, _, by rw [hx]⟩
    · left; rw [hx]
    · left; rw [hx]

theorem builtinStep_ok {ι : Type} (env : Env ι) (g : generator ι) (hg : BuiltinsOk env g)
    (i : Int) : BuiltinsOk env (builtinStep env g i) := by
  rcases builtinStep_cases env g i with h | ⟨hl, hs, q, h⟩
  · rw [h]; exact hg
  · rw [h]
    obtain ⟨hnd, hiff, hst⟩ := hg
    have hni : i ∉ g.asked := by
      intro hi
      have := (hiff i).1 hi
      rw [hl] at this
      simp at this
    refine ⟨?_, ?_, ?_⟩
    · simp only
      rw [List.nodup_append]
      exact ⟨hnd, List.nodup_singleton i, by
        intro a ha hb
        simp only [List.mem_singleton] at hb
        exact hni (hb ▸ ha)⟩
    · intro j
      simp only [List.mem_append, List.mem_singleton, lookup]
      by_cases hj : i = j
      · simp [hj]
      · simp only [hj, if_false]
        rw [← hiff j]
        constructor
        · rintro (h1 | h1)
          · exact h1
          · exact absurd h1.symm hj
        · exact Or.inl
    · intro j hj
      simp only [List.mem_append, List.mem_singleton] at hj
      rcases hj with hj | hj
      · exact hst j hj
      · exact hj ▸ hs

theorem builtinStep_lookup {ι : Type} (env : Env ι) (g : generator ι) (i j : Int)
    (s : List Byte) (h : lookup g.builtins i = some s) :
    lookup (builtinStep env g j).builtins i = some s := by
  rcases builtinStep_cases env g j with h1 | ⟨hl, _, q, h1⟩
  · rw [h1]; exact h
  · rw [h1]
    have hne : j ≠ i := by
      rintro rfl
      rw [h] at hl
      exact Option.noConfusion hl
    simp [lookup, hne, h]

theorem builtinRunFrom_ok {ι : Type} (env : Env ι) (is : List Int) (g : generator ι)
    (hg : BuiltinsOk env g) : BuiltinsOk env (builtinRunFrom env g is) := by
  induction is generalizing g with
  | nil => exact hg
  | cons i is ih => exact ih _ (builtinStep_ok env g hg i)

theorem builtinRunFrom_lookup {ι : Type} (env : Env ι) (is : List Int) (g : generator ι)
    (i : Int) (s : List Byte) (h : lookup g.builtins i = some s) :
    lookup (builtinRunFrom env g is).builtins i = some s := by
  induction is generalizing g with
  | nil => exact h
  | cons j is ih => exact ih _ (builtinStep_lookup env g i j s h)

theorem newGenerator_builtinsOk {ι : Type} (env : Env ι) : BuiltinsOk env (newGenerator ι) := by
  refine ⟨List.nodup_nil, fun i => ?_, fun i hi => ?_⟩
  · simp [newGenerator, lookup]
  · simp [newGenerator] at hi

/-- C14: in a run of `isBuiltin` calls on a fresh generator, the qualifier
callback is invoked at most once for an object index and only for an index
whose object is a function definition with a body of exactly one `Panic`; and
when a call `isBuiltin(i)` returns a pair, every later call `isBuiltin(i)`
returns the same pair, whatever the callback would answer then. -/
theorem isBuiltin_once {ι : Type} (env : Env ι) (is : List Int) (i : Int) :
    (builtinRunFrom env (newGenerator ι) is).asked.count i ≤ 1 ∧
    (i ∈ (builtinRunFrom env (newGenerator ι) is).asked →
      0 ≤ i ∧ ∃ x, env.obj.get? i.toNat = some (.FunctionDefinition x) ∧ x.Body = [.Panic]) ∧
    (∀ (later : List Int) (r : List Byte × Bool) (t : List Byte) (g1 : generator ι),
      isBuiltin env i (builtinRunFrom env (newGenerator ι) is) = .ok (r, t, g1) →
      ∃ g2, isBuiltin env i (builtinRunFrom env g1 later) = .ok (r, [], g2)) := by
  have hok := builtinRunFrom_ok env is _ (newGenerator_builtinsOk env)
  refine ⟨List.nodup_iff_count_le_one.1 hok.1 i, fun hi => hok.2.2 i hi, ?_⟩
  intro later r t g1 h
  cases hl : lookup (builtinRunFrom env (newGenerator ι) is).builtins i with
  | some s =>
    rw [isBuiltin_hit env i _ s hl] at h
    simp only [Except.ok.injEq, Prod.mk.injEq] at h
    obtain ⟨rfl, _, rfl⟩ := h
    exact ⟨_, isBuiltin_hit env i _ s (builtinRunFrom_lookup env later _ i s hl)⟩
  | none =>
    rcases isBuiltin_miss env i _ hl with ⟨hs, x, _, hx⟩ | ⟨hs, hr, hx⟩ | ⟨_, _, hx⟩
    · rw [hx] at h
      simp only [Except.ok.injEq, Prod.mk.injEq] at h
      obtain ⟨rfl, _, rfl⟩ := h
      exact ⟨_, isBuiltin_hit env i _ _ (builtinRunFrom_lookup env later _ i _ (by simp [lookup]))⟩
    · rw [hx] at h
      simp only [Except.ok.injEq, Prod.mk.injEq] at h
      obtain ⟨rfl, _, rfl⟩ := h
      have hok2 := builtinRunFrom_ok env later _ hok
      have hl2 : lookup (builtinRunFrom env (builtinRunFrom env (newGenerator ι) is) later).builtins i
          = none := by
        cases hc : lookup (builtinRunFrom env (builtinRunFrom env (newGenerator ι) is)
            later).builtins i with
        | none => rfl
        | some s =>
          have := (hok2.2.1 i).2 (by rw [hc]; rfl)
          exact absurd (hok2.2.2 i this) hs
      rcases isBuiltin_miss env i _ hl2 with ⟨hs2, _⟩ | ⟨_, _, hx2⟩ | ⟨_, hr2, _⟩
      · exact absurd hs2 hs
      · exact ⟨_, hx2⟩
      · exact absurd hr hr2
    · rw [hx] at h
      exact Except.noConfusion h

/-! ## Helper synthesis -/

theorem bytesLess_asymm (a b : List Byte) (h : bytesLess a b = true) : bytesLess b a = false := by
  induction a generalizing b with
  | nil => cases b <;> simp_all [bytesLess]
  | cons x a ih =>
    cases b with
    | nil => simp [bytesLess] at h
    | cons y b =>
      simp only [bytesLess] at h ⊢
      by_cases h1 : x.val < y.val
      · have h2 : ¬ y.val < x.val := by omega
        simp [h1, h2]
      · by_cases h2 : y.val < x.val
        · simp [h1, h2] at h
        · simp only [h1, h2, if_false] at h ⊢
          exact ih b h

theorem bytesLess_total (a b : List Byte) (h : a ≠ b) :
    bytesLess a b = true ∨ bytesLess b a = true := by
  induction a generalizing b with
  | nil =>
    cases b with
    | nil => exact absurd rfl h
    | cons y b => left; rfl
  | cons x a ih =>
    cases b with
    | nil => right; rfl
    | cons y b =>
      simp only [bytesLess]
      by_cases h1 : x.val < y.val
      · left; simp [h1]
      · by_cases h2 : y.val < x.val
        · right; simp [h2]
        · have hxy : x = y := Fin.ext (by omega)
          subst hxy
          simp only [h1, if_false]
          exact ih b (fun hab => h (by rw [hab]))

theorem bytesLess_le_trans (a b c : List Byte) (h1 : bytesLess b a = false)
    (h2 : bytesLess c b = false) : bytesLess c a = false := by
  induction a generalizing b c with
  | nil => cases c <;> rfl
  | cons x a ih =>
    cases b with
    | nil => simp [bytesLess] at h1
    | cons y b =>
      cases c with
      | nil => simp [bytesLess] at h2
      | cons z c =>
        simp only [bytesLess] at h1 h2 ⊢
        by_cases hyx : y.val < x.val
        · simp [hyx] at h1
        · by_cases hxy : x.val < y.val
          · by_cases hzy : z.val < y.val
            · simp [hzy] at h2
            · have h3 : ¬ z.val < x.val := by omega
              have h4 : x.val < z.val := by omega
              simp [h3, h4]
          · simp only [hyx, hxy, if_false] at h1
            by_cases hzy : z.val < y.val
            · simp [hzy] at h2
            · by_cases hyz : y.val < z.val
              · have h3 : ¬ z.val < x.val := by omega
                have h4 : x.val < z.val := by omega
                simp [h3, h4]
              · simp only [hzy, hyz, if_false] at h2
                have h3 : ¬ z.val < x.val := by omega
                have h4 : ¬ x.val < z.val := by omega
                simp only [h3, h4, if_false]
                exact ih b c h1 h2

/-- The insertion sort by `helperLess` meets the contract of `sort.Slice`. -/
theorem insertionSort_isSortSlice :
    IsSortSlice (fun r => r.insertionSort (fun a b => helperLess b a = false)) := by
  intro r
  haveI : IsTotal typeNfo (fun a b => helperLess b a = false) :=
    ⟨fun a b => by
      cases h : helperLess b a with
      | false => exact Or.inl rfl
      | true => exact Or.inr (bytesLess_asymm _ _ h)⟩
  haveI : IsTrans typeNfo (fun a b => helperLess b a = false) :=
    ⟨fun a b c h1 h2 => bytesLess_le_trans a.string b.string c.string h1 h2⟩
  exact ⟨List.perm_insertionSort _ r, List.sorted_insertionSort _ r⟩

theorem helpers_perm {ι : Type} (env : Env ι) (hr : IsRange env.rangeKeys)
    (hs : IsSortSlice env.sortSlice) (m : List TypeID) :
    (helpers env m).Perm (m.map (fun k => (⟨k, env.TypeIDString k⟩ : typeNfo))) := by
  unfold helpers
  exact ((hs _).1).trans ((hr m).map _)

theorem helpers_ids_perm {ι : Type} (env : Env ι) (hr : IsRange env.rangeKeys)
    (hs : IsSortSlice env.sortSlice) (m : List TypeID) :
    ((helpers env m).map typeNfo.TypeID).Perm m := by
  have h := (helpers_perm env hr hs m).map typeNfo.TypeID
  simpa [List.map_map, Function.comp_def] using h

theorem setAdd_mem (m : List TypeID) (k t : TypeID) : t ∈ setAdd m k ↔ t ∈ m ∨ t = k := by
  unfold setAdd
  split
  · constructor
    · exact Or.inl
    · rintro (h | h)
      · exact h
      · rw [h]; assumption
  · simp only [List.mem_cons]
    tauto

theorem setAdd_nodup (m : List TypeID) (k : TypeID) (h : m.Nodup) : (setAdd m k).Nodup := by
  unfold setAdd
  split
  · exact h
  · exact List.nodup_cons.2 ⟨by assumption, h⟩

theorem request_need {ι : Type} (g : generator ι) (f f' : Family) (t : TypeID) :
    (g.request f t).need f' = if f' = f then setAdd (g.need f') t else g.need f' := by
  cases f <;> cases f' <;> simp [generator.request, generator.need]

theorem foldl_request_need {ι : Type} (rs : List (Family × TypeID)) (g : generator ι)
    (f : Family) (hg : (g.need f).Nodup) :
    ((rs.foldl (fun g r => g.request r.1 r.2) g).need f).Nodup ∧
    ∀ t, t ∈ (rs.foldl (fun g r => g.request r.1 r.2) g).need f ↔ t ∈ g.need f ∨ (f, t) ∈ rs := by
  induction rs generalizing g with
  | nil => exact ⟨hg, fun t => by simp⟩
  | cons r rs ih =>
    obtain ⟨f1, t1⟩ := r
    have hg1 : ((g.request f1 t1).need f).Nodup := by
      rw [request_need]
      split
      · exact setAdd_nodup _ _ hg
      · exact hg
    obtain ⟨hn, hm⟩ := ih (g.request f1 t1) hg1
    refine ⟨hn, fun t => ?_⟩
    rw [List.foldl_cons, hm t, request_need]
    simp only [List.mem_cons, Prod.mk.injEq]
    by_cases hf : f = f1
    · subst hf
      simp only [if_true, setAdd_mem, true_and]
      tauto
    · simp only [hf, if_false, false_and, false_or]

theorem requestRun_need (ι : Type) (rs : List (Family × TypeID)) (f : Family) :
    ((requestRun ι rs).need f).Nodup ∧
    ∀ t, t ∈ (requestRun ι rs).need f ↔ (f, t) ∈ rs := by
  obtain ⟨hn, hm⟩ := foldl_request_need rs (newGenerator ι) f
    (by cases f <;> exact List.nodup_nil)
  refine ⟨hn, fun t => ?_⟩
  rw [requestRun, hm t]
  have : t ∉ (newGenerator ι).need f := by cases f <;> simp [newGenerator, generator.need]
  tauto

theorem helpers_strings {ι : Type} (env : Env ι) (hr : IsRange env.rangeKeys)
    (hs : IsSortSlice env.sortSlice) (m : List TypeID) :
    ∀ v ∈ helpers env m, v.TypeID ∈ m ∧ v.string = env.TypeIDString v.TypeID := by
  intro v hv
  have := (helpers_perm env hr hs m).mem_iff.1 hv
  simp only [List.mem_map] at this
  obtain ⟨k, hk, rfl⟩ := this
  exact ⟨hk, rfl⟩

theorem helpers_strict {ι : Type} (env : Env ι) (hr : IsRange env.rangeKeys)
    (hs : IsSortSlice env.sortSlice) (m : List TypeID) (hm : m.Nodup)
    (hinj : ∀ a ∈ m, ∀ b ∈ m, env.TypeIDString a = env.TypeIDString b → a = b) :
    (helpers env m).Pairwise (fun a b => helperLess a b = true) := by
  have hperm := helpers_perm env hr hs m
  have hdist : (m.map (fun k => (⟨k, env.TypeIDString k⟩ : typeNfo))).Pairwise
      (fun a b => a.string ≠ b.string) := by
    rw [List.pairwise_map]
    exact hm.imp_of_mem (fun {a b} ha hb hab hstr => hab (hinj a ha b hb hstr))
  have hdist' : (helpers env m).Pairwise (fun a b => a.string ≠ b.string) :=
    hperm.symm.pairwise hdist (fun {a b} h => Ne.symm h)
  have hsorted := (hs ((env.rangeKeys m).map (fun k => (⟨k, env.TypeIDString k⟩ : typeNfo)))).2
  have hboth := hdist'.and hsorted
  refine hboth.imp ?_
  intro a b ⟨hne, hle⟩
  rcases bytesLess_total a.string b.string hne with h | h
  · exact h
  · rw [helperLess, h] at hle
    exact Bool.noConfusion hle

/-- C12: for a helper-need set `m` whose type ids have distinct `String()`
texts, `helpers` returns each type id of `m` exactly once, each with its
text, in strictly ascending order of the texts; and it returns the same slice
in an environment that ranges over the set in another order and sorts with
another `sort.Slice`. -/
theorem helpers_sorted_deterministic {ι : Type} (env env' : Env ι) (m : List TypeID)
    (hm : m.Nodup)
    (hinj : ∀ a ∈ m, ∀ b ∈ m, env.TypeIDString a = env.TypeIDString b → a = b)
    (hstr : env'.TypeIDString = env.TypeIDString)
    (hr : IsRange env.rangeKeys) (hs : IsSortSlice env.sortSlice)
    (hr' : IsRange env'.rangeKeys) (hs' : IsSortSlice env'.sortSlice) :
    ((helpers env m).map typeNfo.TypeID).Perm m ∧
    (∀ v ∈ helpers env m, v.string = env.TypeIDString v.TypeID) ∧
    (helpers env m).Pairwise (fun a b => bytesLess a.string b.string = true) ∧
    helpers env' m = helpers env m := by
  have h1 := helpers_strict env hr hs m hm hinj
  have h2 := helpers_strict env' hr' hs' m hm (by rw [hstr]; exact hinj)
  refine ⟨helpers_ids_perm env hr hs m, fun v hv => (helpers_strings env hr hs m v hv).2, h1, ?_⟩
  have hp : (helpers env' m).Perm (helpers env m) := by
    have p1 := helpers_perm env hr hs m
    have p2 := helpers_perm env' hr' hs' m
    rw [hstr] at p2
    exact p2.trans p1.symm
  haveI : IsAntisymm typeNfo (fun a b => helperLess a b = true) :=
    ⟨fun a b hab hba => by
      have := bytesLess_asymm _ _ hab
      rw [helperLess] at hba
      rw [hba] at this
      exact Bool.noConfusion this⟩
  exact List.eq_of_perm_of_sorted hp h2 h1

theorem id_isRange : IsRange (fun m => m) := fun m => List.Perm.refl m

/-- C12 at the set of the type ids 2, 1 and 7, ranged over as listed and in
reverse. -/
theorem helpers_sorted_deterministic_witness :
    ((helpers (demoEnv []) [2, 1, 7]).map typeNfo.TypeID).Perm [2, 1, 7] ∧
    (∀ v ∈ helpers (demoEnv []) [2, 1, 7], v.string = (demoEnv []).TypeIDString v.TypeID) ∧
    (helpers (demoEnv []) [2, 1, 7]).Pairwise (fun a b => bytesLess a.string b.string = true) ∧
    helpers { demoEnv [] with rangeKeys := List.reverse } [2, 1, 7] =
      helpers (demoEnv []) [2, 1, 7] :=
  helpers_sorted_deterministic (demoEnv []) { demoEnv [] with rangeKeys := List.reverse }
    [2, 1, 7] (by decide)
    (by
      intro a ha b hb
      simp only [List.mem_cons, List.mem_singleton, List.not_mem_nil, or_false] at ha hb
      rcases ha with rfl | rfl | rfl <;> rcases hb with rfl | rfl | rfl <;> decide)
    rfl id_isRange insertionSort_isSortSlice (fun m => List.reverse_perm m)
    insertionSort_isSortSlice

/-! ## Expressions -/

theorem forEach_append {ι α : Type} (body : α → Emit ι Unit) (l : List α) (a : α) :
    forEach body (l ++ [a]) = Emit.bind (forEach body l) (fun _ => body a) := by
  induction l with
  | nil =>
    simp only [List.nil_append, forEach, Emit.pure_bind]
    exact Emit.bind_pure_unit (body a)
  | cons b l ih =>
    rw [List.cons_append]
    simp only [forEach]
    rw [ih, Emit.bind_assoc]

set_option smartUnfolding false in
/-- The method `expression` is its `switch` on `n.Op` inside the parentheses
and the function literal of the comma chain. -/
theorem expression_whole {ι : Type} [DecidableEq ι] (env : Env ι) (f : fn ι)
    (p : Option (Op ι)) (cleared : Bool) (n : exprNode ι) :
    expression env f p cleared false n =
      Emit.bind (wsIf (parenthesized n.Op) "(") fun _ =>
      Emit.bind (chainOpen env f (!cleared && n.Comma.isSome) n.TypeID n.Comma) fun _ =>
      Emit.bind (expression env f p cleared true n) fun _ =>
      Emit.bind (wsIf (!cleared && n.Comma.isSome) ")\x7d()") fun _ =>
      wsIf (parenthesized n.Op) ")" := by
  cases n
  rfl

set_option smartUnfolding false in
theorem expression_bare_cleared {ι : Type} [DecidableEq ι] (env : Env ι) (f : fn ι)
    (p : Option (Op ι)) (cleared : Bool) (n : exprNode ι) :
    expression env f p cleared true n = expression env f p true true n := by
  cases n
  rfl

theorem commas_some {ι : Type} [DecidableEq ι] (env : Env ι) (f : fn ι) (c : exprNode ι) :
    commas env f (some c) =
      Emit.bind (commas env f c.Comma) fun _ =>
      Emit.bind (expression env f c.Parent true false c) fun _ => ws ";" := by
  cases c
  rfl

theorem chainLength_some {ι : Type} (c : exprNode ι) :
    chainLength (some c) = chainLength c.Comma + 1 := by
  cases c
  simp [chainLength, exprNode.Comma]

theorem commas_eq {ι : Type} [DecidableEq ι] (env : Env ι) (f : fn ι) (n : Nat)
    (o : Option (exprNode ι)) (h : chainLength o = n) :
    commas env f o =
      forEach (fun c => Emit.bind (expression env f c.Parent true false c) fun _ => ws ";")
        (chainFrom n o).reverse := by
  induction n generalizing o with
  | zero =>
    cases o with
    | none => rfl
    | some c => rw [chainLength_some] at h; omega
  | succ n ih =>
    cases o with
    | none => simp [chainLength] at h
    | some c =>
      rw [chainLength_some] at h
      rw [commas_some, chainFrom, List.reverse_cons, forEach_append, ih c.Comma (by omega)]

/-- C19: a node with the comma chain `c1 = n.Comma`, `c2 = c1.Comma`, ...,
`ck` and a result type that is set writes, inside its parentheses, the
function literal `func() T {`, then `ck`, ..., `c1` in this order (the chain
reversed), each once, with its own chain cleared and followed by `;`, then
`return (`, the text of the operator of `n` itself, and `)}()`. -/
theorem comma_chain_order {ι : Type} [DecidableEq ι] (env : Env ι) (f : fn ι)
    (p : Option (Op ι)) (op : Op ι) (childs : List (exprNode ι)) (c1 : exprNode ι)
    (tid : TypeID) (par : Option (Op ι)) (htid : tid ≠ 0) :
    expression env f p false false (.mk op childs (some c1) tid par) =
      Emit.bind (wsIf (parenthesized op) "(") fun _ =>
      Emit.bind (typ2 env tid) fun T =>
      Emit.bind (w (ascii "func() " ++ env.dict.S T ++ ascii " \x7b")) fun _ =>
      Emit.bind
        (forEach (fun c => Emit.bind (expression env f c.Parent true false c) fun _ => ws ";")
          (chainFrom (chainLength (some c1)) (some c1)).reverse) fun _ =>
      Emit.bind (ws "return (") fun _ =>
      Emit.bind (expression env f p true true (.mk op childs (some c1) tid par)) fun _ =>
      Emit.bind (ws ")\x7d()") fun _ =>
      wsIf (parenthesized op) ")" := by
  rw [expression_whole, expression_bare_cleared]
  simp only [exprNode.Op, exprNode.Comma, exprNode.TypeID, Option.isSome_some, Bool.not_false,
    Bool.and_self, chainOpen, if_true, htid, if_false, wsIf_true, Emit.bind_assoc]
  rw [commas_eq env f _ (some c1) rfl]

/-- The `Copy` case records the need of `copy_T` and writes the call of
`copy_T`. -/
theorem expression_Copy {ι : Type} [DecidableEq ι] (env : Env ι) (f : fn ι)
    (p : Option (Op ι)) (cleared : Bool) (T : TypeID) (a b : exprNode ι)
    (rest : List (exprNode ι)) (comma : Option (exprNode ι)) (tid : TypeID)
    (par : Option (Op ι)) :
    expression env f p cleared true (.mk (.Copy T) (a :: b :: rest) comma tid par) =
      Emit.bind (request .copy T) fun _ =>
      Emit.bind (w (ascii "copy_" ++ fmtInt T ++ ascii "(")) fun _ =>
      Emit.bind (expression env f (some (.Copy T)) false false a) fun _ =>
      Emit.bind (ws ",") fun _ =>
      Emit.bind (expression env f (some (.Copy T)) false false b) fun _ =>
      ws ")" :=
  rfl

/-- C19 at `r0` preceded by the chain `drop(nil)`, `drop(r0)`, the second
written first; the text is
`(func() int32  {(drop(((r0))));(drop((nil)));return ((r0))}())`. -/
theorem comma_chain_order_witness :
    expression (demoEnv []) demoFn none false false
        (.mk (.Result false 0) []
          (some (.mk .Drop [.mk .Nil [] none 2 none]
            (some (.mk .Drop [.mk (.Result false 0) [] none 1 none] none 0 none)) 0 none))
          1 none) =
      Emit.bind (wsIf (parenthesized (Op.Result false 0 : Op (List Byte))) "(") fun _ =>
      Emit.bind (typ2 (demoEnv []) 1) fun T =>
      Emit.bind (w (ascii "func() " ++ (demoEnv []).dict.S T ++ ascii " \x7b")) fun _ =>
      Emit.bind
        (forEach (fun c => Emit.bind (expression (demoEnv []) demoFn c.Parent true false c)
            fun _ => ws ";")
          (chainFrom (chainLength (some (exprNode.mk (Op.Drop : Op (List Byte))
              [.mk .Nil [] none 2 none]
              (some (.mk .Drop [.mk (.Result false 0) [] none 1 none] none 0 none)) 0 none)))
            (some (.mk .Drop [.mk .Nil [] none 2 none]
              (some (.mk .Drop [.mk (.Result false 0) [] none 1 none] none 0 none)) 0
              none))).reverse) fun _ =>
      Emit.bind (ws "return (") fun _ =>
      Emit.bind (expression (demoEnv []) demoFn none true true
        (.mk (.Result false 0) []
          (some (.mk .Drop [.mk .Nil [] none 2 none]
            (some (.mk .Drop [.mk (.Result false 0) [] none 1 none] none 0 none)) 0 none))
          1 none)) fun _ =>
      Emit.bind (ws ")\x7d()") fun _ =>
      wsIf (parenthesized (Op.Result false 0 : Op (List Byte))) ")" :=
  comma_chain_order (demoEnv []) demoFn none (.Result false 0) []
    (.mk .Drop [.mk .Nil [] none 2 none]
      (some (.mk .Drop [.mk (.Result false 0) [] none 1 none] none 0 none)) 0 none)
    1 none (by decide)

/-! ## Jumps and labels -/

theorem labelName_goto (N : Int) (tail : String) :
    ascii "goto _" ++ fmtInt N ++ ascii tail = ascii "goto " ++ labelName N ++ ascii tail := by
  have h : ascii "goto _" = ascii "goto " ++ ascii "_" := by decide
  rw [h, labelName]
  simp only [List.append_assoc]

theorem gotoTarget_numbered {ι : Type} [DecidableEq ι] (env : Env ι) (N : Int) (tail : String) :
    gotoTarget env env.zeroID N tail = w (labelName N ++ ascii tail) := by
  simp [gotoTarget, labelName]

theorem expression_Jnz {ι : Type} [DecidableEq ι] (env : Env ι) (f : fn ι) (p : Option (Op ι))
    (cleared : Bool) (NameID : ι) (N : Int) (c0 : exprNode ι) (rest : List (exprNode ι))
    (comma : Option (exprNode ι)) (tid : TypeID) (par : Option (Op ι)) :
    expression env f p cleared true (.mk (.Jnz NameID N) (c0 :: rest) comma tid par) =
      Emit.bind (ws "if") fun _ =>
      Emit.bind (expression env f (some (.Jnz NameID N)) false false c0) fun _ =>
      Emit.bind (ws "!= 0 \x7b goto ") fun _ =>
      Emit.bind (gotoTarget env NameID N "") fun _ =>
      ws "\x7d\n" :=
  rfl

theorem expression_Jz {ι : Type} [DecidableEq ι] (env : Env ι) (f : fn ι) (p : Option (Op ι))
    (cleared : Bool) (NameID : ι) (N : Int) (c0 : exprNode ι) (rest : List (exprNode ι))
    (comma : Option (exprNode ι)) (tid : TypeID) (par : Option (Op ι)) :
    expression env f p cleared true (.mk (.Jz NameID N) (c0 :: rest) comma tid par) =
      Emit.bind (ws "if") fun _ =>
      Emit.bind (expression env f (some (.Jz NameID N)) false false c0) fun _ =>
      Emit.bind (ws "== 0 \x7b goto ") fun _ =>
      Emit.bind (gotoTarget env NameID N "") fun _ =>
      ws "\x7d\n" :=
  rfl

theorem expression_Switch {ι : Type} [DecidableEq ι] (env : Env ι) (f : fn ι)
    (p : Option (Op ι)) (cleared : Bool) (Values : List (Value ι)) (Labels : List (Target ι))
    (Default : Target ι) (c0 : exprNode ι) (rest : List (exprNode ι))
    (comma : Option (exprNode ι)) (tid : TypeID) (par : Option (Op ι)) :
    expression env f p cleared true (.mk (.Switch Values Labels Default) (c0 :: rest) comma tid
        par) =
      Emit.bind (switchPairs Labels 0 Values) fun a =>
      Emit.bind (ws "switch") fun _ =>
      Emit.bind (expression env f (some (.Switch Values Labels Default)) false false c0) fun _ =>
      Emit.bind (ws "\x7b\n") fun _ =>
      Emit.bind (forEach (switchCase env) (env.sortPairs a)) fun _ =>
      Emit.bind (ws "default: goto ") fun _ =>
      Emit.bind (gotoTarget env Default.NameID Default.Number "\n") fun _ =>
      ws "\x7d" :=
  rfl

/-- C16: for a label number `N` (the name being the zero id) the entry label
that `Label` writes, `goto _N` and `_N:`, and the targets written by `Jmp`,
by `Jnz`, by `Jz`, by every case of `Switch` and by its default are the same
text `labelName N`, that is `_` and the decimal digits of `N`; nothing in
these texts depends on where the label stands in the stream. -/
theorem jump_label_agreement {ι : Type} [DecidableEq ι] (env : Env ι) (f : fn ι)
    (p : Option (Op ι)) (cleared : Bool) (N : Int) (c0 : exprNode ι)
    (rest : List (exprNode ι)) (comma : Option (exprNode ι)) (tid : TypeID)
    (par : Option (Op ι)) (Cond LAnd LOr : Bool) (Values : List (Value ι))
    (Labels : List (Target ι)) (v : Value ι) :
    emitOp env f (.op (.Label Cond LAnd LOr env.zeroID N)) =
      (Emit.bind (w (ascii "goto " ++ labelName N ++ ascii "\n")) fun _ =>
        w (labelName N ++ ascii ":\n")) ∧
    emitOp env f (.op (.Jmp env.zeroID N)) =
      (Emit.bind (ws "goto ") fun _ => w (labelName N ++ ascii "\n")) ∧
    expression env f p cleared true (.mk (.Jnz env.zeroID N) (c0 :: rest) comma tid par) =
      (Emit.bind (ws "if") fun _ =>
        Emit.bind (expression env f (some (.Jnz env.zeroID N)) false false c0) fun _ =>
        Emit.bind (ws "!= 0 \x7b goto ") fun _ =>
        Emit.bind (w (labelName N)) fun _ =>
        ws "\x7d\n") ∧
    expression env f p cleared true (.mk (.Jz env.zeroID N) (c0 :: rest) comma tid par) =
      (Emit.bind (ws "if") fun _ =>
        Emit.bind (expression env f (some (.Jz env.zeroID N)) false false c0) fun _ =>
        Emit.bind (ws "== 0 \x7b goto ") fun _ =>
        Emit.bind (w (labelName N)) fun _ =>
        ws "\x7d\n") ∧
    switchCase env (v, ⟨env.zeroID, N⟩) =
      (Emit.bind (ws "case ") fun _ =>
        Emit.bind (value env env.idInt32 v) fun _ =>
        Emit.bind (ws ": goto ") fun _ =>
        w (labelName N ++ ascii "\n")) ∧
    expression env f p cleared true
        (.mk (.Switch Values Labels ⟨env.zeroID, N⟩) (c0 :: rest) comma tid par) =
      (Emit.bind (switchPairs Labels 0 Values) fun a =>
        Emit.bind (ws "switch") fun _ =>
        Emit.bind (expression env f (some (.Switch Values Labels ⟨env.zeroID, N⟩)) false false
          c0) fun _ =>
        Emit.bind (ws "\x7b\n") fun _ =>
        Emit.bind (forEach (switchCase env) (env.sortPairs a)) fun _ =>
        Emit.bind (ws "default: goto ") fun _ =>
        Emit.bind (w (labelName N ++ ascii "\n")) fun _ =>
        ws "\x7d") := by
  refine ⟨?_, ?_, ?_, ?_, ?_, ?_⟩
  · simp only [emitOp, ne_eq, not_true_eq_false, if_false, labelName_goto]
    rfl
  · simp only [emitOp, ne_eq, not_true_eq_false, if_false]
    rfl
  · rw [expression_Jnz, gotoTarget_numbered]
    simp [ascii]
  · rw [expression_Jz, gotoTarget_numbered]
    simp [ascii]
  · simp only [switchCase, gotoTarget_numbered]
  · rw [expression_Switch, gotoTarget_numbered]

/-! ## Stores through a duplicated address -/

/-- C20: a plain store (`Bits` 0) whose destination is a `Dup` of the address
expression `A` writes `store_T(func()(*T, T){ p := `, then `A`, once, then
`; return p,`, then the stored value `V`, then `}())`: the address is written
once and bound to `p` before the value.  A `Load` of a `Dup` writes `*p` and
nothing of the operand of the `Dup`, wherever it stands.  For `*p += 1` with
`p` the first argument the text is
`(store_1(func()(*int32 , int32 ){ p := ((_p)); return p,((*p)+(int32(1) ))}()))`. -/
theorem store_address_once {ι : Type} [DecidableEq ι] (env : Env ι) (f : fn ι)
    (p : Option (Op ι)) (cleared : Bool) (T : TypeID) (BitOffset : Int)
    (A : exprNode ι) (drest : List (exprNode ι)) (dcomma : Option (exprNode ι))
    (dtid : TypeID) (dpar : Option (Op ι)) (V : exprNode ι) (rest : List (exprNode ι))
    (comma : Option (exprNode ι)) (tid : TypeID) (par : Option (Op ι)) :
    expression env f p cleared true
        (.mk (.Store T 0 BitOffset) (.mk .Dup (A :: drest) dcomma dtid dpar :: V :: rest) comma tid
          par) =
      (Emit.bind (request .store T) fun _ =>
        Emit.bind (w (ascii "store_" ++ fmtInt T ++ ascii "(")) fun _ =>
        Emit.bind (typ2 env T) fun Tn =>
        Emit.bind (w (ascii "func()(*" ++ env.dict.S Tn ++ ascii ", " ++ env.dict.S Tn ++
          ascii ")\x7b p := ")) fun _ =>
        Emit.bind (expression env f A.Parent false false A) fun _ =>
        Emit.bind (ws "; return p,") fun _ =>
        Emit.bind (expression env f (some (.Store T 0 BitOffset)) false false V) fun _ =>
        Emit.bind (ws "\x7d()") fun _ =>
        ws ")") ∧
    expression env f p cleared true
        (.mk .Load (.mk .Dup (A :: drest) dcomma dtid dpar :: rest) comma tid par) =
      (Emit.bind (ws "*") fun _ => ws "p") ∧
    textOf (expression (demoEnv []) demoFn none false false
      (.mk (.Store 1 0 0)
        [.mk .Dup [.mk (.Argument false 0) [] none 2 none] none 2 none,
          .mk .Add [.mk .Load [.mk .Dup [.mk (.Argument false 0) [] none 2 none] none 2 none]
              none 1 none,
            .mk (.Const32 1 1) [] none 1 none] none 1 none] none 1 none)) =
      some (ascii
        "(store_1(func()(*int32 , int32 )\x7b p := ((_p)); return p,((*p)+(int32(1) ))\x7d()))") :=
  ⟨rfl, rfl, by decide⟩

/-! ## Integer constants of pointer type -/

theorem MustType_of {ι : Type} (env : Env ι) (id : TypeID) (t : Ty)
    (h : env.MustType id = some t) : MustType env id = (Emit.pure t : Emit ι Ty) := by
  simp [MustType, h]

theorem kindOf_of {ι : Type} (env : Env ι) (id : TypeID) (t : Ty)
    (h : env.MustType id = some t) : kindOf env id = (Emit.pure t.Kind : Emit ι Kind) := by
  simp [kindOf, MustType_of env id t h, Emit.pure_bind]

theorem value_Int32Value {ι : Type} [DecidableEq ι] (env : Env ι) (id : TypeID) (v : Int) :
    value env id (.Int32Value v) =
      Emit.bind (MustType env id) fun t =>
      if t.Kind = .Pointer then
        if v = 0 then ws "nil"
        else
          Emit.bind (typ env t) fun T =>
          w (ascii "(" ++ env.dict.S T ++ ascii ")(unsafe.Pointer(uintptr(" ++
            fmtNat (uintptr env.arch v) ++ ascii ")))")
      else w (fmtInt v) :=
  rfl

theorem value_Int64Value {ι : Type} [DecidableEq ι] (env : Env ι) (id : TypeID) (v : Int) :
    value env id (.Int64Value v) =
      Emit.bind (MustType env id) fun t =>
      match t.Kind with
      | .Pointer =>
        if v = 0 then ws "nil"
        else
          Emit.bind (typ env t) fun T =>
          w (ascii "(" ++ env.dict.S T ++ ascii ")(unsafe.Pointer(uintptr(" ++
            fmtNat (uintptr env.arch v) ++ ascii ")))")
      | .Int32 => w (ascii "int32(" ++ fmtInt (toSigned 32 v) ++ ascii ")")
      | .Uint32 => w (ascii "uint32(" ++ fmtNat (toUnsigned 32 v) ++ ascii ")")
      | .Int64 => w (ascii "int64(" ++ fmtInt v ++ ascii ")")
      | .Uint64 => w (ascii "uint64(" ++ fmtNat (toUnsigned 64 v) ++ ascii ")")
      | _ => TODO :=
  rfl

set_option smartUnfolding false in
theorem expression_Const32 {ι : Type} [DecidableEq ι] (env : Env ι) (f : fn ι)
    (p : Option (Op ι)) (hp : underElement p = false) (cleared : Bool) (id : TypeID) (v : Int)
    (childs : List (exprNode ι)) (comma : Option (exprNode ι)) (tid : TypeID)
    (par : Option (Op ι)) :
    expression env f p cleared true (.mk (.Const32 id v) childs comma tid par) =
      Emit.bind (kindOf env id) fun k =>
      match k with
      | .Pointer => w (ascii "uintptr(" ++ fmtNat (uintptr env.arch v) ++ ascii ")")
      | .Int8 => w (ascii "int8(" ++ fmtInt (toSigned 8 v) ++ ascii ") ")
      | .Uint8 => w (ascii "byte(" ++ fmtNat (toUnsigned 8 v) ++ ascii ") ")
      | .Int16 => w (ascii "int16(" ++ fmtInt (toSigned 16 v) ++ ascii ") ")
      | .Uint16 => w (ascii "uint16(" ++ fmtNat (toUnsigned 16 v) ++ ascii ") ")
      | .Int32 => w (ascii "int32(" ++ fmtInt v ++ ascii ") ")
      | .Uint32 => w (ascii "uint32(" ++ fmtNat (toUnsigned 32 v) ++ ascii ") ")
      | .Float32 =>
        w (ascii "float32(" ++ env.Float32String (toUnsigned 32 v) ++ ascii ") ")
      | _ => TODO := by
  cases p with
  | none => rfl
  | some q => cases q <;> first | rfl | exact Bool.noConfusion hp

/-- C18, amended: an `Int32Value` or `Int64Value` initializer of pointer type
lowers to `nil` when its value is 0 and to the cast
`(T)(unsafe.Pointer(uintptr(v)))` of the integer otherwise; a `Const32`
operand of pointer type whose parent is not an `Element` lowers to
`uintptr(v)`, for the value 0 as for any other. -/
theorem pointer_constants {ι : Type} [DecidableEq ι] (env : Env ι) (f : fn ι) (id : TypeID)
    (t : Ty) (ht : env.MustType id = some t) (hk : t.Kind = .Pointer) (v : Int)
    (p : Option (Op ι)) (hp : underElement p = false) (cleared : Bool)
    (childs : List (exprNode ι)) (comma : Option (exprNode ι)) (tid : TypeID)
    (par : Option (Op ι)) :
    value env id (.Int32Value v) =
      (if v = 0 then ws "nil"
       else
        Emit.bind (typ env t) fun T =>
        w (ascii "(" ++ env.dict.S T ++ ascii ")(unsafe.Pointer(uintptr(" ++
          fmtNat (uintptr env.arch v) ++ ascii ")))")) ∧
    value env id (.Int64Value v) =
      (if v = 0 then ws "nil"
       else
        Emit.bind (typ env t) fun T =>
        w (ascii "(" ++ env.dict.S T ++ ascii ")(unsafe.Pointer(uintptr(" ++
          fmtNat (uintptr env.arch v) ++ ascii ")))")) ∧
    expression env f p cleared true (.mk (.Const32 id v) childs comma tid par) =
      w (ascii "uintptr(" ++ fmtNat (uintptr env.arch v) ++ ascii ")") := by
  refine ⟨?_, ?_, ?_⟩
  · rw [value_Int32Value, MustType_of env id t ht, Emit.pure_bind, if_pos hk]
  · rw [value_Int64Value, MustType_of env id t ht, Emit.pure_bind, hk]
  · rw [expression_Const32 env f p hp, kindOf_of env id t ht, Emit.pure_bind, hk]

/-- C18, amended, at the type `*int32` (id 2) and the value 5, the operand
without a parent. -/
theorem pointer_constants_witness :
    value (demoEnv []) 2 (.Int32Value 5) =
      (if (5 : Int) = 0 then ws "nil"
       else
        Emit.bind (typ (demoEnv []) (.Pointer .Int32)) fun T =>
        w (ascii "(" ++ (demoEnv []).dict.S T ++ ascii ")(unsafe.Pointer(uintptr(" ++
          fmtNat (uintptr (demoEnv []).arch 5) ++ ascii ")))")) ∧
    value (demoEnv []) 2 (.Int64Value 5) =
      (if (5 : Int) = 0 then ws "nil"
       else
        Emit.bind (typ (demoEnv []) (.Pointer .Int32)) fun T =>
        w (ascii "(" ++ (demoEnv []).dict.S T ++ ascii ")(unsafe.Pointer(uintptr(" ++
          fmtNat (uintptr (demoEnv []).arch 5) ++ ascii ")))")) ∧
    expression (demoEnv []) demoFn none false true (.mk (.Const32 2 5) [] none 2 none) =
      w (ascii "uintptr(" ++ fmtNat (uintptr (demoEnv []).arch 5) ++ ascii ")") :=
  pointer_constants (demoEnv []) demoFn 2 (.Pointer .Int32) rfl rfl 5 none rfl false [] none 2
    none

/-- C18 fails as stated: the `Const32` operand of type `*int32` with the value
0 is written `(uintptr(0))`, not `nil`, and with the value 5 it is written
`(uintptr(5))`, an integer and no address of type `*int32`; the `Int32Value`
initializers of the same type give `nil` and
`(*int32 )(unsafe.Pointer(uintptr(5)))`. -/
theorem const32_null_pointer :
    (demoEnv []).MustType 2 = some (.Pointer .Int32) ∧
    textOf (expression (demoEnv []) demoFn none false false
      (.mk (.Const32 2 0) [] none 2 none)) = some (ascii "(uintptr(0))") ∧
    textOf (expression (demoEnv []) demoFn none false false
      (.mk (.Const32 2 5) [] none 2 none)) = some (ascii "(uintptr(5))") ∧
    textOf (value (demoEnv []) 2 (.Int32Value 0)) = some (ascii "nil") ∧
    textOf (value (demoEnv []) 2 (.Int32Value 5)) =
      some (ascii "(*int32 )(unsafe.Pointer(uintptr(5)))") :=
  ⟨rfl, by decide, by decide, by decide, by decide⟩

/-! ## Function types with several results -/

set_option smartUnfolding false in
theorem typ0_two_results {ι : Type} (env : Env ι) (buf : List Byte) (Arguments : List Ty)
    (r1 r2 : Ty) (rs : List Ty) (Variadic : Bool) :
    ∃ e, typ0 env buf (.Function Arguments (r1 :: r2 :: rs) Variadic) = .error e := by
  have h : typ0 env buf (.Function Arguments (r1 :: r2 :: rs) Variadic) =
      match typ0Arguments env (buf ++ ascii "func(") Arguments with
      | .error e => .error e
      | .ok _ => .error (.err "TODO") := rfl
  rw [h]
  cases typ0Arguments env (buf ++ ascii "func(") Arguments with
  | error e => exact ⟨e, rfl⟩
  | ok b => exact ⟨_, rfl⟩

/-- C13, the code at a function definition with two results.  Lowering a
function type with two or more results with `typ0` always ends in a panic.
But `functionDefinition`, on the function `f` of type `func() (int32, int32)`
(id 6) whose body is one `Return`, does not panic: it writes the signature
`func _f()(r0 int32 ){ // -` with the first result alone and goes on to the
end of the definition. -/
theorem functionDefinition_two_results :
    (∀ (env : Env (List Byte)) (buf : List Byte) (Arguments : List Ty) (r1 r2 : Ty)
        (rs : List Ty) (Variadic : Bool),
      ∃ e, typ0 env buf (.Function Arguments (r1 :: r2 :: rs) Variadic) = .error e) ∧
    demoMustType 6 = some (.Function [] [.Int32, .Int32] false) ∧
    textOf (functionDefinition
        (demoEnv [.FunctionDefinition
          ⟨ascii "f", .InternalLinkage, 6, ⟨[], 0, 0, 0⟩, [], [.Return]⟩]) 0
        ⟨ascii "f", .InternalLinkage, 6, ⟨[], 0, 0, 0⟩, [], [.Return]⟩) =
      some (ascii "func _f()(r0 int32 )\x7b // -\nreturn\n\x7d\n\n") :=
  ⟨fun env buf a r1 r2 rs v => typ0_two_results env buf a r1 r2 rs v, rfl, by decide⟩

/-! ## Calls through a function pointer -/

/-- C15, the code at a call through a function pointer.  The callee `cb` has
the type `*func(*int32)` (id 5) and the argument `p` the type of the void
pointer (id 3): `case *ir.CallFP` writes the argument as it is,
`(((_cb))(((_p)), ))`.  The direct call of `g`, of type `func(*int32)`, with
the same argument is written with the cast:
`(Xg((*int32 )(unsafe.Pointer(((_p)))), ))`. -/
theorem callFP_void_pointer_argument :
    textOf (expression (demoEnv [])
        { f := ⟨ascii "f", .InternalLinkage, 4, ⟨[], 0, 0, 0⟩, [ascii "cb", ascii "p"], []⟩,
          Arguments := [.Pointer .Int32], Results := [], Variadic := false, varNfo := [] }
        none false false
        (.mk .CallFP [.mk (.Argument false 0) [] none 5 none,
          .mk (.Argument false 1) [] none 3 none] none 0 none)) =
      some (ascii "(((_cb))(((_p)), ))") ∧
    textOf (expression
        (demoEnv [.FunctionDefinition
          ⟨ascii "g", .ExternalLinkage, 4, ⟨[], 0, 0, 0⟩, [ascii "q"], []⟩])
        { f := ⟨ascii "f", .InternalLinkage, 4, ⟨[], 0, 0, 0⟩, [ascii "cb", ascii "p"], []⟩,
          Arguments := [.Pointer .Int32], Results := [], Variadic := false, varNfo := [] }
        none false false
        (.mk (.Call 0) [.mk (.Argument false 1) [] none 3 none] none 0 none)) =
      some (ascii "(Xg((*int32 )(unsafe.Pointer(((_p)))), ))") := by
  decide

/-! ## The package clause: `gen.gen` and `New` -/

/-- The first newline of a buffer stands after its first line. -/
theorem IndexByte_line (line rest : List Byte) (h : ∀ b ∈ line, b ≠ 10) :
    IndexByte (line ++ 10 :: rest) 10 = line.length := by
  induction line with
  | nil => simp [IndexByte]
  | cons x l ih =>
    have hx : x ≠ 10 := h x (List.mem_cons_self x l)
    have hl := ih (fun b hb => h b (List.mem_cons_of_mem x hb))
    have h0 : ¬ ((l.length : Int) < 0) := by omega
    simp only [List.cons_append, IndexByte, if_neg hx]
    change (if IndexByte (l ++ 10 :: rest) 10 < 0 then -1
      else IndexByte (l ++ 10 :: rest) 10 + 1) = _
    rw [hl, if_neg h0, List.length_cons]
    push_cast
    rfl

/-- What `New` writes when the buffer is a newline-free line, a newline and a
rest: the rest. -/
theorem New_writes_rest (Testing : Bool) (e : Option GoError) (line rest : List Byte)
    (outWrite : List Byte → Option GoError) (closeErr : Option GoError)
    (h : ∀ b ∈ line, b ≠ 10) :
    (New Testing (.returned e (line ++ 10 :: rest)) outWrite closeErr).writes = [rest] := by
  simp only [New, IndexByte_line line rest h]
  have : ((line.length : Int) + 1).toNat = line.length + 1 := by omega
  rw [this]
  simp

/-- The text of `gen.gen` starts with the package clause. -/
theorem genText_package_clause {ι : Type} [DecidableEq ι] (env : Env ι) (t : List Byte)
    (h : textOf (genText env) = some t) : ∃ rest, t = ascii "package foo\n" ++ rest := by
  unfold textOf genText at h
  simp only [Emit.bind, ws, w] at h
  split at h
  · rename_i a u g1 hm
    split at hm
    · exact absurd hm (by simp)
    · rename_i b v g2 hk
      simp only [Except.ok.injEq, Prod.mk.injEq] at hm
      simp only [Option.some.injEq] at h
      exact ⟨v, by rw [← h, ← hm.2.1]⟩
  · exact absurd h (by simp)

/-- C17: when `gen.gen` returns, its text being `t` and the optimizer pass
leaving the buffer `out`, `t` starts with the package clause `package foo` and
`New` does not panic and writes once: the buffer from behind its first newline
on.  So a buffer that is a newline-free first line, a newline and a rest is
written as that rest, unchanged, and a buffer whose first line is the package
clause is written without it. -/
theorem New_removes_package_clause {ι : Type} [DecidableEq ι] (env : Env ι) (Testing : Bool)
    (outWrite : List Byte → Option GoError) (closeErr : Option GoError)
    (t : List Byte) (e : Option GoError) (out : List Byte)
    (hgen : textOf (genText env) = some t) (hopt : env.opt t = .ok (e, out)) :
    (∃ rest, t = ascii "package foo\n" ++ rest) ∧
    gen.gen env = .returned e out ∧
    (New Testing (gen.gen env) outWrite closeErr).panic = none ∧
    (New Testing (gen.gen env) outWrite closeErr).writes =
      [out.drop (IndexByte out 10 + 1).toNat] ∧
    (∀ line rest, out = line ++ 10 :: rest → (∀ b ∈ line, b ≠ 10) →
      (New Testing (gen.gen env) outWrite closeErr).writes = [rest]) ∧
    (∀ rest, out = ascii "package foo\n" ++ rest →
      (New Testing (gen.gen env) outWrite closeErr).writes = [rest]) := by
  have hg : gen.gen env = .returned e out := by
    unfold textOf at hgen
    unfold gen.gen
    split at hgen
    · rename_i a u g1 hm
      simp only [Option.some.injEq] at hgen
      rw [hm]
      simp only [hgen, hopt]
    · exact absurd hgen (by simp)
  refine ⟨genText_package_clause env t hgen, hg, ?_, ?_, ?_, ?_⟩
  · rw [hg]; rfl
  · rw [hg]; rfl
  · intro line rest ho hl
    rw [hg, ho]
    exact New_writes_rest Testing e line rest outWrite closeErr hl
  · intro rest ho
    rw [hg, ho]
    have ha : (ascii "package foo").all (fun b => decide (b ≠ 10)) = true := by rfl
    have hl : ∀ b ∈ ascii "package foo", b ≠ 10 := fun b hb =>
      of_decide_eq_true (List.all_eq_true.mp ha b hb)
    have := New_writes_rest Testing e (ascii "package foo") rest outWrite closeErr hl
    exact this

set_option maxRecDepth 100000 in
/-- C17 at a unit of one function and one string-valued variable, the
optimizer pass leaving the buffer as it is: the hypotheses hold, and what is
written starts with the function. -/
theorem New_removes_package_clause_witness :
    textOf (genText (demoEnv demoUnit)) = some (ascii "package foo\n" ++ demoUnitText) ∧
    (demoEnv demoUnit).opt (ascii "package foo\n" ++ demoUnitText) =
      .ok (none, ascii "package foo\n" ++ demoUnitText) ∧
    (New false (gen.gen (demoEnv demoUnit)) (fun _ => none) none).writes = [demoUnitText] :=
  ⟨by rfl, by rfl,
    (New_removes_package_clause (demoEnv demoUnit) false (fun _ => none) none
      (ascii "package foo\n" ++ demoUnitText) none (ascii "package foo\n" ++ demoUnitText)
      (by rfl) (by rfl)).2.2.2.2.2 demoUnitText rfl⟩

/-! ## The escaping of names -/

/-- C21: for a fixed exported flag and a fixed scope index, two names whose
bytes differ get identifiers whose bytes differ, at any two points of a run at
which `mangle` succeeds: both identifiers are the same head followed by the
escaped name, and the escaping, which copies the bytes `0x20..0x7e` and writes
every other byte as `Ø` and two hexadecimal digits, is injective. -/
theorem mangle_injective_in_name {ι : Type} [DecidableEq ι] (d : Dict ι) (hd : d.Interning)
    (ks1 ks2 : List (cname ι)) (exported : Bool) (index : Int) (nm1 nm2 id1 id2 : ι)
    (h1 : ((mangleRun d ks1).mangle d nm1 exported index).1 = .ok id1)
    (h2 : ((mangleRun d ks2).mangle d nm2 exported index).1 = .ok id2)
    (hne : d.S nm1 ≠ d.S nm2) :
    ∃ head, mangleHead exported index = .ok head ∧
      d.S id1 = head ++ escapeName (d.S nm1) ∧
      d.S id2 = head ++ escapeName (d.S nm2) ∧
      escapeName (d.S nm1) ≠ escapeName (d.S nm2) ∧
      d.S id1 ≠ d.S id2 := by
  rw [mangle_fst d _ (mangleRun_cacheOk d ks1)] at h1
  rw [mangle_fst d _ (mangleRun_cacheOk d ks2)] at h2
  unfold mangleText at h1 h2
  cases hh : mangleHead exported index with
  | error e => rw [hh] at h1; simp [Except.map] at h1
  | ok head =>
    simp only [hh, Except.map, Except.ok.injEq] at h1 h2
    have hesc : escapeName (d.S nm1) ≠ escapeName (d.S nm2) :=
      fun h => hne (escapeName_inj _ _ h)
    have e1 : d.S id1 = head ++ escapeName (d.S nm1) := by rw [← h1, hd.1]
    have e2 : d.S id2 = head ++ escapeName (d.S nm2) := by rw [← h2, hd.1]
    refine ⟨head, rfl, e1, e2, hesc, ?_⟩
    rw [e1, e2]
    exact fun h => hesc (List.append_cancel_left h)

/-- C21 at the name that is one newline and the name `Ø0a`, not exported, no
scope, the second call made after the first: the identifiers are `_Ø0a` and
`_Øc3Ø980a`. -/
theorem mangle_injective_in_name_witness :
    ((newGen (List Byte)).mangle bytesDict [10] false (-1)).1 = .ok [95, 195, 152, 48, 97] ∧
    ((mangleRun bytesDict [⟨[10], false, -1⟩]).mangle bytesDict [195, 152, 48, 97] false
      (-1)).1 = .ok [95, 195, 152, 99, 51, 195, 152, 57, 56, 48, 97] ∧
    ([95, 195, 152, 48, 97] : List Byte) ≠ [95, 195, 152, 99, 51, 195, 152, 57, 56, 48, 97] :=
  ⟨by rfl, by rfl,
    (mangle_injective_in_name bytesDict bytesDict_interning [] [⟨[10], false, -1⟩] false (-1)
      [10] [195, 152, 48, 97] [95, 195, 152, 48, 97]
      [95, 195, 152, 99, 51, 195, 152, 57, 56, 48, 97] (by rfl) (by rfl) (by decide)).elim
      fun _ h => h.2.2.2.2⟩

/-! ## The string table as a string literal -/

theorem hexVal_hexDigit (n : Nat) : hexVal (hexDigit n) = some (n % 16) := by
  unfold hexVal hexDigit
  by_cases h : n % 16 < 10
  · simp only [h, if_true]
    rw [if_pos (by constructor <;> omega)]
    congr 1
    omega
  · simp only [h, if_false]
    rw [if_neg (by omega), if_pos (by constructor <;> omega)]
    congr 1
    omega

theorem hexRun_fmtHex2 (v : Byte) : hexRun (fmtHex2 v) = some v.val := by
  have hv := v.isLt
  simp only [hexRun, fmtHex2, List.foldl_cons, List.foldl_nil, hexVal_hexDigit]
  congr 1
  omega

/-- Reading one piece of the body gives back the byte it was written for. -/
theorem unquoteHead_strTabByte (v : Byte) (rest : List Byte) :
    unquoteHead (strTabByte v ++ rest) = some ([v], rest) := by
  unfold strTabByte
  by_cases h1 : v.val = 92
  · rw [if_pos h1]
    have hv : v = 92 := Fin.ext h1
    subst hv
    rfl
  · rw [if_neg h1]
    by_cases h2 : v.val = 34
    · rw [if_pos h2]
      have hv : v = 34 := Fin.ext h2
      subst hv
      rfl
    · rw [if_neg h2]
      by_cases h3 : v.val < 32 ∨ 127 ≤ v.val
      · rw [if_pos h3]
        have hx := hexRun_fmtHex2 v
        simp only [fmtHex2] at hx
        have hf : (Fin.ofNat v.val : Byte) = v := Fin.ext (Nat.mod_eq_of_lt v.isLt)
        simp only [fmtHex2, List.cons_append, List.nil_append, unquoteHead]
        rw [if_neg (by decide), if_neg (by decide), if_pos (by decide), hx]
        simp only [Option.map, hf]
      · rw [if_neg h3]
        simp only [List.cons_append, List.nil_append, unquoteHead]
        rw [if_neg (by omega), if_pos h1]

theorem strTabByte_length (v : Byte) : 1 ≤ (strTabByte v).length := by
  unfold strTabByte
  split
  · decide
  · split
    · decide
    · split
      · simp [fmtHex2]
      · simp

theorem goUnquoteFrom_strTabBody (s : List Byte) :
    ∀ fuel, (strTabBody s).length ≤ fuel → goUnquoteFrom fuel (strTabBody s) = some s := by
  induction s with
  | nil => intro fuel _; cases fuel <;> rfl
  | cons v s ih =>
    intro fuel hf
    rw [strTabBody, List.length_append] at hf
    have hl := strTabByte_length v
    obtain ⟨n, rfl⟩ : ∃ n, fuel = n + 1 := ⟨fuel - 1, by omega⟩
    have hh := unquoteHead_strTabByte v (strTabBody s)
    rw [strTabBody]
    cases hc : strTabByte v ++ strTabBody s with
    | nil =>
      have := congrArg List.length hc
      rw [List.length_append, List.length_nil] at this
      omega
    | cons c r =>
      rw [hc] at hh
      rw [goUnquoteFrom, hh]
      simp only [ih n (by omega), Option.map, List.singleton_append]

theorem goUnquote_strTabBody (s : List Byte) : goUnquote (strTabBody s) = some s :=
  goUnquoteFrom_strTabBody s _ (Nat.le_refl _)

theorem strTabByte_piece (v : Byte) : IsPiece (strTabByte v) := by
  unfold strTabByte IsPiece
  by_cases h1 : v.val = 92
  · rw [if_pos h1]; exact Or.inl rfl
  · rw [if_neg h1]
    by_cases h2 : v.val = 34
    · rw [if_pos h2]; exact Or.inr (Or.inl rfl)
    · rw [if_neg h2]
      by_cases h3 : v.val < 32 ∨ 127 ≤ v.val
      · rw [if_pos h3]
        refine Or.inr (Or.inr (Or.inl ⟨hexDigit (v.val / 16), hexDigit v.val, rfl, ?_, ?_⟩)) <;>
          rw [hexVal_hexDigit] <;> rfl
      · rw [if_neg h3]
        exact Or.inr (Or.inr (Or.inr ⟨v, rfl, by omega, by omega, h2, h1⟩))

theorem hexVal_printable (b : Byte) (h : (hexVal b).isSome) : 32 ≤ b.val ∧ b.val < 127 := by
  unfold hexVal at h
  split at h
  · omega
  · split at h
    · omega
    · split at h
      · omega
      · exact absurd h (by simp)

theorem piece_printable (t : List Byte) (h : IsPiece t) : ∀ b ∈ t, 32 ≤ b.val ∧ b.val < 127 := by
  rcases h with h | h | ⟨h1, h2, h, a1, a2⟩ | ⟨v, h, a⟩ <;> subst h <;> intro b hb <;>
    simp only [List.mem_cons, List.mem_singleton, List.not_mem_nil, or_false] at hb
  · rcases hb with hb | hb <;> subst hb <;> decide
  · rcases hb with hb | hb <;> subst hb <;> decide
  · rcases hb with hb | hb | hb | hb <;> subst hb
    · decide
    · decide
    · exact hexVal_printable _ a1
    · exact hexVal_printable _ a2
  · subst hb
    exact ⟨a.1, a.2.1⟩

theorem strTabBody_printable (s : List Byte) : ∀ b ∈ strTabBody s, 32 ≤ b.val ∧ b.val < 127 := by
  induction s with
  | nil => intro b hb; cases hb
  | cons v s ih =>
    intro b hb
    rw [strTabBody, List.mem_append] at hb
    rcases hb with hb | hb
    · exact piece_printable _ (strTabByte_piece v) b hb
    · exact ih b hb

theorem forEach_strTabByte {ι : Type} (s : List Byte) (g : generator ι) :
    forEach (fun v => w (strTabByte v)) s g = .ok ((), strTabBody s, g) := by
  induction s with
  | nil => rfl
  | cons v s ih =>
    simp only [forEach, Emit.bind, w, ih, strTabBody]

theorem unescaped_escape (e : Byte) (r : List Byte) : unescaped (92 :: e :: r) = unescaped r := by
  rw [unescaped, if_pos (by decide)]

theorem unescaped_plain (c : Byte) (t : List Byte) (h : c.val ≠ 92) :
    unescaped (c :: t) = c :: unescaped t := by
  cases t <;> simp only [unescaped, if_neg h]

theorem hexDigit_val (n : Nat) : 48 ≤ (hexDigit n).val ∧ (hexDigit n).val ≤ 102 ∧
    ((hexDigit n).val ≤ 57 ∨ 97 ≤ (hexDigit n).val) := by
  unfold hexDigit
  split <;> simp only <;> omega

/-- The bytes of the body that stand outside an escape are neither a double
quote nor a backslash. -/
theorem unescaped_strTabBody (s : List Byte) :
    ∀ b ∈ unescaped (strTabBody s), b.val ≠ 34 ∧ b.val ≠ 92 := by
  induction s with
  | nil => intro b hb; cases hb
  | cons v s ih =>
    intro b hb
    rw [strTabBody] at hb
    unfold strTabByte at hb
    split at hb
    · rw [List.cons_append, List.cons_append, List.nil_append, unescaped_escape] at hb
      exact ih b hb
    · split at hb
      · rw [List.cons_append, List.cons_append, List.nil_append, unescaped_escape] at hb
        exact ih b hb
      · split at hb
        · have d1 := hexDigit_val (v.val / 16)
          have d2 := hexDigit_val v.val
          simp only [fmtHex2, List.cons_append, List.nil_append] at hb
          rw [unescaped_escape, unescaped_plain _ _ (by omega),
            unescaped_plain _ _ (by omega)] at hb
          simp only [List.mem_cons] at hb
          rcases hb with hb | hb | hb
          · subst hb; omega
          · subst hb; omega
          · exact ih b hb
        · rename_i h1 h2 h3
          rw [List.cons_append, List.nil_append, unescaped_plain _ _ h1] at hb
          simp only [List.mem_cons] at hb
          rcases hb with hb | hb
          · subst hb; exact ⟨h2, h1⟩
          · exact ih b hb

/-- C22: the loop of `gen.gen` over the bytes of the string pool `s` writes,
between the double quotes of `strTab`, a body that read as the body of an
interpreted string literal of Go gives `s` back, whatever bytes `s` holds.
The body is made of one piece for each byte of the pool, a piece being `\\`,
`\"`, `\x` and two hexadecimal digits, or one byte other than the double quote
and the backslash; all its bytes are from `0x20` to `0x7e`, so that none is a
newline, and no double quote or backslash stands in it outside an escape. -/
theorem strTab_literal_roundtrip {ι : Type} (s : List Byte) (g : generator ι) :
    forEach (fun v => w (strTabByte v)) s g = .ok ((), strTabBody s, g) ∧
    goUnquote (strTabBody s) = some s ∧
    (∀ v, IsPiece (strTabByte v)) ∧
    (∀ b ∈ strTabBody s, 32 ≤ b.val ∧ b.val < 127) ∧
    (∀ b ∈ unescaped (strTabBody s), b.val ≠ 34 ∧ b.val ≠ 92) :=
  ⟨forEach_strTabByte s g, goUnquote_strTabBody s, strTabByte_piece, strTabBody_printable s,
    unescaped_strTabBody s⟩

/-! ## The mask of a bit-field store -/

/-- The unsigned conversion of a number that fits. -/
theorem toUnsigned_of_lt (bits n : Nat) (h : n < 2 ^ bits) : toUnsigned bits (n : Int) = n := by
  unfold toUnsigned
  have h2 : ((n : Int) % 2 ^ bits) = n := by
    apply Int.emod_eq_of_lt (by omega)
    exact_mod_cast h
  rw [h2]
  rfl

/-- The mask as a product. -/
theorem storeMask_eq (w o : Nat) (hw : 1 ≤ w) (ho : o + w ≤ 64) :
    storeMask w o = (2 ^ w - 1) * 2 ^ o := by
  unfold storeMask
  have hpos : 1 ≤ 2 ^ w := Nat.one_le_two_pow
  have hin : ((1 <<< w) % 2 ^ 64 + 2 ^ 64 - 1) % 2 ^ 64 = 2 ^ w - 1 := by
    rw [Nat.one_shiftLeft]
    rcases Nat.lt_or_ge w 64 with hlt | hge
    · have h1 : 2 ^ w < 2 ^ 64 := Nat.pow_lt_pow_right (by decide) hlt
      rw [Nat.mod_eq_of_lt h1]
      have h2 : 2 ^ w + 2 ^ 64 - 1 = (2 ^ w - 1) + 2 ^ 64 := by omega
      rw [h2, Nat.add_mod_right, Nat.mod_eq_of_lt (by omega)]
    · have h64 : w = 64 := by omega
      subst h64
      rfl
  rw [hin, Nat.shiftLeft_eq]
  apply Nat.mod_eq_of_lt
  have h3 : 2 ^ w * 2 ^ o ≤ 2 ^ 64 := by
    rw [← Nat.pow_add]
    exact Nat.pow_le_pow_right (by decide) (by omega)
  have h4 : (2 ^ w - 1) * 2 ^ o < 2 ^ w * 2 ^ o :=
    Nat.mul_lt_mul_of_lt_of_le (by omega) (Nat.le_refl _) (Nat.two_pow_pos o)
  omega

set_option smartUnfolding false in
theorem expression_StoreBits {ι : Type} [DecidableEq ι] (env : Env ι) (f : fn ι)
    (p : Option (Op ι)) (cleared : Bool) (T : TypeID) (Bits BitOffset : Int)
    (cop : Op ι) (dchilds : List (exprNode ι)) (dcomma : Option (exprNode ι))
    (dtid : TypeID) (dpar : Option (Op ι)) (V : exprNode ι) (rest : List (exprNode ι))
    (comma : Option (exprNode ι)) (tid : TypeID) (par : Option (Op ι)) (h : Bits ≠ 0) :
    expression env f p cleared true
        (.mk (.Store T Bits BitOffset) (.mk cop dchilds dcomma dtid dpar :: V :: rest) comma tid
          par) =
        Emit.bind (request .storebits T) fun _ =>
        Emit.bind (w (ascii "storebits_" ++ fmtInt T ++ ascii "(")) fun _ =>
        if (match cop with
            | .Dup => true
            | _ => false) then TODO
        else
          Emit.bind (expression env f (some (.Store T Bits BitOffset)) false false
            (.mk cop dchilds dcomma dtid dpar)) fun _ =>
          Emit.bind (ws ", (") fun _ =>
          Emit.bind (expression env f (some (.Store T Bits BitOffset)) false false V) fun _ =>
          w (ascii "<<" ++ fmtInt BitOffset ++ ascii "), " ++
            fmtNat (storeMask (toUnsigned (UintPtrBits env.arch) Bits)
              (toUnsigned (UintPtrBits env.arch) BitOffset)) ++
            ascii ", " ++ fmtInt BitOffset ++ ascii ")")
 := by
  show (if Bits ≠ 0 then _ else _) = _
  rw [if_pos h]
  rfl

/-- C23: for a width `w` of at least 1 and a bit offset `o` with
`o + w ≤ 64`, the mask `(uint64(1)<<uint(x.Bits)-1)<<uint(x.BitOffset)` that
the `Store` case writes as the third argument of `storebits_T` is
`(2 ^ w - 1) * 2 ^ o`: its bit `i` is set exactly when `o ≤ i < o + w`. -/
theorem store_mask_bits {ι : Type} [DecidableEq ι] (env : Env ι) (f : fn ι)
    (p : Option (Op ι)) (cleared : Bool) (T : TypeID) (w o : Nat) (hw : 1 ≤ w)
    (ho : o + w ≤ 64)
    (cop : Op ι) (dchilds : List (exprNode ι)) (dcomma : Option (exprNode ι))
    (dtid : TypeID) (dpar : Option (Op ι)) (V : exprNode ι) (rest : List (exprNode ι))
    (comma : Option (exprNode ι)) (tid : TypeID) (par : Option (Op ι)) :
    (∀ i, (storeMask w o).testBit i = decide (o ≤ i ∧ i < o + w)) ∧
    storeMask w o = (2 ^ w - 1) * 2 ^ o ∧
    expression env f p cleared true
        (.mk (.Store T w o) (.mk cop dchilds dcomma dtid dpar :: V :: rest) comma tid par) =
      (Emit.bind (request .storebits T) fun _ =>
        Emit.bind (Irgo.w (ascii "storebits_" ++ fmtInt T ++ ascii "(")) fun _ =>
        if (match cop with
            | .Dup => true
            | _ => false) then TODO
        else
          Emit.bind (expression env f (some (.Store T w o)) false false
            (.mk cop dchilds dcomma dtid dpar)) fun _ =>
          Emit.bind (ws ", (") fun _ =>
          Emit.bind (expression env f (some (.Store T w o)) false false V) fun _ =>
          Irgo.w (ascii "<<" ++ fmtInt o ++ ascii "), " ++ fmtNat (storeMask w o) ++
            ascii ", " ++ fmtInt o ++ ascii ")")) := by
  have hbits : 2 ^ 32 ≤ 2 ^ UintPtrBits env.arch := by
    apply Nat.pow_le_pow_right (by decide)
    cases env.arch <;> decide
  have hw2 : toUnsigned (UintPtrBits env.arch) (w : Int) = w :=
    toUnsigned_of_lt _ _ (by omega)
  have ho2 : toUnsigned (UintPtrBits env.arch) (o : Int) = o :=
    toUnsigned_of_lt _ _ (by omega)
  refine ⟨?_, storeMask_eq w o hw ho, ?_⟩
  · intro i
    rw [storeMask_eq w o hw ho, ← Nat.shiftLeft_eq, Nat.testBit_shiftLeft,
      Nat.testBit_two_pow_sub_one]
    by_cases h1 : o ≤ i
    · by_cases h2 : i < o + w
      · have h3 : i - o < w := by omega
        simp [h1, h2, h3]
      · have h3 : ¬ i - o < w := by omega
        simp [h1, h2, h3]
    · simp [h1]
  · rw [expression_StoreBits env f p cleared T w o cop dchilds dcomma dtid dpar V rest comma tid
      par (by omega), hw2, ho2]

set_option maxRecDepth 100000 in
/-- C23 at the width 3 and the offset 4: the mask is 112, the bits 4, 5 and
6, and the store of 5 through the first argument is written as
`(storebits_1(((_p)), ((int32(5) )<<4), 112, 4))`. -/
theorem store_mask_bits_witness :
    (∀ i, (storeMask 3 4).testBit i = decide (4 ≤ i ∧ i < 4 + 3)) ∧
    storeMask 3 4 = 112 ∧
    textOf (expression (demoEnv []) demoFn none false false
      (.mk (.Store 1 3 4)
        [.mk (.Argument false 0) [] none 2 none, .mk (.Const32 1 5) [] none 1 none] none 1
        none)) = some (ascii "(storebits_1(((_p)), ((int32(5) )<<4), 112, 4))") :=
  ⟨(store_mask_bits (demoEnv []) demoFn none false 1 3 4 (by decide) (by decide)
      (.Argument false 0) [] none 2 none (.mk (.Const32 1 5) [] none 1 none) [] none 1 none).1,
    by decide, by rfl⟩

/-! ## The names of local variables -/

/-- A method that leaves the generator as it is and writes nothing in front of
what follows it. -/
theorem Emit.bind_of_ok {ι α β : Type} (m : Emit ι α) (k : α → Emit ι β) (g g1 : generator ι)
    (a : α) (h : m g = .ok (a, [], g1)) : Emit.bind m k g = k a g1 := by
  unfold Emit.bind
  rw [h]
  show (match k a g1 with
    | .error e => .error e
    | .ok (b, u, g2) => .ok (b, [] ++ u, g2)) = k a g1
  cases k a g1 with
  | error e => rfl
  | ok r => rfl

theorem mangleText_local {ι : Type} (d : Dict ι) (nm : ι) (sc : Int) :
    ∃ text, mangleText d ⟨nm, false, sc⟩ = .ok text := by
  unfold mangleText mangleHead
  exact ⟨_, rfl⟩

/-- A call of `mangle` on a key that is not exported returns the id of the
text of the key, whatever the cache holds. -/
theorem mangle_local {ι : Type} [DecidableEq ι] (env : Env ι) (g : generator ι)
    (hg : CacheOk env.dict g.togen) (nm : ι) (sc : Int) (text : List Byte)
    (ht : mangleText env.dict ⟨nm, false, sc⟩ = .ok text) :
    mangle env nm false sc g = .ok (env.dict.ID text, [], afterMangle env g ⟨nm, false, sc⟩) := by
  have h1 := mangle_fst env.dict g.togen hg nm false sc
  rw [ht] at h1
  unfold mangle afterMangle
  cases hm : g.togen.mangle env.dict nm false sc with
  | mk x c =>
    rw [hm] at h1
    simp only [Except.map] at h1
    subst h1
    rfl

theorem index_of_get {ι α : Type} (l : List α) (i : Int) (a : α) (h0 : 0 ≤ i)
    (h : l.get? i.toNat = some a) : (index l i : Emit ι α) = Emit.pure a := by
  unfold index
  rw [if_neg (by omega), h]

theorem kindOf_lift {ι : Type} (env : Env ι) (id : TypeID) :
    ∃ x : Except PanicVal Kind, (kindOf env id : Emit ι Kind) = liftExcept x := by
  unfold kindOf MustType
  cases env.MustType id with
  | none => exact ⟨.error (.err "MustType"), rfl⟩
  | some t => exact ⟨.ok t.Kind, rfl⟩

set_option smartUnfolding false in
theorem expression_Variable {ι : Type} [DecidableEq ι] (env : Env ι) (f : fn ι)
    (p : Option (Op ι)) (cleared : Bool) (Address : Bool) (Index : Int)
    (childs : List (exprNode ι)) (comma : Option (exprNode ι)) (tid : TypeID)
    (par : Option (Op ι)) :
    expression env f p cleared true (.mk (.Variable Address Index) childs comma tid par) =
      Emit.bind (index f.varNfo Index) fun nfo =>
      Emit.bind
        (match p with
          | some .CallFP => kindOf env nfo.decl.TypeID
          | some (.Call _) => kindOf env nfo.decl.TypeID
          | _ => Emit.pure Kind.Other) fun k =>
      if (match p with
          | some .CallFP => true
          | some (.Call _) => true
          | _ => false) && k = .Array then
        Emit.bind (mangle env nfo.decl.NameID false (scopeIndex nfo.scope)) fun nm =>
        w (ascii "&(" ++ env.dict.S nm ++ ascii "[0])")
      else
        Emit.bind (wsIf Address "&") fun _ =>
        Emit.bind (mangle env nfo.decl.NameID false (scopeIndex nfo.scope)) fun nm =>
        w (env.dict.S nm) :=
  rfl

theorem emitOp_VariableDeclaration {ι : Type} [DecidableEq ι] (env : Env ι) (f : fn ι)
    (Index : Int) (NameID : ι) (T : TypeID) (V : Value ι) (P : Position) (hV : V ≠ .Nil) :
    emitOp env f (.op (.VariableDeclaration Index NameID T V P)) =
      Emit.bind (index f.varNfo Index) fun nfo =>
      Emit.bind (mangle env NameID false (scopeIndex nfo.scope)) fun nm =>
      Emit.bind (w (env.dict.S nm ++ ascii " = ")) fun _ =>
      Emit.bind (value env T V) fun _ =>
      ws "\n" := by
  cases V <;> first | rfl | exact absurd rfl hV

/-- The test of the parent in the `Variable` case neither writes nor touches
the generator. -/
theorem parentKind_lift {ι : Type} (env : Env ι) (p : Option (Op ι)) (T : TypeID) :
    ∃ x : Except PanicVal Kind,
      (match p with
        | some .CallFP => kindOf env T
        | some (.Call _) => kindOf env T
        | _ => (Emit.pure Kind.Other : Emit ι Kind)) = liftExcept x := by
  cases p with
  | none => exact ⟨.ok .Other, rfl⟩
  | some q =>
    cases q <;> first | exact kindOf_lift env T | exact ⟨.ok .Other, rfl⟩

/-- Writing a text and then mangling is mangling and then writing the text. -/
theorem ws_bind_mangle {ι : Type} [DecidableEq ι] (env : Env ι) (g : generator ι)
    (hg : CacheOk env.dict g.togen) (nm : ι) (sc : Int) (text : List Byte)
    (ht : mangleText env.dict ⟨nm, false, sc⟩ = .ok text) (b : Bool) (s : String)
    (k : ι → Emit ι Unit) :
    (Emit.bind (wsIf b s) fun _ => Emit.bind (mangle env nm false sc) k) g =
      (Emit.bind (wsIf b s) fun _ => k (env.dict.ID text))
        (afterMangle env g ⟨nm, false, sc⟩) := by
  have hm := mangle_local env g hg nm sc text ht
  cases b with
  | false =>
    rw [wsIf_false, Emit.pure_bind, Emit.pure_bind]
    exact Emit.bind_of_ok _ _ _ _ _ hm
  | true =>
    rw [wsIf_true]
    unfold Emit.bind ws w
    simp only [hm, List.nil_append]
    cases k (env.dict.ID text) (afterMangle env g ⟨nm, false, sc⟩) with
    | error e => rfl
    | ok r => rfl

/-- C24: let the entry `i` of the variable table of a function be `nfo` and
let the declaration of the variable `i` carry the name `nfo` holds.  Then, in
whatever state the generator is, the `var` declaration that
`functionDefinition` writes for `nfo`, the assignment that `emit` writes for an
initialized declaration of `i` and every reference to `i` that `expression`
writes name the variable by the same identifier: the one `mangle` builds from
the name of the declaration, not exported, under the scope of `nfo`, the scope
0 standing for no scope, `-1`. -/
theorem local_name_consistent {ι : Type} [DecidableEq ι] (env : Env ι) (f : fn ι) (i : Int)
    (nfo : varNfo ι) (h0 : 0 ≤ i) (hn : f.varNfo.get? i.toNat = some nfo)
    (NameID : ι) (T : TypeID) (V : Value ι) (P : Position)
    (hown : nfo.decl.NameID = NameID)
    (p : Option (Op ι)) (cleared Address : Bool) (childs : List (exprNode ι))
    (comma : Option (exprNode ι)) (tid : TypeID) (par : Option (Op ι))
    (g : generator ι) (hg : CacheOk env.dict g.togen) :
    ∃ text, mangleText env.dict ⟨NameID, false, scopeIndex nfo.scope⟩ = .ok text ∧
      localKey nfo = ⟨NameID, false, scopeIndex nfo.scope⟩ ∧
      CacheOk env.dict (afterMangle env g (localKey nfo)).togen ∧
      nfo ∈ f.varNfo ∧
      localDeclaration env nfo g =
        (Emit.bind (typ2 env nfo.decl.TypeID) fun Tn =>
          Emit.bind (w (ascii "var " ++ env.dict.S (env.dict.ID text) ++ ascii " " ++
            env.dict.S Tn ++ ascii " // " ++ env.PositionString nfo.decl.Position ++
            ascii "\n")) fun _ =>
          w (ascii "_ = " ++ env.dict.S (env.dict.ID text) ++ ascii "\n"))
          (afterMangle env g (localKey nfo)) ∧
      (V ≠ .Nil →
        emitOp env f (.op (.VariableDeclaration i NameID T V P)) g =
          (Emit.bind (w (env.dict.S (env.dict.ID text) ++ ascii " = ")) fun _ =>
            Emit.bind (value env T V) fun _ => ws "\n") (afterMangle env g (localKey nfo))) ∧
      expression env f p cleared true (.mk (.Variable Address i) childs comma tid par) g =
        (Emit.bind
          (match p with
            | some .CallFP => kindOf env nfo.decl.TypeID
            | some (.Call _) => kindOf env nfo.decl.TypeID
            | _ => Emit.pure Kind.Other) fun k =>
          if (match p with
              | some .CallFP => true
              | some (.Call _) => true
              | _ => false) && k = .Array then
            w (ascii "&(" ++ env.dict.S (env.dict.ID text) ++ ascii "[0])")
          else
            Emit.bind (wsIf Address "&") fun _ => w (env.dict.S (env.dict.ID text)))
          (afterMangle env g (localKey nfo)) := by
  subst hown
  obtain ⟨text, ht⟩ := mangleText_local env.dict nfo.decl.NameID (scopeIndex nfo.scope)
  have hm := mangle_local env g hg nfo.decl.NameID (scopeIndex nfo.scope) text ht
  have hidx : (index f.varNfo i : Emit ι (varNfo ι)) = Emit.pure nfo :=
    index_of_get f.varNfo i nfo h0 hn
  refine ⟨text, ht, rfl, ?_, List.get?_mem hn, ?_, ?_, ?_⟩
  · exact mangle_cacheOk env.dict g.togen hg _ _ _
  · exact Emit.bind_of_ok _ _ _ _ _ hm
  · intro hV
    rw [emitOp_VariableDeclaration env f i _ T V P hV, hidx, Emit.pure_bind]
    exact Emit.bind_of_ok _ _ _ _ _ hm
  · rw [expression_Variable, hidx, Emit.pure_bind]
    obtain ⟨x, hx⟩ := parentKind_lift env p nfo.decl.TypeID
    simp only [hx]
    cases x with
    | error e => rfl
    | ok k =>
      simp only [liftExcept, Emit.pure_bind]
      split
      · exact Emit.bind_of_ok _ _ _ _ _ hm
      · exact ws_bind_mangle env g hg _ _ text ht Address "&" _

set_option maxRecDepth 100000 in
/-- C24 at the variable `y` of `demoVarFn`, index 1, scope 2, initialized with
5, from a fresh generator: the three places write `_2_y`. -/
theorem local_name_consistent_witness :
    demoVarFn.varNfo.get? (1 : Int).toNat =
      some ⟨⟨1, ascii "y", 1, .Int32Value 5, ⟨[], 0, 0, 0⟩⟩, 2⟩ ∧
    textOf (localDeclaration (demoEnv [])
      ⟨⟨1, ascii "y", 1, .Int32Value 5, ⟨[], 0, 0, 0⟩⟩, 2⟩) =
      some (ascii "var _2_y int32  // -\n_ = _2_y\n") ∧
    textOf (emitOp (demoEnv []) demoVarFn
      (.op (.VariableDeclaration 1 (ascii "y") 1 (.Int32Value 5) ⟨[], 0, 0, 0⟩))) =
      some (ascii "_2_y = 5\n") ∧
    textOf (expression (demoEnv []) demoVarFn none false false
      (.mk (.Variable true 1) [] none 1 none)) = some (ascii "(&_2_y)") ∧
    ∃ text, mangleText bytesDict ⟨ascii "y", false, scopeIndex 2⟩ = .ok text ∧
      emitOp (demoEnv []) demoVarFn
          (.op (.VariableDeclaration 1 (ascii "y") 1 (.Int32Value 5) ⟨[], 0, 0, 0⟩))
          (newGenerator (List Byte)) =
        (Emit.bind (w (bytesDict.S (bytesDict.ID text) ++ ascii " = ")) fun _ =>
          Emit.bind (value (demoEnv []) 1 (.Int32Value 5)) fun _ => ws "\n")
          (afterMangle (demoEnv []) (newGenerator (List Byte))
            (localKey ⟨⟨1, ascii "y", 1, .Int32Value 5, ⟨[], 0, 0, 0⟩⟩, 2⟩)) :=
  ⟨by rfl, by rfl, by rfl, by rfl,
    (local_name_consistent (demoEnv []) demoVarFn 1
      ⟨⟨1, ascii "y", 1, .Int32Value 5, ⟨[], 0, 0, 0⟩⟩, 2⟩ (by decide) (by rfl) (ascii "y") 1
      (.Int32Value 5) ⟨[], 0, 0, 0⟩ rfl none false true [] none 1 none
      (newGenerator (List Byte)) (newGen_cacheOk bytesDict)).elim
      fun text h => ⟨text, h.1, h.2.2.2.2.2.1 (by simp)⟩⟩

/-! ## The helper definitions in the text of `gen.gen` -/

theorem NoNewline.append {a b : List Byte} (ha : NoNewline a) (hb : NoNewline b) :
    NoNewline (a ++ b) := by
  intro x hx
  rcases List.mem_append.mp hx with h | h
  · exact ha x h
  · exact hb x h

theorem noNewline_of_all (l : List Byte) (h : l.all (fun b => decide (b.val ≠ 10)) = true) :
    NoNewline l := fun b hb => of_decide_eq_true (List.all_eq_true.mp h b hb)

theorem fmtNat_noNewline (n : Nat) : NoNewline (fmtNat n) := by
  intro b hb
  have := fmtNatAux_digits (n + 1) n b hb
  omega

theorem fmtInt_noNewline (i : Int) : NoNewline (fmtInt i) := by
  unfold fmtInt
  split
  · intro b hb
    rcases List.mem_cons.mp hb with h | h
    · subst h; decide
    · exact fmtNat_noNewline _ b h
  · exact fmtNat_noNewline _

set_option smartUnfolding false in
mutual
theorem typ0_noNewline {ι : Type} (env : Env ι) :
    ∀ (t : Ty) (buf out : List Byte), typ0 env buf t = .ok out → NoNewline buf → NoNewline out
  | .Int8, buf, out, h, hb => by
    have e : typ0 env buf .Int8 = .ok (buf ++ ascii "int8 ") := rfl
    rw [e] at h; cases h; exact hb.append (noNewline_of_all _ (by rfl))
  | .Uint8, buf, out, h, hb => by
    have e : typ0 env buf .Uint8 = .ok (buf ++ ascii "uint8 ") := rfl
    rw [e] at h; cases h; exact hb.append (noNewline_of_all _ (by rfl))
  | .Int16, buf, out, h, hb => by
    have e : typ0 env buf .Int16 = .ok (buf ++ ascii "int16 ") := rfl
    rw [e] at h; cases h; exact hb.append (noNewline_of_all _ (by rfl))
  | .Uint16, buf, out, h, hb => by
    have e : typ0 env buf .Uint16 = .ok (buf ++ ascii "uint16 ") := rfl
    rw [e] at h; cases h; exact hb.append (noNewline_of_all _ (by rfl))
  | .Int32, buf, out, h, hb => by
    have e : typ0 env buf .Int32 = .ok (buf ++ ascii "int32 ") := rfl
    rw [e] at h; cases h; exact hb.append (noNewline_of_all _ (by rfl))
  | .Uint32, buf, out, h, hb => by
    have e : typ0 env buf .Uint32 = .ok (buf ++ ascii "uint32 ") := rfl
    rw [e] at h; cases h; exact hb.append (noNewline_of_all _ (by rfl))
  | .Int64, buf, out, h, hb => by
    have e : typ0 env buf .Int64 = .ok (buf ++ ascii "int64 ") := rfl
    rw [e] at h; cases h; exact hb.append (noNewline_of_all _ (by rfl))
  | .Uint64, buf, out, h, hb => by
    have e : typ0 env buf .Uint64 = .ok (buf ++ ascii "uint64 ") := rfl
    rw [e] at h; cases h; exact hb.append (noNewline_of_all _ (by rfl))
  | .Float32, buf, out, h, hb => by
    have e : typ0 env buf .Float32 = .ok (buf ++ ascii "float32 ") := rfl
    rw [e] at h; cases h; exact hb.append (noNewline_of_all _ (by rfl))
  | .Float64, buf, out, h, hb => by
    have e : typ0 env buf .Float64 = .ok (buf ++ ascii "float64 ") := rfl
    rw [e] at h; cases h; exact hb.append (noNewline_of_all _ (by rfl))
  | .Complex64, buf, out, h, hb => by
    have e : typ0 env buf .Complex64 = .ok (buf ++ ascii "complex64 ") := rfl
    rw [e] at h; cases h; exact hb.append (noNewline_of_all _ (by rfl))
  | .Complex128, buf, out, h, hb => by
    have e : typ0 env buf .Complex128 = .ok (buf ++ ascii "complex128 ") := rfl
    rw [e] at h; cases h; exact hb.append (noNewline_of_all _ (by rfl))
  | .Array Items Item, buf, out, h, hb =>
    typ0_noNewline env Item (buf ++ (ascii "[" ++ fmtInt Items ++ ascii "]")) out h
      (hb.append (((noNewline_of_all _ (by rfl)).append (fmtInt_noNewline _)).append
        (noNewline_of_all _ (by rfl))))
  | .Struct Fields, buf, out, h, hb => by
    have e : typ0 env buf (.Struct Fields) =
        match typ0Fields env (buf ++ ascii "struct\x7b") 0 Fields with
        | .error e => .error e
        | .ok buf => .ok (buf ++ ascii "\x7d") := rfl
    rw [e] at h
    cases hf : typ0Fields env (buf ++ ascii "struct\x7b") 0 Fields with
    | error e => rw [hf] at h; cases h
    | ok b =>
      rw [hf] at h
      cases h
      exact (typ0Fields_noNewline env Fields _ 0 b hf
        (hb.append (noNewline_of_all _ (by rfl)))).append (noNewline_of_all _ (by rfl))
  | .Union Fields, buf, out, h, hb => by
    have e : typ0 env buf (.Union Fields) =
        match typ0Fields env (buf ++ ascii "struct\x7b_ [0]struct\x7b") 0 Fields with
        | .error e => .error e
        | .ok buf =>
          .ok (buf ++ (ascii "\x7d; U [" ++ fmtInt (env.Sizeof (.Union Fields)) ++
            ascii "]byte") ++ ascii "\x7d") := rfl
    rw [e] at h
    cases hf : typ0Fields env (buf ++ ascii "struct\x7b_ [0]struct\x7b") 0 Fields with
    | error e => rw [hf] at h; cases h
    | ok b =>
      rw [hf] at h
      cases h
      exact ((typ0Fields_noNewline env Fields _ 0 b hf
        (hb.append (noNewline_of_all _ (by rfl)))).append
          (((noNewline_of_all _ (by rfl)).append (fmtInt_noNewline _)).append
            (noNewline_of_all _ (by rfl)))).append (noNewline_of_all _ (by rfl))
  | .Pointer e, buf, out, h, hb => by
    have e0 : typ0 env buf (.Pointer e) =
        if env.ID (.Pointer e) = env.idVoidPtr then .ok (buf ++ ascii "uintptr ")
        else typ0 env (if e.Kind ≠ .Function then buf ++ ascii "*" else buf) e := rfl
    rw [e0] at h
    by_cases hv : env.ID (.Pointer e) = env.idVoidPtr
    · rw [if_pos hv] at h; cases h; exact hb.append (noNewline_of_all _ (by rfl))
    · rw [if_neg hv] at h
      refine typ0_noNewline env e _ out h ?_
      split
      · exact hb.append (noNewline_of_all _ (by rfl))
      · exact hb
  | .Function Arguments [] V, buf, out, h, hb => by
    have e1 : typ0 env buf (.Function Arguments [] V) =
        match typ0Arguments env (buf ++ ascii "func(") Arguments with
        | .error e => .error e
        | .ok buf => .ok (buf ++ ascii ")") := rfl
    rw [e1] at h
    cases ha : typ0Arguments env (buf ++ ascii "func(") Arguments with
    | error e => rw [ha] at h; cases h
    | ok b =>
      rw [ha] at h; cases h
      exact (typ0Arguments_noNewline env Arguments _ b ha
        (hb.append (noNewline_of_all _ (by rfl)))).append (noNewline_of_all _ (by rfl))
  | .Function Arguments [r] V, buf, out, h, hb => by
    have e1 : typ0 env buf (.Function Arguments [r] V) =
        match typ0Arguments env (buf ++ ascii "func(") Arguments with
        | .error e => .error e
        | .ok buf => typ0 env (buf ++ ascii ")") r := rfl
    rw [e1] at h
    cases ha : typ0Arguments env (buf ++ ascii "func(") Arguments with
    | error e => rw [ha] at h; cases h
    | ok b =>
      rw [ha] at h
      exact typ0_noNewline env r _ out h
        ((typ0Arguments_noNewline env Arguments _ b ha
          (hb.append (noNewline_of_all _ (by rfl)))).append (noNewline_of_all _ (by rfl)))
  | .Function Arguments (r1 :: r2 :: rs) V, buf, out, h, hb => by
    obtain ⟨e, he⟩ := typ0_two_results env buf Arguments r1 r2 rs V
    rw [he] at h; cases h
  | .Other, buf, out, h, hb => by
    have e : typ0 env buf .Other = .error (.err "TODO") := rfl
    rw [e] at h; cases h
theorem typ0Fields_noNewline {ι : Type} (env : Env ι) :
    ∀ (l : List Ty) (buf : List Byte) (i : Nat) (out : List Byte),
      typ0Fields env buf i l = .ok out → NoNewline buf → NoNewline out
  | [], buf, i, out, h, hb => by
    have e : typ0Fields env buf i [] = .ok buf := rfl
    rw [e] at h; cases h; exact hb
  | v :: rest, buf, i, out, h, hb => by
    have e : typ0Fields env buf i (v :: rest) =
        match typ0 env (buf ++ (ascii "X" ++ fmtNat i ++ ascii " ")) v with
        | .error e => .error e
        | .ok buf => typ0Fields env (buf ++ ascii ";") (i + 1) rest := rfl
    rw [e] at h
    cases hv : typ0 env (buf ++ (ascii "X" ++ fmtNat i ++ ascii " ")) v with
    | error e => rw [hv] at h; cases h
    | ok b =>
      rw [hv] at h
      have hbn := typ0_noNewline env v _ b hv
        (hb.append (((noNewline_of_all _ (by rfl)).append (fmtNat_noNewline _)).append
          (noNewline_of_all _ (by rfl))))
      exact typ0Fields_noNewline env rest _ (i + 1) out h
        (hbn.append (noNewline_of_all _ (by rfl)))
theorem typ0Arguments_noNewline {ι : Type} (env : Env ι) :
    ∀ (l : List Ty) (buf out : List Byte),
      typ0Arguments env buf l = .ok out → NoNewline buf → NoNewline out
  | [], buf, out, h, hb => by
    have e : typ0Arguments env buf [] = .ok buf := rfl
    rw [e] at h; cases h; exact hb
  | v :: rest, buf, out, h, hb => by
    have e : typ0Arguments env buf (v :: rest) =
        match typ0 env buf v with
        | .error e => .error e
        | .ok buf => typ0Arguments env (buf ++ ascii ",") rest := rfl
    rw [e] at h
    cases hv : typ0 env buf v with
    | error e => rw [hv] at h; cases h
    | ok b =>
      rw [hv] at h
      have hbn := typ0_noNewline env v _ b hv hb
      exact typ0Arguments_noNewline env rest _ out h
        (hbn.append (noNewline_of_all _ (by rfl)))
end


theorem textLines_line (line : List Byte) (h : NoNewline line) (cur rest : List Byte) :
    textLines cur (line ++ 10 :: rest) = (cur ++ line) :: textLines [] rest := by
  induction line generalizing cur with
  | nil =>
    rw [List.nil_append, List.append_nil]
    simp only [textLines]
    rw [if_pos (by decide)]
  | cons x l ih =>
    have hx : x.val ≠ 10 := h x (List.mem_cons_self _ _)
    rw [List.cons_append]
    simp only [textLines]
    rw [if_neg hx, ih (fun b hb => h b (List.mem_cons_of_mem _ hb))]
    simp

theorem takeWhile_name (name tail : List Byte) (h : ∀ b ∈ name, b.val ≠ 40) :
    (name ++ 40 :: tail).takeWhile (fun b => decide (b.val ≠ 40)) = name := by
  induction name with
  | nil => rfl
  | cons x l ih =>
    have hx : decide (x.val ≠ 40) = true := decide_eq_true (h x (List.mem_cons_self _ _))
    rw [List.cons_append, List.takeWhile_cons, hx]
    simp only [if_true]
    rw [ih (fun b hb => h b (List.mem_cons_of_mem _ hb))]

/-- The name a definition line defines. -/
theorem definedName_line (name tail : List Byte) (h : ∀ b ∈ name, b.val ≠ 40) :
    definedName (ascii "func " ++ name ++ 40 :: tail) = some name := by
  unfold definedName
  have e : ascii "func " = [102, 117, 110, 99, 32] := by rfl
  rw [e]
  simp only [List.cons_append, List.nil_append, List.take_succ_cons, List.take_zero,
    List.drop_succ_cons, List.drop_zero, if_true]
  rw [takeWhile_name name tail h]

/-- The names defined by a text that starts with a definition line. -/
theorem definedNames_line (name tail rest : List Byte) (h : ∀ b ∈ name, b.val ≠ 40)
    (hn : NoNewline name) (ht : NoNewline tail) :
    definedNames (ascii "func " ++ name ++ 40 :: (tail ++ 10 :: rest)) =
      name :: definedNames rest := by
  have hl : NoNewline (ascii "func " ++ name ++ 40 :: tail) := by
    refine ((noNewline_of_all _ (by rfl)).append hn).append ?_
    intro b hb
    rcases List.mem_cons.mp hb with hb | hb
    · subst hb; decide
    · exact ht b hb
  have e : ascii "func " ++ name ++ 40 :: (tail ++ 10 :: rest) =
      (ascii "func " ++ name ++ 40 :: tail) ++ 10 :: rest := by
    simp only [List.append_assoc, List.cons_append]
  unfold definedNames
  rw [e, textLines_line _ hl, List.nil_append, List.filterMap_cons, definedName_line name tail h]

theorem definedNames_line_right (name tail rest : List Byte) (h : ∀ b ∈ name, b.val ≠ 40)
    (hn : NoNewline name) (ht : NoNewline tail) :
    definedNames (ascii "func " ++ (name ++ 40 :: (tail ++ 10 :: rest))) =
      name :: definedNames rest := by
  rw [← List.append_assoc]
  exact definedNames_line name tail rest h hn ht


/-- A sequence that returned: its first part returned, then the second did,
and the texts follow each other. -/
theorem Emit.bind_ok {ι α β : Type} (m : Emit ι α) (k : α → Emit ι β) (g g2 : generator ι)
    (b : β) (t : List Byte) (h : Emit.bind m k g = .ok (b, t, g2)) :
    ∃ a u g1 v, m g = .ok (a, u, g1) ∧ k a g1 = .ok (b, v, g2) ∧ t = u ++ v := by
  unfold Emit.bind at h
  cases hm : m g with
  | error e => rw [hm] at h; cases h
  | ok r =>
    obtain ⟨a, u, g1⟩ := r
    rw [hm] at h
    cases hk : k a g1 with
    | error e => simp only [hk] at h; cases h
    | ok s =>
      obtain ⟨b1, v, g3⟩ := s
      simp only [hk, Except.ok.injEq, Prod.mk.injEq] at h
      obtain ⟨rfl, rfl, rfl⟩ := h
      exact ⟨a, u, g1, v, rfl, hk, rfl⟩

theorem MustType_ok {ι : Type} (env : Env ι) (id : TypeID) (ty : Ty) (u : List Byte)
    (g0 g1 : generator ι) (h : MustType env id g0 = .ok (ty, u, g1)) :
    env.MustType id = some ty ∧ u = [] ∧ g1 = g0 := by
  unfold MustType at h
  cases hm : env.MustType id with
  | none => rw [hm] at h; cases h
  | some t =>
    rw [hm] at h
    simp only [Emit.pure, Except.ok.injEq, Prod.mk.injEq] at h
    obtain ⟨rfl, rfl, rfl⟩ := h
    exact ⟨rfl, rfl, rfl⟩

/-- The text of a type that `typ2` returns holds no newline, and `typ2`
neither writes nor touches the generator. -/
theorem typ2_ok {ι : Type} (env : Env ι) (hd : env.dict.Interning) (id : TypeID) (T : ι)
    (u : List Byte) (g0 g1 : generator ι) (h : typ2 env id g0 = .ok (T, u, g1)) :
    u = [] ∧ g1 = g0 ∧ NoNewline (env.dict.S T) := by
  unfold typ2 at h
  obtain ⟨ty, u1, g2, v, hm, hk, rfl⟩ := Emit.bind_ok _ _ _ _ _ _ h
  obtain ⟨_, rfl, rfl⟩ := MustType_ok env id ty u1 g0 g2 hm
  unfold typ at hk
  cases ht : typ0 env [] ty with
  | error e => rw [ht] at hk; cases hk
  | ok buf =>
    rw [ht] at hk
    simp only [Except.map, liftExcept, Emit.pure, Except.ok.injEq, Prod.mk.injEq] at hk
    obtain ⟨rfl, rfl, rfl⟩ := hk
    refine ⟨rfl, rfl, ?_⟩
    rw [hd.1]
    exact typ0_noNewline env ty [] buf ht (fun b hb => by cases hb)

theorem w_ok {ι : Type} (t d : List Byte) (g0 g1 : generator ι)
    (h : (w t : Emit ι Unit) g0 = .ok ((), d, g1)) : d = t ∧ g1 = g0 := by
  simp only [w, Except.ok.injEq, Prod.mk.injEq, true_and] at h
  exact ⟨h.1.symm, h.2.symm⟩

theorem helperName_noNewline (f : Family) (t : TypeID) : NoNewline (helperName f t) := by
  unfold helperName
  refine (NoNewline.append ?_ (noNewline_of_all _ (by rfl))).append (fmtInt_noNewline t)
  cases f <;> exact noNewline_of_all _ (by rfl)

theorem fmtInt_noParen (i : Int) : ∀ b ∈ fmtInt i, b.val ≠ 40 := by
  unfold fmtInt
  have hn : ∀ n, ∀ b ∈ fmtNat n, b.val ≠ 40 := by
    intro n b hb
    have := fmtNatAux_digits (n + 1) n b hb
    omega
  split
  · intro b hb
    rcases List.mem_cons.mp hb with h | h
    · subst h; decide
    · exact hn _ b h
  · exact hn _

theorem helperName_noParen (f : Family) (t : TypeID) : ∀ b ∈ helperName f t, b.val ≠ 40 := by
  unfold helperName
  intro b hb
  rcases List.mem_append.mp hb with hb | hb
  · rcases List.mem_append.mp hb with hb | hb
    · have hall : (familyName f).all (fun b => decide (b.val ≠ 40)) = true := by
        cases f <;> rfl
      exact of_decide_eq_true (List.all_eq_true.mp hall b hb)
    · have hall : (ascii "_").all (fun b => decide (b.val ≠ 40)) = true := by rfl
      exact of_decide_eq_true (List.all_eq_true.mp hall b hb)
  · exact fmtInt_noParen t b hb

/-- A helper definition is one line that begins with `func`, the name of the
helper and `(`; writing it leaves the generator as it is. -/
theorem helperDefinition_line {ι : Type} (env : Env ι) (hd : env.dict.Interning) (f : Family)
    (v : typeNfo) (g0 g1 : generator ι) (d : List Byte)
    (h : helperDefinition env f v g0 = .ok ((), d, g1)) :
    g1 = g0 ∧ ∃ tail, NoNewline tail ∧
      d = ascii "func " ++ helperName f v.TypeID ++ 40 :: (tail ++ [10]) := by
  have hl := noNewline_of_all
  cases f
  · simp only [helperDefinition] at h
    obtain ⟨T, u, g2, x, ht, hw, rfl⟩ := Emit.bind_ok _ _ _ _ _ _ h
    obtain ⟨rfl, rfl, hT⟩ := typ2_ok env hd _ _ _ _ _ ht
    obtain ⟨rfl, rfl⟩ := w_ok _ _ _ _ hw
    refine ⟨rfl, ascii "d, s *" ++ env.dict.S T ++ ascii ") *" ++ env.dict.S T ++
        ascii " \x7b *d = *s; return d \x7d", ?_, ?_⟩
    · repeat' (first | exact hT | exact hl _ (by rfl) | apply NoNewline.append)
    · have e1 : ascii "func copy_" =
          ascii "func " ++ (familyName .copy ++ ascii "_") := by rfl
      have e2 : ascii "(d, s *" = 40 :: ascii "d, s *" := by rfl
      have e3 : ascii " \x7b *d = *s; return d \x7d\n" =
          ascii " \x7b *d = *s; return d \x7d" ++ [10] := by rfl
      rw [e1, e2, e3]
      simp only [helperName, List.append_assoc, List.cons_append, List.nil_append]
  · simp only [helperDefinition] at h
    obtain ⟨ty, u0, g3, x0, hm, h2, rfl⟩ := Emit.bind_ok _ _ _ _ _ _ h
    obtain ⟨_, rfl, rfl⟩ := MustType_ok env _ _ _ _ _ hm
    obtain ⟨T, u, g2, x, ht, hw, rfl⟩ := Emit.bind_ok _ _ _ _ _ _ h2
    obtain ⟨rfl, rfl, hT⟩ := typ2_ok env hd _ _ _ _ _ ht
    split at hw
    · obtain ⟨rfl, rfl⟩ := w_ok _ _ _ _ hw
      refine ⟨rfl, ascii "p *" ++ env.dict.S T ++ ascii ", d int) " ++ env.dict.S T ++
          ascii " \x7b q := (*uintptr)(unsafe.Pointer(p)); v := *q; *q += uintptr(d); return (" ++
          env.dict.S T ++ ascii ")(unsafe.Pointer(v)) \x7d", ?_, ?_⟩
      · repeat' (first | exact hT | exact hl _ (by rfl) | apply NoNewline.append)
      · have e1 : ascii "func postInc_" =
            ascii "func " ++ (familyName .postInc ++ ascii "_") := by rfl
        have e2 : ascii "(p *" = 40 :: ascii "p *" := by rfl
        have e3 : ascii ")(unsafe.Pointer(v)) \x7d\n" =
            ascii ")(unsafe.Pointer(v)) \x7d" ++ [10] := by rfl
        rw [e1, e2, e3]
        simp only [helperName, List.append_assoc, List.cons_append, List.nil_append]
    · obtain ⟨rfl, rfl⟩ := w_ok _ _ _ _ hw
      refine ⟨rfl, ascii "p *" ++ env.dict.S T ++ ascii ", d " ++ env.dict.S T ++ ascii ") " ++
          env.dict.S T ++ ascii " \x7b v := *p; *p += d; return v \x7d", ?_, ?_⟩
      · repeat' (first | exact hT | exact hl _ (by rfl) | apply NoNewline.append)
      · have e1 : ascii "func postInc_" =
            ascii "func " ++ (familyName .postInc ++ ascii "_") := by rfl
        have e2 : ascii "(p *" = 40 :: ascii "p *" := by rfl
        have e3 : ascii " \x7b v := *p; *p += d; return v \x7d\n" =
            ascii " \x7b v := *p; *p += d; return v \x7d" ++ [10] := by rfl
        rw [e1, e2, e3]
        simp only [helperName, List.append_assoc, List.cons_append, List.nil_append]
  · simp only [helperDefinition] at h
    obtain ⟨ty, u0, g3, x0, hm, h2, rfl⟩ := Emit.bind_ok _ _ _ _ _ _ h
    obtain ⟨_, rfl, rfl⟩ := MustType_ok env _ _ _ _ _ hm
    obtain ⟨T, u, g2, x, ht, hw, rfl⟩ := Emit.bind_ok _ _ _ _ _ _ h2
    obtain ⟨rfl, rfl, hT⟩ := typ2_ok env hd _ _ _ _ _ ht
    split at hw
    · obtain ⟨rfl, rfl⟩ := w_ok _ _ _ _ hw
      refine ⟨rfl, ascii "p *" ++ env.dict.S T ++ ascii ", d int) " ++ env.dict.S T ++
          ascii " \x7b q := (*uintptr)(unsafe.Pointer(p)); v := *q + uintptr(d); *q = v; return (" ++
          env.dict.S T ++ ascii ")(unsafe.Pointer(v)) \x7d", ?_, ?_⟩
      · repeat' (first | exact hT | exact hl _ (by rfl) | apply NoNewline.append)
      · have e1 : ascii "func preInc_" =
            ascii "func " ++ (familyName .preInc ++ ascii "_") := by rfl
        have e2 : ascii "(p *" = 40 :: ascii "p *" := by rfl
        have e3 : ascii ")(unsafe.Pointer(v)) \x7d\n" =
            ascii ")(unsafe.Pointer(v)) \x7d" ++ [10] := by rfl
        rw [e1, e2, e3]
        simp only [helperName, List.append_assoc, List.cons_append, List.nil_append]
    · obtain ⟨rfl, rfl⟩ := w_ok _ _ _ _ hw
      refine ⟨rfl, ascii "p *" ++ env.dict.S T ++ ascii ", d " ++ env.dict.S T ++ ascii ") " ++
          env.dict.S T ++ ascii " \x7b v := *p + d; *p = v; return v \x7d", ?_, ?_⟩
      · repeat' (first | exact hT | exact hl _ (by rfl) | apply NoNewline.append)
      · have e1 : ascii "func preInc_" =
            ascii "func " ++ (familyName .preInc ++ ascii "_") := by rfl
        have e2 : ascii "(p *" = 40 :: ascii "p *" := by rfl
        have e3 : ascii " \x7b v := *p + d; *p = v; return v \x7d\n" =
            ascii " \x7b v := *p + d; *p = v; return v \x7d" ++ [10] := by rfl
        rw [e1, e2, e3]
        simp only [helperName, List.append_assoc, List.cons_append, List.nil_append]
  · simp only [helperDefinition] at h
    obtain ⟨T, u, g2, x, ht, hw, rfl⟩ := Emit.bind_ok _ _ _ _ _ _ h
    obtain ⟨rfl, rfl, hT⟩ := typ2_ok env hd _ _ _ _ _ ht
    obtain ⟨rfl, rfl⟩ := w_ok _ _ _ _ hw
    refine ⟨rfl, ascii "p *" ++ env.dict.S T ++ ascii ", v, m " ++ env.dict.S T ++
        ascii ", o uint) " ++ env.dict.S T ++ ascii " \x7b *p = *p&m|(v<<o); return v \x7d", ?_, ?_⟩
    · repeat' (first | exact hT | exact hl _ (by rfl) | apply NoNewline.append)
    · have e1 : ascii "func storebits_" =
          ascii "func " ++ (familyName .storebits ++ ascii "_") := by rfl
      have e2 : ascii "(p *" = 40 :: ascii "p *" := by rfl
      have e3 : ascii " \x7b *p = *p&m|(v<<o); return v \x7d\n" =
          ascii " \x7b *p = *p&m|(v<<o); return v \x7d" ++ [10] := by rfl
      rw [e1, e2, e3]
      simp only [helperName, List.append_assoc, List.cons_append, List.nil_append]
  · simp only [helperDefinition] at h
    obtain ⟨T, u, g2, x, ht, hw, rfl⟩ := Emit.bind_ok _ _ _ _ _ _ h
    obtain ⟨rfl, rfl, hT⟩ := typ2_ok env hd _ _ _ _ _ ht
    obtain ⟨rfl, rfl⟩ := w_ok _ _ _ _ hw
    refine ⟨rfl, ascii "p *" ++ env.dict.S T ++ ascii ", v " ++ env.dict.S T ++ ascii ") " ++
        env.dict.S T ++ ascii " \x7b *p = v; return v \x7d", ?_, ?_⟩
    · repeat' (first | exact hT | exact hl _ (by rfl) | apply NoNewline.append)
    · have e1 : ascii "func store_" =
          ascii "func " ++ (familyName .store ++ ascii "_") := by rfl
      have e2 : ascii "(p *" = 40 :: ascii "p *" := by rfl
      have e3 : ascii " \x7b *p = v; return v \x7d\n" =
          ascii " \x7b *p = v; return v \x7d" ++ [10] := by rfl
      rw [e1, e2, e3]
      simp only [helperName, List.append_assoc, List.cons_append, List.nil_append]


/-- The loop over the helpers of a family writes one definition line for each
element, in order, and leaves the generator as it is. -/
theorem forEach_helperDefinition {ι : Type} (env : Env ι) (hd : env.dict.Interning)
    (f : Family) (l : List typeNfo) (g0 g1 : generator ι) (D : List Byte)
    (h : forEach (helperDefinition env f) l g0 = .ok ((), D, g1)) :
    g1 = g0 ∧ ∀ rest, definedNames (D ++ rest) =
      l.map (fun v => helperName f v.TypeID) ++ definedNames rest := by
  induction l generalizing D g0 with
  | nil =>
    simp only [forEach, Emit.pure, Except.ok.injEq, Prod.mk.injEq, true_and] at h
    obtain ⟨rfl, rfl⟩ := h
    exact ⟨rfl, fun rest => rfl⟩
  | cons v l ih =>
    simp only [forEach] at h
    obtain ⟨_, d, g2, D2, hv, hl, rfl⟩ := Emit.bind_ok _ _ _ _ _ _ h
    obtain ⟨rfl, tail, htail, rfl⟩ := helperDefinition_line env hd f v g0 g2 d hv
    obtain ⟨rfl, hrest⟩ := ih g2 D2 hl
    refine ⟨rfl, fun rest => ?_⟩
    have e : ascii "func " ++ helperName f v.TypeID ++ 40 :: (tail ++ [10]) ++ D2 ++ rest =
        ascii "func " ++ helperName f v.TypeID ++ 40 :: (tail ++ 10 :: (D2 ++ rest)) := by
      simp only [List.append_assoc, List.cons_append, List.nil_append]
    rw [e, definedNames_line _ _ _ (helperName_noParen f v.TypeID)
      (helperName_noNewline f v.TypeID) htail, hrest rest]
    rfl

theorem ws_ok {ι : Type} (s : String) (d : List Byte) (g0 g1 : generator ι)
    (h : (ws s : Emit ι Unit) g0 = .ok ((), d, g1)) : d = ascii s ∧ g1 = g0 :=
  w_ok _ _ _ _ h

theorem getGen_ok {ι : Type} (g0 g1 a : generator ι) (u : List Byte)
    (h : (getGen : Emit ι (generator ι)) g0 = .ok (a, u, g1)) : a = g0 ∧ u = [] ∧ g1 = g0 := by
  simp only [getGen, Except.ok.injEq, Prod.mk.injEq] at h
  exact ⟨h.1.symm, h.2.1.symm, h.2.2.symm⟩

/-- The names the helper part of `gen.gen` defines: `bool2int`, the `copy`
helpers, `drop`, then the `postInc`, `preInc`, `storebits` and `store`
helpers, each family in the order of `helpers`; the part leaves the generator
as it is. -/
theorem genHelpers_names {ι : Type} (env : Env ι) (hd : env.dict.Interning)
    (g g1 : generator ι) (text : List Byte) (h : genHelpers env g = .ok ((), text, g1)) :
    g1 = g ∧ ∀ rest, definedNames (text ++ rest) =
      ascii "bool2int" :: ((helpers env g.copies).map (fun v => helperName .copy v.TypeID) ++
        ascii "drop" :: ((helpers env g.postIncs).map (fun v => helperName .postInc v.TypeID) ++
          ((helpers env g.preIncs).map (fun v => helperName .preInc v.TypeID) ++
            ((helpers env g.storebits).map (fun v => helperName .storebits v.TypeID) ++
              ((helpers env g.stores).map (fun v => helperName .store v.TypeID) ++
                definedNames rest))))) := by
  unfold genHelpers at h
  obtain ⟨_, t0, s0, r0, h0, k1, rfl⟩ := Emit.bind_ok _ _ _ _ _ _ h
  obtain ⟨rfl, rfl⟩ := ws_ok _ _ _ _ h0
  obtain ⟨a1, u1, s1, r1, hg1, k2, rfl⟩ := Emit.bind_ok _ _ _ _ _ _ k1
  obtain ⟨rfl, rfl, rfl⟩ := getGen_ok _ _ _ _ hg1
  obtain ⟨_, D1, s2, r2, hf1, k3, rfl⟩ := Emit.bind_ok _ _ _ _ _ _ k2
  obtain ⟨rfl, n1⟩ := forEach_helperDefinition env hd _ _ _ _ _ hf1
  obtain ⟨_, t3, s3, r3, h3, k4, rfl⟩ := Emit.bind_ok _ _ _ _ _ _ k3
  obtain ⟨rfl, rfl⟩ := ws_ok _ _ _ _ h3
  obtain ⟨a4, u4, s4, r4, hg4, k5, rfl⟩ := Emit.bind_ok _ _ _ _ _ _ k4
  obtain ⟨rfl, rfl, rfl⟩ := getGen_ok _ _ _ _ hg4
  obtain ⟨_, D2, s5, r5, hf2, k6, rfl⟩ := Emit.bind_ok _ _ _ _ _ _ k5
  obtain ⟨rfl, n2⟩ := forEach_helperDefinition env hd _ _ _ _ _ hf2
  obtain ⟨a6, u6, s6, r6, hg6, k7, rfl⟩ := Emit.bind_ok _ _ _ _ _ _ k6
  obtain ⟨rfl, rfl, rfl⟩ := getGen_ok _ _ _ _ hg6
  obtain ⟨_, D3, s7, r7, hf3, k8, rfl⟩ := Emit.bind_ok _ _ _ _ _ _ k7
  obtain ⟨rfl, n3⟩ := forEach_helperDefinition env hd _ _ _ _ _ hf3
  obtain ⟨a8, u8, s8, r8, hg8, k9, rfl⟩ := Emit.bind_ok _ _ _ _ _ _ k8
  obtain ⟨rfl, rfl, rfl⟩ := getGen_ok _ _ _ _ hg8
  obtain ⟨_, D4, s9, r9, hf4, k10, rfl⟩ := Emit.bind_ok _ _ _ _ _ _ k9
  obtain ⟨rfl, n4⟩ := forEach_helperDefinition env hd _ _ _ _ _ hf4
  obtain ⟨a10, u10, s10, r10, hg10, k11, rfl⟩ := Emit.bind_ok _ _ _ _ _ _ k10
  obtain ⟨rfl, rfl, rfl⟩ := getGen_ok _ _ _ _ hg10
  obtain ⟨rfl, n5⟩ := forEach_helperDefinition env hd _ _ _ _ _ k11
  have e0 : ascii "func bool2int(b bool) int32 \x7b if b \x7b return 1\x7d; return 0 \x7d\n" =
      ascii "func " ++ ascii "bool2int" ++
        40 :: (ascii "b bool) int32 \x7b if b \x7b return 1\x7d; return 0 \x7d" ++ [10]) := by rfl
  have e3 : ascii "func drop(interface\x7b\x7d) \x7b\x7d\n" =
      ascii "func " ++ ascii "drop" ++ 40 :: (ascii "interface\x7b\x7d) \x7b\x7d" ++ [10]) := by
    rfl
  have hp : ∀ l : List Byte, l.all (fun b => decide (b.val ≠ 40)) = true →
      ∀ b ∈ l, b.val ≠ 40 := fun l hl b hb => of_decide_eq_true (List.all_eq_true.mp hl b hb)
  refine ⟨rfl, fun rest => ?_⟩
  rw [e0, e3]
  simp only [List.nil_append, List.append_assoc, List.cons_append]
  rw [definedNames_line_right _ _ _ (hp _ (by rfl)) (noNewline_of_all _ (by rfl))
    (noNewline_of_all _ (by rfl)), n1,
    definedNames_line_right _ _ _ (hp _ (by rfl)) (noNewline_of_all _ (by rfl))
      (noNewline_of_all _ (by rfl)), n2, n3, n4, n5 rest]


theorem fmtInt_inj (a b : Int) (h : fmtInt a = fmtInt b) : a = b := by
  have hd : ∀ n, (45 : Byte) ∉ fmtNat n := by
    intro n hm
    have := fmtNatAux_digits (n + 1) n 45 hm
    exact absurd this.1 (by decide)
  unfold fmtInt at h
  by_cases ha : a < 0 <;> by_cases hb : b < 0
  · rw [if_pos ha, if_pos hb] at h
    have := fmtNat_inj _ _ (List.cons.inj h).2
    omega
  · rw [if_pos ha, if_neg hb] at h
    exact absurd (by rw [← h]; exact List.mem_cons_self _ _) (hd b.natAbs)
  · rw [if_neg ha, if_pos hb] at h
    exact absurd (by rw [h]; exact List.mem_cons_self _ _) (hd a.natAbs)
  · rw [if_neg ha, if_neg hb] at h
    have := fmtNat_inj _ _ h
    omega

theorem helperName_bytes (f : Family) (t : TypeID) :
    helperName f t =
      match f with
      | .copy => [99, 111, 112, 121, 95] ++ fmtInt t
      | .postInc => [112, 111, 115, 116, 73, 110, 99, 95] ++ fmtInt t
      | .preInc => [112, 114, 101, 73, 110, 99, 95] ++ fmtInt t
      | .storebits => [115, 116, 111, 114, 101, 98, 105, 116, 115, 95] ++ fmtInt t
      | .store => [115, 116, 111, 114, 101, 95] ++ fmtInt t := by
  cases f <;> rfl

/-- Two helpers of the same name are the same helper. -/
theorem helperName_inj (f f1 : Family) (t t1 : TypeID)
    (h : helperName f t = helperName f1 t1) : f = f1 ∧ t = t1 := by
  rw [helperName_bytes, helperName_bytes] at h
  cases f <;> cases f1 <;>
    simp only [List.cons_append, List.nil_append, List.cons.injEq, true_and] at h <;>
    first
    | exact ⟨rfl, fmtInt_inj _ _ h⟩
    | exact absurd h.1 (by decide)

/-- No helper of a family has the name of a fixed helper. -/
theorem helperName_ne_fixed (f : Family) (t : TypeID) :
    helperName f t ≠ ascii "bool2int" ∧ helperName f t ≠ ascii "drop" ∧
      helperName f t ≠ ascii "str" := by
  have e1 : ascii "bool2int" = [98, 111, 111, 108, 50, 105, 110, 116] := by rfl
  have e2 : ascii "drop" = [100, 114, 111, 112] := by rfl
  have e3 : ascii "str" = [115, 116, 114] := by rfl
  rw [helperName_bytes, e1, e2, e3]
  refine ⟨?_, ?_, ?_⟩ <;> intro h <;> cases f <;>
    simp only [List.cons_append, List.nil_append, List.cons.injEq, true_and] at h <;>
    exact absurd h.1 (by decide)

/-- How often a helper name stands among the names of the helpers of a family. -/
theorem count_helperName (f f1 : Family) (t : TypeID) (l : List typeNfo) :
    (l.map (fun v => helperName f1 v.TypeID)).count (helperName f t) =
      if f1 = f then (l.map typeNfo.TypeID).count t else 0 := by
  by_cases hf : f1 = f
  · subst hf
    rw [if_pos rfl]
    induction l with
    | nil => rfl
    | cons v l ih =>
      rw [List.map_cons, List.map_cons, List.count_cons, List.count_cons, ih]
      by_cases hv : v.TypeID = t
      · rw [hv]; simp
      · have hne : helperName f1 v.TypeID ≠ helperName f1 t :=
          fun hc => hv (helperName_inj f1 f1 _ _ hc).2
        simp [hv, hne]
  · rw [if_neg hf]
    apply List.count_eq_zero_of_not_mem
    intro hm
    obtain ⟨v, _, hv⟩ := List.mem_map.mp hm
    exact hf (helperName_inj f1 f v.TypeID t hv).1

/-- In the names the helper part of `gen.gen` defines, the name of a helper
of a family stands once if the need was recorded and not otherwise. -/
theorem genHelpers_count {ι : Type} (env : Env ι) (hd : env.dict.Interning)
    (hr : IsRange env.rangeKeys) (hs : IsSortSlice env.sortSlice)
    (rs : List (Family × TypeID)) (g g1 : generator ι) (text : List Byte)
    (hg : ∀ f, g.need f = (requestRun ι rs).need f)
    (hrun : genHelpers env g = .ok ((), text, g1)) (f : Family) (t : TypeID)
    (rest : List Byte) :
    (definedNames (text ++ rest)).count (helperName f t) =
      (if (f, t) ∈ rs then 1 else 0) + (definedNames rest).count (helperName f t) := by
  have hone : ∀ f1, ((helpers env (g.need f1)).map typeNfo.TypeID).count t =
      if (f1, t) ∈ rs then 1 else 0 := by
    intro f1
    obtain ⟨hn, hm⟩ := requestRun_need ι rs f1
    rw [hg f1, (helpers_ids_perm env hr hs _).count_eq]
    split
    · rename_i h
      exact List.count_eq_one_of_mem hn ((hm t).2 h)
    · rename_i h
      exact List.count_eq_zero_of_not_mem (fun hc => h ((hm t).1 hc))
  have hb := (helperName_ne_fixed f t).1
  have hdr := (helperName_ne_fixed f t).2.1
  rw [(genHelpers_names env hd g g1 text hrun).2 rest]
  rw [List.count_cons_of_ne hb, List.count_append, List.count_cons_of_ne hdr,
    List.count_append, List.count_append, List.count_append, List.count_append]
  simp only [count_helperName]
  have h1 := hone .copy
  have h2 := hone .postInc
  have h3 := hone .preInc
  have h4 := hone .storebits
  have h5 := hone .store
  simp only [generator.need] at h1 h2 h3 h4 h5
  cases f <;> simp [h1, h2, h3, h4, h5]


/-! ### The helper part within the text of `gen.gen` -/

theorem textLines_cons_nl (cur r : List Byte) (x : Byte) (hx : x.val = 10) :
    textLines cur (x :: r) = cur :: textLines [] r := by
  show (if x.val = 10 then cur :: textLines [] r else textLines (cur ++ [x]) r) = _
  rw [if_pos hx]

theorem textLines_cons_other (cur r : List Byte) (x : Byte) (hx : x.val ≠ 10) :
    textLines cur (x :: r) = textLines (cur ++ [x]) r := by
  show (if x.val = 10 then cur :: textLines [] r else textLines (cur ++ [x]) r) = _
  rw [if_neg hx]

/-- The names a text defines behind a complete line are those of the lines up
to it and those of the rest. -/
theorem names_append_line (p rest cur : List Byte) :
    (textLines cur (p ++ 10 :: rest)).filterMap definedName =
      (textLines cur (p ++ [10])).filterMap definedName ++ definedNames rest := by
  induction p generalizing cur with
  | nil =>
    rw [List.nil_append, List.nil_append, textLines_cons_nl _ _ _ (by decide),
      textLines_cons_nl _ _ _ (by decide)]
    have e : (textLines [] ([] : List Byte)).filterMap definedName = [] := by rfl
    rw [List.filterMap_cons, List.filterMap_cons, e]
    cases definedName cur <;> simp [definedNames]
  | cons x p ih =>
    rw [List.cons_append, List.cons_append]
    by_cases hx : x.val = 10
    · rw [textLines_cons_nl _ _ _ hx, textLines_cons_nl _ _ _ hx, List.filterMap_cons,
        List.filterMap_cons, ih []]
      cases definedName cur <;> simp
    · rw [textLines_cons_other _ _ _ hx, textLines_cons_other _ _ _ hx, ih]

theorem definedNames_append_line (p rest : List Byte) :
    definedNames (p ++ 10 :: rest) = definedNames (p ++ [10]) ++ definedNames rest :=
  names_append_line p rest []

/-- A sequence whose last part ends in a newline ends in a newline. -/
theorem Emit.bind_endsLine {ι α : Type} (m : Emit ι α) (k : α → Emit ι Unit)
    (hk : ∀ a g t g1, k a g = .ok ((), t, g1) → ∃ p, t = p ++ [10])
    (g : generator ι) (t : List Byte) (g1 : generator ι)
    (h : Emit.bind m k g = .ok ((), t, g1)) : ∃ p, t = p ++ [10] := by
  obtain ⟨a, u, g2, v, _, h2, rfl⟩ := Emit.bind_ok _ _ _ _ _ _ h
  obtain ⟨p, rfl⟩ := hk a g2 v g1 h2
  exact ⟨u ++ p, by rw [List.append_assoc]⟩

/-- What `gen.functionDefinition` writes, if anything, ends in a newline. -/
theorem functionDefinition_endsLine {ι : Type} [DecidableEq ι] (env : Env ι) (oi : Int)
    (fd : FunctionDefinition ι) (g g1 : generator ι) (t : List Byte)
    (h : functionDefinition env oi fd g = .ok ((), t, g1)) : t = [] ∨ ∃ p, t = p ++ [10] := by
  unfold functionDefinition at h
  obtain ⟨q, u, g2, v, hq, h2, rfl⟩ := Emit.bind_ok _ _ _ _ _ _ h
  have hu : u = [] := by
    unfold isBuiltin at hq
    split at hq
    · simp only [Except.ok.injEq, Prod.mk.injEq] at hq; exact hq.2.1.symm
    · split at hq
      · cases hq
      · split at hq
        · cases hq
        · split at hq
          · simp only [Except.ok.injEq, Prod.mk.injEq] at hq; exact hq.2.1.symm
          · simp only [Except.ok.injEq, Prod.mk.injEq] at hq; exact hq.2.1.symm
        · simp only [Except.ok.injEq, Prod.mk.injEq] at hq; exact hq.2.1.symm
  subst hu
  rw [List.nil_append]
  by_cases hb : q.2 = true
  · rw [if_pos hb] at h2
    simp only [Emit.pure, Except.ok.injEq, Prod.mk.injEq, true_and] at h2
    exact Or.inl h2.1.symm
  · rw [if_neg hb] at h2
    right
    refine Emit.bind_endsLine _ _ (fun f => ?_) _ _ _ h2
    refine Emit.bind_endsLine _ _ (fun nm => ?_)
    refine Emit.bind_endsLine _ _ (fun _ => ?_)
    refine Emit.bind_endsLine _ _ (fun _ => ?_)
    refine Emit.bind_endsLine _ _ (fun _ => ?_)
    refine Emit.bind_endsLine _ _ (fun _ => ?_)
    refine Emit.bind_endsLine _ _ (fun _ => ?_)
    intro g3 t3 g4 h3
    obtain ⟨rfl, _⟩ := ws_ok _ _ _ _ h3
    exact ⟨ascii "\x7d\n", by rfl⟩

/-- What `gen.dataDefinition` writes ends in a newline. -/
theorem dataDefinition_endsLine {ι : Type} [DecidableEq ι] (env : Env ι)
    (d : DataDefinition ι) (g g1 : generator ι) (t : List Byte)
    (h : dataDefinition env d g = .ok ((), t, g1)) : ∃ p, t = p ++ [10] := by
  unfold dataDefinition at h
  refine Emit.bind_endsLine _ _ (fun nm => ?_) _ _ _ h
  refine Emit.bind_endsLine _ _ (fun T => ?_)
  intro g2 t2 g3 h2
  obtain ⟨_, u, g4, v, hw, h3, rfl⟩ := Emit.bind_ok _ _ _ _ _ _ h2
  obtain ⟨rfl, rfl⟩ := w_ok _ _ _ _ hw
  by_cases hz : env.isZeroValue d.Value = true
  · rw [if_pos hz] at h3
    simp only [Emit.pure, Except.ok.injEq, Prod.mk.injEq, true_and] at h3
    rw [← h3.1, List.append_nil]
    exact ⟨ascii "var " ++ env.dict.S nm ++ ascii " " ++ env.dict.S T ++ ascii " // " ++
      env.PositionString (pos env d.Position) ++ ascii "\n", by
        have e : ascii "\n\n" = ascii "\n" ++ [10] := by rfl
        rw [e]; simp only [List.append_assoc]⟩
  · rw [if_neg hz] at h3
    have : ∃ p, v = p ++ [10] := by
      refine Emit.bind_endsLine _ _ (fun _ => ?_) _ _ _ h3
      refine Emit.bind_endsLine _ _ (fun _ => ?_)
      refine Emit.bind_endsLine _ _ (fun _ => ?_)
      intro g5 t5 g6 h5
      obtain ⟨rfl, _⟩ := ws_ok _ _ _ _ h5
      exact ⟨ascii "\n\x7d\n", by rfl⟩
    obtain ⟨p, rfl⟩ := this
    exact ⟨_, (List.append_assoc _ p [10]).symm⟩

/-- What the loop of `gen.gen` over the objects writes, if anything, ends in a
newline. -/
theorem genObjects_endsLine {ι : Type} [DecidableEq ι] (env : Env ι)
    (l : List (Object ι)) (i : Nat) (g g1 : generator ι) (t : List Byte)
    (h : forEachIdx (genObject env) i l g = .ok ((), t, g1)) : t = [] ∨ ∃ p, t = p ++ [10] := by
  induction l generalizing i g t with
  | nil =>
    simp only [forEachIdx, Emit.pure, Except.ok.injEq, Prod.mk.injEq, true_and] at h
    exact Or.inl h.1.symm
  | cons v l ih =>
    simp only [forEachIdx] at h
    obtain ⟨_, u, g2, r, hv, hl, rfl⟩ := Emit.bind_ok _ _ _ _ _ _ h
    have hu : u = [] ∨ ∃ p, u = p ++ [10] := by
      cases v with
      | FunctionDefinition x => exact functionDefinition_endsLine env _ x _ _ _ hv
      | DataDefinition x => exact Or.inr (dataDefinition_endsLine env x _ _ _ hv)
      | Other => cases hv
    rcases ih _ _ _ hl with hr | ⟨p, hp⟩
    · rw [hr, List.append_nil]; exact hu
    · exact Or.inr ⟨u ++ p, by rw [hp, List.append_assoc]⟩

/-- The names the last lines of `gen.gen` define: `str`, when there is a
string table, and none otherwise. -/
theorem strTab_names {ι : Type} (g0 g1 : generator ι) (s t : List Byte)
    (h : (if s.length ≠ 0 then
        Emit.bind (ws "func str(n int) *int8 \x7b return (*int8)(unsafe.Pointer(&strTab[n]))\x7d\n")
          fun _ =>
        Emit.bind (w (ascii "var strTab = []byte(" ++ [34])) fun _ =>
        Emit.bind (forEach (fun v => w (strTabByte v)) s) fun _ =>
        w ([34] ++ ascii ")\n")
      else Emit.pure ()) g0 = .ok ((), t, g1)) :
    definedNames t = [] ∨ definedNames t = [ascii "str"] := by
  by_cases hs : s.length ≠ 0
  · rw [if_pos hs] at h
    right
    obtain ⟨_, u1, s1, r1, h1, k1, rfl⟩ := Emit.bind_ok _ _ _ _ _ _ h
    obtain ⟨rfl, rfl⟩ := ws_ok _ _ _ _ h1
    obtain ⟨_, u2, s2, r2, h2, k2, rfl⟩ := Emit.bind_ok _ _ _ _ _ _ k1
    obtain ⟨rfl, rfl⟩ := w_ok _ _ _ _ h2
    obtain ⟨_, u3, s3, r3, h3, k3, rfl⟩ := Emit.bind_ok _ _ _ _ _ _ k2
    rw [forEach_strTabByte] at h3
    simp only [Except.ok.injEq, Prod.mk.injEq, true_and] at h3
    obtain ⟨rfl, rfl⟩ := h3
    obtain ⟨rfl, rfl⟩ := w_ok _ _ _ _ k3
    have hp : ∀ l : List Byte, l.all (fun b => decide (b.val ≠ 40)) = true →
        ∀ b ∈ l, b.val ≠ 40 := fun l hl b hb => of_decide_eq_true (List.all_eq_true.mp hl b hb)
    have e1 : ascii "func str(n int) *int8 \x7b return (*int8)(unsafe.Pointer(&strTab[n]))\x7d\n" =
        ascii "func " ++ (ascii "str" ++
          40 :: (ascii "n int) *int8 \x7b return (*int8)(unsafe.Pointer(&strTab[n]))\x7d" ++
            [10])) := by rfl
    have e2 : ascii "var strTab = []byte(" ++ [34] ++ (strTabBody s ++ ([34] ++ ascii ")\n")) =
        (ascii "var strTab = []byte(" ++ [34] ++ strTabBody s ++ [34, 41]) ++ [10] := by
      have : ascii ")\n" = [41, 10] := by rfl
      rw [this]
      simp only [List.append_assoc, List.cons_append, List.nil_append]
    have hline : NoNewline (ascii "var strTab = []byte(" ++ [34] ++ strTabBody s ++ [34, 41]) := by
      refine (((noNewline_of_all _ (by rfl)).append (noNewline_of_all _ (by rfl))).append
        ?_).append (noNewline_of_all _ (by rfl))
      intro b hb
      have := strTabBody_printable s b hb
      omega
    have hvar : definedName (ascii "var strTab = []byte(" ++ [34] ++ strTabBody s ++ [34, 41]) =
        none := by
      have e : ascii "var strTab = []byte(" = [118, 97, 114, 32, 115] ++ ascii "trTab = []byte(" := by
        rfl
      unfold definedName
      rw [e]
      simp only [List.cons_append, List.nil_append, List.take_succ_cons, List.take_zero]
      rw [if_neg (by decide)]
    rw [e2, e1]
    simp only [List.append_assoc, List.cons_append, List.nil_append]
    rw [definedNames_line_right _ _ _ (hp _ (by rfl)) (noNewline_of_all _ (by rfl))
      (noNewline_of_all _ (by rfl))]
    have e3 : ascii "var strTab = []byte(" ++ 34 :: (strTabBody s ++ [34, 41, 10]) =
        (ascii "var strTab = []byte(" ++ [34] ++ strTabBody s ++ [34, 41]) ++ 10 :: [] := by
      simp only [List.append_assoc, List.cons_append, List.nil_append]
    rw [e3]
    unfold definedNames
    rw [textLines_line _ hline, List.nil_append]
    simp only [textLines, List.filterMap_cons, hvar]
    rfl
  · rw [if_neg hs] at h
    simp only [Emit.pure, Except.ok.injEq, Prod.mk.injEq, true_and] at h
    rw [← h.1]
    exact Or.inl rfl

/-- C11: let the package clause and the objects of `gen.gen` write `pre` and
leave the needs `rs` recorded, each by `g.copies[x.TypeID] = struct{}{}` or
its like, and let `gen.gen` write `text`.  Then `text` is `pre` and a tail,
the helper lines and the string table; the functions that `text` defines at
the beginning of its lines are those of `pre` followed by those of the tail;
and among those of the tail one is named `<family>_<type id>` exactly once if
the pair of the family and the type id is among `rs`, however often, and none
is otherwise.  The order in which Go ranges over a set and `sort.Slice` only
permute. -/
theorem helper_definitions_once {ι : Type} [DecidableEq ι] (env : Env ι)
    (hd : env.dict.Interning) (hr : IsRange env.rangeKeys) (hs : IsSortSlice env.sortSlice)
    (rs : List (Family × TypeID)) (g0 gm g1 : generator ι) (pre text : List Byte)
    (hobj : Emit.bind (ws "package foo\n") (fun _ => forEachIdx (genObject env) 0 env.obj) g0 =
      .ok ((), pre, gm))
    (hg : ∀ f, gm.need f = (requestRun ι rs).need f)
    (hrun : genText env g0 = .ok ((), text, g1)) :
    ∃ tail, text = pre ++ tail ∧
      definedNames text = definedNames pre ++ definedNames tail ∧
      ∀ f t, (definedNames tail).count (helperName f t) = if (f, t) ∈ rs then 1 else 0 := by
  unfold genText at hrun
  obtain ⟨_, u1, s1, r1, h1, k1, rfl⟩ := Emit.bind_ok _ _ _ _ _ _ hrun
  obtain ⟨_, u2, s2, r2, h2, k2, rfl⟩ := Emit.bind_ok _ _ _ _ _ _ k1
  have hpre : Emit.bind (ws "package foo\n") (fun _ => forEachIdx (genObject env) 0 env.obj) g0 =
      .ok ((), u1 ++ u2, s2) := by
    unfold Emit.bind
    rw [h1]
    simp only [h2]
  rw [hpre] at hobj
  simp only [Except.ok.injEq, Prod.mk.injEq, true_and] at hobj
  obtain ⟨rfl, rfl⟩ := hobj
  obtain ⟨rfl, _⟩ := ws_ok _ _ _ _ h1
  obtain ⟨_, sec, s3, r3, h3, k3, rfl⟩ := Emit.bind_ok _ _ _ _ _ _ k2
  obtain ⟨a4, u4, s4, post, h4, k4, rfl⟩ := Emit.bind_ok _ _ _ _ _ _ k3
  obtain ⟨rfl, rfl, rfl⟩ := getGen_ok _ _ _ _ h4
  refine ⟨sec ++ post, by simp only [List.append_assoc, List.nil_append], ?_, ?_⟩
  · have hends : ∃ p, ascii "package foo\n" ++ u2 = p ++ [10] := by
      rcases genObjects_endsLine env _ _ _ _ _ h2 with hu | ⟨p, hp⟩
      · exact ⟨ascii "package foo", by rw [hu]; rfl⟩
      · exact ⟨ascii "package foo\n" ++ p, by rw [hp, List.append_assoc]⟩
    obtain ⟨p, hp⟩ := hends
    have e : ascii "package foo\n" ++ (u2 ++ (sec ++ ([] ++ post))) =
        p ++ 10 :: (sec ++ post) := by
      rw [← List.append_assoc, hp]
      simp only [List.append_assoc, List.cons_append, List.nil_append]
    rw [e, hp, definedNames_append_line]
  · intro f t
    rw [genHelpers_count env hd hr hs rs _ _ sec hg h3 f t post]
    have hpost : (definedNames post).count (helperName f t) = 0 := by
      rcases strTab_names _ _ _ _ k4 with hn | hn
      · rw [hn]; rfl
      · rw [hn, List.count_cons_of_ne (helperName_ne_fixed f t).2.2]
        rfl
    rw [hpost, Nat.add_zero]

set_option maxRecDepth 100000 in
set_option maxHeartbeats 4000000 in
/-- C11 at a unit whose one function calls `copy_1` at two places: the text
is the package clause and the function, then the helper lines, and these
define `copy_1` once. -/
theorem helper_definitions_once_witness :
    ∃ tail, demoCopyObjects ++ demoCopyHelpers = demoCopyObjects ++ tail ∧
      definedNames (demoCopyObjects ++ demoCopyHelpers) =
        definedNames demoCopyObjects ++ definedNames tail ∧
      ∀ f t, (definedNames tail).count (helperName f t) =
        if (f, t) ∈ [(Family.copy, (1 : TypeID)), (Family.copy, 1)] then 1 else 0 :=
  helper_definitions_once demoCopyEnv bytesDict_interning id_isRange insertionSort_isSortSlice
    [(.copy, 1), (.copy, 1)] (newGenerator (List Byte)) demoCopyState demoCopyState
    demoCopyObjects
    (demoCopyObjects ++ demoCopyHelpers) (by rfl) (fun f => by cases f <;> rfl) (by rfl)

end Irgo
